import Mathlib

/-!
# RouteOptimize: a shallow embedding of the VRP route-construction core

This file embeds, in Lean 4, the route-construction algorithms of the
RouteOptimize repository (`src/backend/backend_app.py` and
`src/backend/vrp_algorithms.py`) and proves or refutes the specification
claims about them.

Modelling conventions:

* Python floats are modelled as rationals (`ℚ`).  Because the kernel cannot
  unfold the builtin `Rat` arithmetic, we first build a small verified
  arithmetic layer (`qadd`, `qsub`, `qmul`, `qdiv`, ...) whose operations
  are kernel-computable and provably equal to the Mathlib operations.
* `calculate_distance` (a haversine formula over `math.sin`/`cos`/`atan2`,
  i.e. transcendental floating-point code) is modelled as an abstract
  distance-function parameter, exactly as the four `vrp_algorithms.py`
  algorithms receive it; universal theorems quantify over it, concrete
  counterexamples instantiate it with a table that is realisable by the
  real haversine on suitable coordinates.  The same is done for the polar
  angle `atan2` used by the sweep algorithm.
* `two_opt_improve` and `calculate_route_metrics` are *parameters* of the
  four advanced algorithms in the source.  Their implementations are not
  part of `src/` (the import in `vrp_algorithms.py` fails and falls back),
  so concrete instances are modelled from the spec (§4.3, §4.4) below and
  clearly marked; universal theorems only assume the properties stated.
* Python dict access `d['k']` (raising `KeyError`) is modelled by a plain
  structure field on the "strict" record types used by `vrp_algorithms.py`;
  `d.get('k', v)` is modelled by an `Option` field read with `getD v`,
  matching `backend_app.py`.
* Cosmetic route colours (`route['color']`, assigned round-robin from a
  palette and explicitly excluded from the spec's test-relevant
  invariants) are omitted from the embedded route records.
-/

/-! ## A kernel-computable layer of rational arithmetic

`Rat.add` etc. are irreducible for the kernel, so every arithmetic
operation used inside embedded code is re-implemented through the raw
`Rat.mk'` constructor plus `Nat.gcd` (both kernel-computable) and proved
equal to the Mathlib operation. -/

/-- Build the rational `n / d` (for `0 < d`) in normalised form. -/
def qmk (n : Int) (d : Nat) (hd : 0 < d) : ℚ :=
  ⟨n / (n.natAbs.gcd d : Int), d / n.natAbs.gcd d,
   by
     have hg : 0 < n.natAbs.gcd d := Nat.gcd_pos_of_pos_right _ hd
     exact Nat.ne_of_gt (Nat.div_pos (Nat.le_of_dvd hd (Nat.gcd_dvd_right _ _)) hg),
   by
     have hg : 0 < n.natAbs.gcd d := Nat.gcd_pos_of_pos_right _ hd
     have hdvd : ((n.natAbs.gcd d : Nat) : Int) ∣ n :=
       Int.natCast_dvd.mpr (Nat.gcd_dvd_left _ _)
     have h1 : (n / (n.natAbs.gcd d : Int)).natAbs = n.natAbs / n.natAbs.gcd d := by
       rw [Int.natAbs_ediv _ _ hdvd]; simp
     rw [h1]
     exact Nat.coprime_div_gcd_div_gcd hg⟩

/-- Kernel-computable cast of an integer into `ℚ`. -/
def qofInt (z : Int) : ℚ := ⟨z, 1, one_ne_zero, Nat.coprime_one_right _⟩

/-- Kernel-computable cast of a natural number into `ℚ`. -/
def qofNat (n : Nat) : ℚ := qofInt (n : Int)

/-- Kernel-computable addition on `ℚ`, equal to `x + y`. -/
def qadd (x y : ℚ) : ℚ :=
  qmk (x.num * y.den + y.num * x.den) (x.den * y.den) (Nat.mul_pos x.pos y.pos)

/-- Kernel-computable negation on `ℚ`, equal to `-x`. -/
def qneg (x : ℚ) : ℚ := ⟨-x.num, x.den, x.den_nz, by simpa using x.reduced⟩

/-- Kernel-computable subtraction on `ℚ`, equal to `x - y`. -/
def qsub (x y : ℚ) : ℚ := qadd x (qneg y)

/-- Kernel-computable multiplication on `ℚ`, equal to `x * y`. -/
def qmul (x y : ℚ) : ℚ :=
  qmk (x.num * y.num) (x.den * y.den) (Nat.mul_pos x.pos y.pos)

/-- Build `n / d` for two integers; `d = 0` yields `0` (the Lean `ℚ`
division convention, used so that `qdiv` agrees with `x / y` everywhere). -/
def qmkInt (n d : Int) : ℚ :=
  if hd : 0 < d then qmk n d.toNat (by omega)
  else if hd' : d < 0 then qmk (-n) (-d).toNat (by omega)
  else 0

/-- Kernel-computable division on `ℚ`, equal to `x / y` (with the usual
`x / 0 = 0` convention on both sides). -/
def qdiv (x y : ℚ) : ℚ := qmkInt (x.num * y.den) (x.den * y.num)

/-- Kernel-computable sum of a list of rationals, folded from `0` on the
left exactly as Python's builtin `sum`. -/
def qsum (l : List ℚ) : ℚ := l.foldl qadd 0

/-- Floor of a rational as an integer (`x.num / x.den` with Euclidean
division is exactly the floor since `x.den > 0`). -/
def qfloor (x : ℚ) : Int := x.num / (x.den : Int)

/-- Python's `round(x, 1)` as used on reported route distances.  Python
rounds floats half-to-even in binary; the claims under study never depend
on the rounded value, so the standard half-up rounding is used here. -/
def pyRound1 (x : ℚ) : ℚ :=
  qdiv (qofInt (qfloor (qadd (qmul x (qofNat 10)) (qmk 1 2 (by norm_num))))) (qofNat 10)

/-! ## Kernel-computable string helpers

`String.toLower`, `String.toInt?` and `String.split` do not reduce in the
kernel, so the small pieces of string processing the backend needs are
re-implemented over `String.data`. -/

/-- ASCII lower-casing of one character (what Python's `str.lower`
does on the ASCII identifiers compared in this code base). -/
def pyCharLower (c : Char) : Char :=
  if 'A' ≤ c ∧ c ≤ 'Z' then Char.ofNat (c.toNat + 32) else c

/-- ASCII `str.lower`. -/
def pyLower (s : String) : String := ⟨s.data.map pyCharLower⟩

/-- Split a character list at `':'` (Python `str.split(':')`). -/
def splitColonAux : List Char → List Char → List (List Char)
  | [], acc => [acc.reverse]
  | c :: cs, acc =>
      if c = ':' then acc.reverse :: splitColonAux cs []
      else splitColonAux cs (c :: acc)

/-- Python `str.split(':')`. -/
def pySplitColon (s : String) : List String :=
  (splitColonAux s.data []).map (fun l => ⟨l⟩)

/-- Parse a decimal digit. -/
def pyDigit (c : Char) : Option Nat :=
  if '0' ≤ c ∧ c ≤ '9' then some (c.toNat - 48) else none

def pyDigitsToNat : List Char → Option Nat → Option Nat
  | [], acc => acc
  | c :: cs, acc =>
      match pyDigit c with
      | none => none
      | some d => pyDigitsToNat cs (some ((acc.getD 0) * 10 + d))

/-- Python `int(s)` on the strings this code base parses: an optional
sign followed by decimal digits; anything else raises `ValueError`
(modelled as `none`; the caller wraps the call in `try/except`). -/
def pyToInt (s : String) : Option Int :=
  match s.data with
  | [] => none
  | '-' :: rest => (pyDigitsToNat rest none).map (fun n => -(n : Int))
  | '+' :: rest => (pyDigitsToNat rest none).map (fun n => (n : Int))
  | l => (pyDigitsToNat l none).map (fun n => (n : Int))

/-! ## Shared model types for `backend_app.py`

`backend_app.py` reads every order/vehicle field except `order['id']`
through `dict.get` with a default, so those fields are `Option`s read with
`getD`; `order['id']` is a direct subscript and is a plain field. -/

/-- The distance oracle: `calculate_distance(lat1, lon1, lat2, lon2)`.
The real function is a haversine formula (with a 1.3 road factor) over
floating-point trigonometry; it is modelled as an abstract parameter in
the same way `vrp_algorithms.py` receives it as an argument. -/
abbrev DistFn := ℚ → ℚ → ℚ → ℚ → ℚ

/-- An order as consumed by `backend_app.py`. -/
structure BOrder where
  id : String
  lat : Option ℚ
  lng : Option ℚ
  weight : Option ℚ
  priority : Option String
  windowEnd : Option String
deriving DecidableEq

/-- A vehicle as consumed by `backend_app.py` (all reads are `dict.get`). -/
structure BVehicle where
  id : Option String
  maxCapacity : Option ℚ
  type : Option String
  fuelType : Option String
deriving DecidableEq

def bweight (o : BOrder) : ℚ := o.weight.getD 0

def blat (o : BOrder) : ℚ := o.lat.getD 0

def blng (o : BOrder) : ℚ := o.lng.getD 0

/-- `priority_map.get(order.get('priority', 'standard').lower(), 2)`. -/
def bpriorityScore (o : BOrder) : Nat :=
  let s := pyLower (o.priority.getD "standard")
  if s = "express" then 0 else if s = "urgent" then 1 else 2

def bcap (v : BVehicle) : ℚ := v.maxCapacity.getD 0

/-- `vehicle.get('type', '').lower()`. -/
def btype (v : BVehicle) : String := pyLower (v.type.getD "")

/-- `vehicle.get('fuelType', '').lower() == 'electric'`. -/
def bIsElectric (v : BVehicle) : Bool := pyLower (v.fuelType.getD "") = "electric"

/-- Depot latitude 46.0569 (Ljubljana centre). -/
def depot_lat : ℚ := qmk 460569 10000 (by norm_num)

/-- Depot longitude 14.5058. -/
def depot_lng : ℚ := qmk 145058 10000 (by norm_num)

/-- `time_to_minutes`: parse `HH:MM[:SS]` to minutes from midnight;
empty or unparsable input gives `None` (the Python body catches every
exception, including the `IndexError` when there is no `':'`). -/
def time_to_minutes (time_str : String) : Option Int :=
  if time_str = "" then none
  else
    match pySplitColon time_str with
    | p0 :: p1 :: _ =>
        match pyToInt p0, pyToInt p1 with
        | some hours, some minutes => some (hours * 60 + minutes)
        | _, _ => none
    | _ => none

/-- `calculate_time_penalty(arrival_time, window_end, tolerance_minutes=60)`:
returns `(on_time, lateness_minutes)`. -/
def calculate_time_penalty (arrival_time : ℚ) (window_end : Option ℚ)
    (tolerance_minutes : ℚ) : Bool × ℚ :=
  match window_end with
  | none => (true, 0)
  | some w =>
      if arrival_time ≤ qadd w tolerance_minutes then
        if arrival_time ≤ w then (true, 0)
        else (true, qsub arrival_time w)
      else (false, qsub arrival_time w)

/-- Vehicle sort key used by both backend algorithms (and by the sweep
and balanced algorithms): electric first, then descending capacity;
Python's `sorted` is stable, which `List.insertionSort` reproduces. -/
def vehLe (a b : BVehicle) : Prop :=
  (if bIsElectric a then (0:Nat) else 1) < (if bIsElectric b then (0:Nat) else 1) ∨
  ((if bIsElectric a then (0:Nat) else 1) = (if bIsElectric b then (0:Nat) else 1) ∧
    bcap b ≤ bcap a)

instance : DecidableRel vehLe := fun a b => by unfold vehLe; infer_instance

def sortVehicles (vehicles : List BVehicle) : List BVehicle :=
  List.insertionSort vehLe vehicles

/-- Range limit by vehicle type: `float('inf')` becomes `none`. -/
def bMaxRadius (v : BVehicle) : Option ℚ :=
  if btype v = "bike" then some (qofNat 15)
  else if btype v = "van" then some (qofNat 50)
  else none

/-- `dist_from_depot > max_radius` with `max_radius = float('inf')`
represented by `none`. -/
def radiusExceeded (maxRadius : Option ℚ) (d : ℚ) : Bool :=
  match maxRadius with
  | some r => decide (r < d)
  | none => false

/-! ## `distance_first_algorithm` (backend_app.py lines 102-253) -/

/-- A delivered stop: the order copy plus the arrival fields the
algorithms attach to it. -/
structure BStop where
  ord : BOrder
  arrivalTime : ℚ
  onTime : Bool
  lateness : ℚ
deriving DecidableEq

structure BRoute where
  vehicle : BVehicle
  orders : List BStop
  totalWeight : ℚ
  totalDistance : ℚ
  onTimeDeliveries : Nat
  lateDeliveries : Nat
  totalLateness : ℚ
deriving DecidableEq

/-- One iteration of the inner `for order in orders` scan looking for the
nearest feasible order.  The accumulator holds `nearest_order` together
with its `nearest_distance`; note that the source compares the candidate
`score` (distance plus priority tie-break) against the stored raw
`nearest_distance` of the incumbent, and stores the raw distance — not
the score — when it replaces it. -/
def dfStep (dist : DistFn) (assigned : List String) (totalW maxCap : ℚ)
    (maxRadius : Option ℚ) (curLat curLng : ℚ)
    (best : Option (BOrder × ℚ)) (o : BOrder) : Option (BOrder × ℚ) :=
  if o.id ∈ assigned then best
  else if maxCap < qadd totalW (bweight o) then best
  else if radiusExceeded maxRadius (dist depot_lat depot_lng (blat o) (blng o)) then best
  else
    let dcur := dist curLat curLng (blat o) (blng o)
    let score := qadd dcur (qmul (qofNat (bpriorityScore o)) (qmk 1 2 (by norm_num)))
    match best with
    | none => some (o, dcur)
    | some (_, bd) => if score < bd then some (o, dcur) else best

def dfScan (dist : DistFn) (assigned : List String) (totalW maxCap : ℚ)
    (maxRadius : Option ℚ) (curLat curLng : ℚ) (orders : List BOrder) :
    Option (BOrder × ℚ) :=
  orders.foldl (dfStep dist assigned totalW maxCap maxRadius curLat curLng) none

/-- The `while True` loop of `distance_first_algorithm` for one vehicle.
The loop always terminates because every iteration adds a fresh order id
to `assigned`; `fuel` is instantiated with `orders.length + 1`, which the
loop can never exhaust. -/
def dfVehicleLoop (dist : DistFn) (orders : List BOrder) (maxCap : ℚ)
    (maxRadius : Option ℚ) :
    Nat → BRoute → ℚ → ℚ → ℚ → List String → BRoute × List String
  | 0, route, _, _, _, assigned => (route, assigned)
  | fuel+1, route, curLat, curLng, curTime, assigned =>
    match dfScan dist assigned route.totalWeight maxCap maxRadius curLat curLng orders with
    | none => (route, assigned)
    | some (o, nd) =>
        let travel := qmul (qdiv nd (qofNat 40)) (qofNat 60)
        let arrival := qadd (qadd curTime travel) (qofNat 5)
        let we := (time_to_minutes (o.windowEnd.getD "")).map qofInt
        let p := calculate_time_penalty arrival we (qofNat 60)
        let route' : BRoute :=
          { vehicle := route.vehicle
            orders := route.orders ++ [⟨o, arrival, p.1, p.2⟩]
            totalWeight := qadd route.totalWeight (bweight o)
            totalDistance := qadd route.totalDistance nd
            onTimeDeliveries := route.onTimeDeliveries + (if p.1 then 1 else 0)
            lateDeliveries := route.lateDeliveries + (if p.1 then 0 else 1)
            totalLateness := qadd route.totalLateness p.2 }
        dfVehicleLoop dist orders maxCap maxRadius fuel route' (blat o) (blng o)
          arrival (assigned ++ [o.id])

/-- Process one vehicle of `distance_first_algorithm`: run the greedy
loop from the depot at 08:00 and append the route (with the rounded
closing leg) only when it served at least one order. -/
def dfProcessVehicle (dist : DistFn) (orders : List BOrder)
    (acc : List BRoute × List String) (v : BVehicle) : List BRoute × List String :=
  let res := dfVehicleLoop dist orders (bcap v) (bMaxRadius v) (orders.length + 1)
    ⟨v, [], 0, 0, 0, 0, 0⟩ depot_lat depot_lng (qofNat 480) acc.2
  match (res.1).orders.getLast? with
  | none => (acc.1, res.2)
  | some lastStop =>
      let ret := dist (blat lastStop.ord) (blng lastStop.ord) depot_lat depot_lng
      (acc.1 ++ [{ res.1 with
        totalDistance := pyRound1 (qadd (res.1).totalDistance ret) }], res.2)

/-- `distance_first_algorithm(orders, vehicles)`; returns
`(routes, len(assigned_orders))`. -/
def distance_first_algorithm (dist : DistFn) (orders : List BOrder)
    (vehicles : List BVehicle) : List BRoute × Nat :=
  let res := (sortVehicles vehicles).foldl (dfProcessVehicle dist orders) ([], [])
  (res.1, res.2.length)

/-! ## `time_first_algorithm` (backend_app.py lines 257-408) -/

/-- The sort key of `sorted(orders, key=lambda x:
time_to_minutes(x.get('windowEnd', '23:59:00')) or 1440)`.  Note the two
quirks inherited from the source: a *missing* `windowEnd` field defaults
to the string `'23:59:00'` (key 1439), while an unparsable one gives
`None` and a parsed midnight `'00:00'` gives `0` — both falsy in Python,
hence both replaced by 1440 by `or 1440`. -/
def tfSortKey (o : BOrder) : Int :=
  match time_to_minutes (o.windowEnd.getD "23:59:00") with
  | none => 1440
  | some m => if m = 0 then 1440 else m

def tfOrderLe (a b : BOrder) : Prop := tfSortKey a ≤ tfSortKey b

instance : DecidableRel tfOrderLe := fun a b => by unfold tfOrderLe; infer_instance

def sortOrdersTF (orders : List BOrder) : List BOrder :=
  List.insertionSort tfOrderLe orders

/-- Per-vehicle working state of `time_first_algorithm` (the route dict
plus the `currentLat`/`currentLng`/`currentTime` helper fields that are
deleted before the routes are returned). -/
structure TfWork where
  route : BRoute
  curLat : ℚ
  curLng : ℚ
  curTime : ℚ
deriving DecidableEq

/-- The data remembered about the best vehicle while scanning. -/
structure TfBest where
  idx : Nat
  arrival : ℚ
  distance : ℚ
  onTime : Bool
  lateness : ℚ
  score : ℚ
deriving DecidableEq

/-- The candidate record built while scanning vehicle `idx`:
arrival time from the vehicle's current position, the
on-time/late-lateness pair, and the score
`(0 if on-time else lateness × 10) + travel-distance`. -/
def tfCand (dist : DistFn) (orderLat orderLng : ℚ) (we : Option ℚ)
    (idx : Nat) (w : TfWork) : TfBest :=
  let dcur := dist w.curLat w.curLng orderLat orderLng
  let travel := qmul (qdiv dcur (qofNat 40)) (qofNat 60)
  let arrival := qadd (qadd w.curTime travel) (qofNat 5)
  let p := calculate_time_penalty arrival we (qofNat 60)
  let timeScore : ℚ := if p.1 then 0 else qmul p.2 (qofNat 10)
  let score := qadd timeScore dcur
  ⟨idx, arrival, dcur, p.1, p.2, score⟩

def tfStepBest (dist : DistFn) (orderW orderLat orderLng : ℚ) (we : Option ℚ)
    (best : Option TfBest) (idx : Nat) (w : TfWork) : Option TfBest :=
  if bcap w.route.vehicle < qadd w.route.totalWeight orderW then best
  else if radiusExceeded (bMaxRadius w.route.vehicle)
      (dist depot_lat depot_lng orderLat orderLng) then best
  else
    match best with
    | none => some (tfCand dist orderLat orderLng we idx w)
    | some b =>
        if (tfCand dist orderLat orderLng we idx w).score < b.score then
          some (tfCand dist orderLat orderLng we idx w)
        else best

def tfStep (dist : DistFn) (orderW orderLat orderLng : ℚ) (we : Option ℚ)
    (acc : Option TfBest × Nat) (w : TfWork) : Option TfBest × Nat :=
  (tfStepBest dist orderW orderLat orderLng we acc.1 acc.2 w, acc.2 + 1)

/-- The in-place update of the winning route dict: append the stop and
bump the totals; the working position/time move to this order. -/
def tfUpdatedWork (o : BOrder) (b : TfBest) (w : TfWork) : TfWork :=
  ⟨{ vehicle := w.route.vehicle
     orders := w.route.orders ++ [⟨o, b.arrival, b.onTime, b.lateness⟩]
     totalWeight := qadd w.route.totalWeight (bweight o)
     totalDistance := qadd w.route.totalDistance b.distance
     onTimeDeliveries := w.route.onTimeDeliveries + (if b.onTime then 1 else 0)
     lateDeliveries := w.route.lateDeliveries + (if b.onTime then 0 else 1)
     totalLateness := qadd w.route.totalLateness b.lateness },
   blat o, blng o, b.arrival⟩

/-- Assign one order (in deadline order) to the best feasible vehicle. -/
def tfAssignOrder (dist : DistFn) (acc : List TfWork × List String)
    (o : BOrder) : List TfWork × List String :=
  if o.id ∈ acc.2 then acc
  else
    let we := (time_to_minutes (o.windowEnd.getD "")).map qofInt
    match (acc.1.foldl (tfStep dist (bweight o) (blat o) (blng o) we) (none, 0)).1 with
    | none => acc
    | some b =>
        match acc.1.get? b.idx with
        | none => acc
        | some w => (acc.1.set b.idx (tfUpdatedWork o b w), acc.2 ++ [o.id])

/-- Closing pass of `time_first_algorithm`: keep non-empty routes, add
the rounded return leg, drop the helper fields. -/
def tfFinish (dist : DistFn) (works : List TfWork) : List BRoute :=
  works.foldl (fun acc w =>
    match w.route.orders.getLast? with
    | none => acc
    | some lastStop =>
        acc ++ [{ w.route with
          totalDistance := pyRound1 (qadd w.route.totalDistance
            (dist (blat lastStop.ord) (blng lastStop.ord) depot_lat depot_lng)) }]) []

/-- `time_first_algorithm(orders, vehicles)`. -/
def time_first_algorithm (dist : DistFn) (orders : List BOrder)
    (vehicles : List BVehicle) : List BRoute × Nat :=
  let works0 := (sortVehicles vehicles).map
    (fun v => (⟨⟨v, [], 0, 0, 0, 0, 0⟩, depot_lat, depot_lng, qofNat 480⟩ : TfWork))
  let res := (sortOrdersTF orders).foldl (tfAssignOrder dist) (works0, [])
  (tfFinish dist res.1, res.2.length)

/-! ## Model types for `vrp_algorithms.py`

These algorithms subscript `order['weight']`, `order['lat']`,
`order['lng']`, `order['id']`, `vehicle['id']` and
`vehicle['maxCapacity']` directly (raising `KeyError` when a key is
missing), so those are plain fields here; `priority`, `type`, `fuelType`
and `windowEnd` are still read through `dict.get` and stay `Option`s.
The error behaviour on missing keys is modelled separately where a claim
depends on it (`balanced_multi_trip_checked`). -/

structure SOrder where
  id : String
  lat : ℚ
  lng : ℚ
  weight : ℚ
  priority : Option String
  windowEnd : Option String
deriving DecidableEq

instance : Inhabited SOrder := ⟨⟨"", 0, 0, 0, none, none⟩⟩

structure SVehicle where
  id : String
  maxCapacity : ℚ
  type : Option String
  fuelType : Option String
deriving DecidableEq

instance : Inhabited SVehicle := ⟨⟨"", 0, none, none⟩⟩

def stype (v : SVehicle) : String := pyLower (v.type.getD "")

def sIsElectric (v : SVehicle) : Bool := pyLower (v.fuelType.getD "") = "electric"

/-- `DEPOT_LAT = 46.0569` (`vrp_algorithms.py` repeats the backend
constant). -/
def DEPOT_LAT : ℚ := qmk 460569 10000 (by norm_num)

/-- `DEPOT_LNG = 14.5058`. -/
def DEPOT_LNG : ℚ := qmk 145058 10000 (by norm_num)

/-- A route as built by the four advanced algorithms.  The dicts start
with `vehicle`/`orders`/`totalWeight` (plus `tripNumber` in the balanced
algorithm); `calculate_route_metrics` fills in the remaining fields,
which therefore start at `0` here.  The cosmetic `color` key is
omitted. -/
structure SRoute where
  vehicle : SVehicle
  orders : List SOrder
  totalWeight : ℚ
  totalDistance : ℚ
  totalPenalty : ℚ
  onTimeDeliveries : Nat
  lateDeliveries : Nat
  totalLateness : ℚ
  tripNumber : Nat
deriving DecidableEq

def mkSRoute (v : SVehicle) (os : List SOrder) (w : ℚ) : SRoute :=
  ⟨v, os, w, 0, 0, 0, 0, 0, 0⟩

def mkSRouteTrip (v : SVehicle) (os : List SOrder) (w : ℚ) (trip : Nat) : SRoute :=
  ⟨v, os, w, 0, 0, 0, 0, 0, trip⟩

/-- `two_opt_improve(route_orders, depot_lat, depot_lng)` as the
algorithms receive it (its implementation lives outside `src/`). -/
abbrev TwoOptFn := List SOrder → ℚ → ℚ → List SOrder

/-- `calculate_route_metrics(route, depot_lat, depot_lng)` (mutating in
Python, functional here); its implementation also lives outside `src/`. -/
abbrev MetricsFn := SRoute → ℚ → ℚ → SRoute

/-- `set.add` on a list used as a set (preserves Python's insertion
order, never duplicates). -/
def setAdd {α : Type} [DecidableEq α] (s : List α) (x : α) : List α :=
  if x ∈ s then s else s ++ [x]

/-! ## `clarke_wright_savings_algorithm` (vrp_algorithms.py lines 64-206) -/

structure Saving where
  saving : ℚ
  i : Nat
  j : Nat
  order_i : SOrder
  order_j : SOrder
deriving DecidableEq

/-- `s(i,j) = d(0,i) + d(0,j) - d(i,j)`, plus `1.0` when the raw
`order.get('priority')` fields are equal (no default, no lowercasing). -/
def savingOfPair (dist : DistFn) (oi oj : SOrder) : ℚ :=
  let d0i := dist DEPOT_LAT DEPOT_LNG oi.lat oi.lng
  let d0j := dist DEPOT_LAT DEPOT_LNG oj.lat oj.lng
  let dij := dist oi.lat oi.lng oj.lat oj.lng
  let s := qsub (qadd d0i d0j) dij
  if oi.priority = oj.priority then qadd s (qofNat 1) else s

/-- All pairs `i < j` in the order of the two nested `range` loops. -/
def savingsPairs (dist : DistFn) (orders : List SOrder) : List Saving :=
  (List.range orders.length).flatMap (fun i =>
    ((List.range orders.length).drop (i + 1)).map (fun j =>
      ⟨savingOfPair dist (orders.getD i default) (orders.getD j default), i, j,
        orders.getD i default, orders.getD j default⟩))

/-- `savings.sort(key=lambda x: x['saving'], reverse=True)`: stable
descending order. -/
def savGe (a b : Saving) : Prop := b.saving ≤ a.saving

instance : DecidableRel savGe := fun a b => by unfold savGe; infer_instance

def sortSavings (l : List Saving) : List Saving := List.insertionSort savGe l

/-- Stable sort of vehicles by descending capacity
(`sorted(vehicles, key=lambda v: -v['maxCapacity'])`). -/
def capGe (a b : SVehicle) : Prop := b.maxCapacity ≤ a.maxCapacity

instance : DecidableRel capGe := fun a b => by unfold capGe; infer_instance

/-- Python `max` over a list of rationals (first maximum; the call sites
never pass an empty list, for which Python would raise). -/
def qmaxList : List ℚ → ℚ
  | [] => 0
  | x :: xs => xs.foldl (fun a b => if a < b then b else a) x

/-- `find_vehicle(orders_to_assign, used_ids)` (nested in the
Clarke-Wright function): best unused vehicle by descending capacity that
fits the total weight, skipping bikes when the farthest depot distance
exceeds 15 km.  Note there is no `van` range check here. -/
def find_vehicle (dist : DistFn) (vehicles : List SVehicle)
    (orders_to_assign : List SOrder) (used_ids : List String) : Option SVehicle :=
  let total_weight := qsum (orders_to_assign.map (fun o => o.weight))
  let max_dist := qmaxList (orders_to_assign.map
    (fun o => dist DEPOT_LAT DEPOT_LNG o.lat o.lng))
  (List.insertionSort capGe vehicles).find? (fun v =>
    if v.id ∈ used_ids then false
    else if v.maxCapacity < total_weight then false
    else if stype v = "bike" ∧ qofNat 15 < max_dist then false
    else true)

/-- `can_add(route, order)`: capacity plus the bike-only 15 km depot
radius (again, no `van` check). -/
def can_add (dist : DistFn) (route : SRoute) (o : SOrder) : Bool :=
  if route.vehicle.maxCapacity < qadd route.totalWeight o.weight then false
  else if stype route.vehicle = "bike" ∧
      qofNat 15 < dist DEPOT_LAT DEPOT_LNG o.lat o.lng then false
  else true

def addToRoute (r : SRoute) (o : SOrder) : SRoute :=
  { r with orders := r.orders ++ [o], totalWeight := qadd r.totalWeight o.weight }

/-- Does route `r` contain the order id `oid`
(`order['id'] in [o['id'] for o in r['orders']]`)? -/
def routeHasId (r : SRoute) (oid : String) : Bool :=
  (r.orders.map (fun o => o.id)).contains oid

/-- One savings pair of the merge phase (step 3). -/
def cwMergeStep (dist : DistFn) (vehicles : List SVehicle)
    (st : List SRoute × List Nat) (sp : Saving) : List SRoute × List Nat :=
  if sp.i ∈ st.2 ∧ sp.j ∈ st.2 then st
  else
    match st.1.findIdx? (fun r => routeHasId r sp.order_i.id),
          st.1.findIdx? (fun r => routeHasId r sp.order_j.id) with
    | none, none =>
        match find_vehicle dist vehicles [sp.order_i, sp.order_j]
            (st.1.map (fun r => r.vehicle.id)) with
        | some v =>
            (st.1 ++ [mkSRoute v [sp.order_i, sp.order_j]
              (qadd sp.order_i.weight sp.order_j.weight)],
             setAdd (setAdd st.2 sp.i) sp.j)
        | none => st
    | some ri, none =>
        match st.1.get? ri with
        | some r =>
            if can_add dist r sp.order_j then
              (st.1.set ri (addToRoute r sp.order_j), setAdd st.2 sp.j)
            else st
        | none => st
    | none, some rj =>
        match st.1.get? rj with
        | some r =>
            if can_add dist r sp.order_i then
              (st.1.set rj (addToRoute r sp.order_i), setAdd st.2 sp.i)
            else st
        | none => st
    | some _, some _ => st

/-- Step 4: sweep still-unassigned orders into existing feasible routes
or brand-new single-order routes. -/
def cwRemainStep (dist : DistFn) (vehicles : List SVehicle)
    (st : List SRoute × List Nat) (io : Nat × SOrder) : List SRoute × List Nat :=
  if io.1 ∈ st.2 then st
  else
    match st.1.findIdx? (fun r => can_add dist r io.2) with
    | some k =>
        match st.1.get? k with
        | some r => (st.1.set k (addToRoute r io.2), setAdd st.2 io.1)
        | none => st
    | none =>
        match find_vehicle dist vehicles [io.2] (st.1.map (fun r => r.vehicle.id)) with
        | some v => (st.1 ++ [mkSRoute v [io.2] io.2.weight], setAdd st.2 io.1)
        | none => st

/-- `clarke_wright_savings_algorithm(orders, vehicles, calculate_distance,
two_opt_improve, calculate_route_metrics)`. -/
def clarke_wright_savings_algorithm (orders : List SOrder)
    (vehicles : List SVehicle) (dist : DistFn) (twoOpt : TwoOptFn)
    (metrics : MetricsFn) : List SRoute × Nat :=
  let savings := sortSavings (savingsPairs dist orders)
  let st1 := savings.foldl (cwMergeStep dist vehicles) ([], [])
  let st2 := orders.enum.foldl (cwRemainStep dist vehicles) st1
  let final := st2.1.map (fun r =>
    metrics { r with orders := twoOpt r.orders DEPOT_LAT DEPOT_LNG } DEPOT_LAT DEPOT_LNG)
  (final, st2.2.length)

/-! ## `sweep_algorithm` (vrp_algorithms.py lines 213-305) -/

/-- Vehicle sort of the sweep/balanced algorithms (electric first, then
descending capacity), on the strict vehicle type. -/
def svehLe (a b : SVehicle) : Prop :=
  (if sIsElectric a then (0:Nat) else 1) < (if sIsElectric b then (0:Nat) else 1) ∨
  ((if sIsElectric a then (0:Nat) else 1) = (if sIsElectric b then (0:Nat) else 1) ∧
    b.maxCapacity ≤ a.maxCapacity)

instance : DecidableRel svehLe := fun a b => by unfold svehLe; infer_instance

/-- Stable ascending sort by the polar angle attached to each order. -/
def angLe (a b : SOrder × ℚ) : Prop := a.2 ≤ b.2

instance : DecidableRel angLe := fun a b => by unfold angLe; infer_instance

/-- The open route the sweep is currently filling:
vehicle, orders so far, total weight. -/
abbrev SweepCur := SVehicle × List SOrder × ℚ

/-- The sweep feasibility test: capacity, the bike-only 15 km radius and
the flat `len(orders) * 20 < 600` shift bound. -/
def sweepCanAdd (dist : DistFn) (cur : SweepCur) (o : SOrder) : Bool :=
  (qadd cur.2.2 o.weight ≤ cur.1.maxCapacity) ∧
  (stype cur.1 ≠ "bike" ∨ dist DEPOT_LAT DEPOT_LNG o.lat o.lng ≤ qofNat 15) ∧
  (cur.2.1.length * 20 < 600)

structure SweepSt where
  routes : List SRoute
  current : Option SweepCur
  vehicleIdx : Nat
  assigned : List String
deriving DecidableEq

/-- The body of the sweep loop once a current route exists. -/
def sweepHandle (dist : DistFn) (vehiclesSorted : List SVehicle)
    (st : SweepSt) (cur : SweepCur) (o : SOrder) : SweepSt :=
  if sweepCanAdd dist cur o then
    { st with current := some (cur.1, cur.2.1 ++ [o], qadd cur.2.2 o.weight),
              assigned := setAdd st.assigned o.id }
  else
    let routes' := if cur.2.1 ≠ [] then st.routes ++ [mkSRoute cur.1 cur.2.1 cur.2.2]
                   else st.routes
    if h : st.vehicleIdx < vehiclesSorted.length then
      { routes := routes',
        current := some (vehiclesSorted.get ⟨st.vehicleIdx, h⟩, [o], o.weight),
        vehicleIdx := st.vehicleIdx + 1,
        assigned := setAdd st.assigned o.id }
    else
      { routes := routes', current := none, vehicleIdx := st.vehicleIdx,
        assigned := st.assigned }

/-- The sweep's `for order in orders_with_angles` loop; a `break` (fleet
exhausted with no current route) drops the remaining orders. -/
def sweepLoop (dist : DistFn) (vehiclesSorted : List SVehicle) :
    List SOrder → SweepSt → SweepSt
  | [], st => st
  | o :: rest, st =>
      match st.current with
      | some cur => sweepLoop dist vehiclesSorted rest (sweepHandle dist vehiclesSorted st cur o)
      | none =>
          if h : st.vehicleIdx < vehiclesSorted.length then
            let cur : SweepCur := (vehiclesSorted.get ⟨st.vehicleIdx, h⟩, [], 0)
            sweepLoop dist vehiclesSorted rest
              (sweepHandle dist vehiclesSorted
                { st with current := some cur, vehicleIdx := st.vehicleIdx + 1 } cur o)
          else st

/-- `sweep_algorithm(orders, vehicles, calculate_distance,
two_opt_improve, calculate_route_metrics)`.  The polar angle
`math.atan2(order['lat'] - DEPOT_LAT, order['lng'] - DEPOT_LNG)` is
transcendental floating-point code, so it is abstracted as the extra
parameter `atan2M`; every theorem below quantifies over it.  The `angle`
key Python adds to each order copy is carried separately and not kept in
the returned stops. -/
def sweep_algorithm (orders : List SOrder) (vehicles : List SVehicle)
    (dist : DistFn) (twoOpt : TwoOptFn) (metrics : MetricsFn)
    (atan2M : ℚ → ℚ → ℚ) : List SRoute × Nat :=
  let withAngles := orders.map (fun o =>
    (o, atan2M (qsub o.lat DEPOT_LAT) (qsub o.lng DEPOT_LNG)))
  let sortedOrders := (List.insertionSort angLe withAngles).map (fun p => p.1)
  let sortedVehicles := List.insertionSort svehLe vehicles
  let st := sweepLoop dist sortedVehicles sortedOrders ⟨[], none, 0, []⟩
  let routes :=
    match st.current with
    | some cur => if cur.2.1 ≠ [] then st.routes ++ [mkSRoute cur.1 cur.2.1 cur.2.2]
                  else st.routes
    | none => st.routes
  let final := routes.map (fun r => metrics r DEPOT_LAT DEPOT_LNG)
  (final, st.assigned.length)

/-! ## `balanced_multi_trip_algorithm` (vrp_algorithms.py lines 499-638) -/

/-- `priority_map.get(x.get('priority', 'standard'), 1)` with
`{'express': 3, 'urgent': 2, 'standard': 1}` — note: no lowercasing
here, unlike the backend algorithms. -/
def bmPriority (o : SOrder) : Nat :=
  let s := o.priority.getD "standard"
  if s = "express" then 3 else if s = "urgent" then 2 else 1

/-- Stable ascending sort by `(-priority, -weight)`, i.e. priority then
weight, both descending. -/
def bmOrderLe (a b : SOrder) : Prop :=
  bmPriority b < bmPriority a ∨
  (bmPriority a = bmPriority b ∧ b.weight ≤ a.weight)

instance : DecidableRel bmOrderLe := fun a b => by unfold bmOrderLe; infer_instance

/-- Per-vehicle running state (`vehicle_trips`, `vehicle_load`,
`vehicle_time`), modelled as functions keyed by vehicle id exactly like
the Python dicts. -/
structure BmState where
  trips : String → List SOrder
  load : String → ℚ
  time : String → ℚ
  assigned : List String
  allRoutes : List SRoute

/-- The inner `for vehicle in sorted_vehicles` scan selecting the
lowest-utilisation feasible vehicle.  The accumulator is
`(best_vehicle, best_score)`.  `current_util` divides by
`vehicle['maxCapacity']`; Python would raise `ZeroDivisionError` on a
zero-capacity vehicle, here `qdiv` totalises it (no claim depends on
that branch). -/
def bmScanStep (dist : DistFn) (o : SOrder) (st : BmState)
    (best : Option (SVehicle × ℚ)) (v : SVehicle) : Option (SVehicle × ℚ) :=
  let d := dist DEPOT_LAT DEPOT_LNG o.lat o.lng
  if stype v = "bike" ∧ qofNat 15 < d then best
  else
    let est_time := qadd (st.time v.id) (qmul (qmul (qdiv d (qofNat 40)) (qofNat 60)) (qofNat 2))
    if qofNat 600 < est_time then best
    else
      let current_util := qdiv (st.load v.id) v.maxCapacity
      let score := if v.maxCapacity < qadd (st.load v.id) o.weight
                   then qadd current_util (qmk 1 2 (by norm_num))
                   else current_util
      match best with
      | none => some (v, score)
      | some (_, bs) => if score < bs then some (v, score) else best

/-- `len([r for r in all_routes if r['vehicle']['id'] == v_id]) + 1`. -/
def bmTripNumber (allRoutes : List SRoute) (vid : String) : Nat :=
  (allRoutes.filter (fun r => r.vehicle.id = vid)).length + 1

/-- Close the current trip of `vid` as a finished route (2-opt plus
metrics), as done when a trip overflows and in the final flush. -/
def bmCloseTrip (twoOpt : TwoOptFn) (metrics : MetricsFn) (v : SVehicle)
    (tripOrders : List SOrder) (load : ℚ) (allRoutes : List SRoute) : SRoute :=
  let r := mkSRouteTrip v tripOrders load (bmTripNumber allRoutes v.id)
  metrics { r with orders := twoOpt r.orders DEPOT_LAT DEPOT_LNG } DEPOT_LAT DEPOT_LNG

/-- Process one order of the balanced multi-trip main loop. -/
def bmOrderStep (dist : DistFn) (twoOpt : TwoOptFn) (metrics : MetricsFn)
    (sortedVehicles : List SVehicle) (st : BmState) (o : SOrder) : BmState :=
  match sortedVehicles.foldl (bmScanStep dist o st) none with
  | none => st
  | some (v, _) =>
      let vid := v.id
      let st1 :=
        if v.maxCapacity < qadd (st.load vid) o.weight then
          -- need a new trip: flush the current one (if non-empty), then
          -- start the new trip containing just this order — with no
          -- check that the order alone fits the capacity
          let routes' :=
            if st.trips vid ≠ [] then
              st.allRoutes ++ [bmCloseTrip twoOpt metrics v (st.trips vid) (st.load vid) st.allRoutes]
            else st.allRoutes
          { st with
            allRoutes := routes',
            trips := fun k => if k = vid then [o] else st.trips k,
            load := fun k => if k = vid then o.weight else st.load k }
        else
          { st with
            trips := fun k => if k = vid then st.trips vid ++ [o] else st.trips k,
            load := fun k => if k = vid then qadd (st.load vid) o.weight else st.load k }
      let d := dist DEPOT_LAT DEPOT_LNG o.lat o.lng
      { st1 with
        time := fun k => if k = vid then qadd (st1.time vid) (qmul (qdiv d (qofNat 40)) (qofNat 60))
                         else st1.time k,
        assigned := setAdd st1.assigned o.id }

/-- Insertion-ordered key list of a dict built by comprehension over
`sorted_vehicles` (duplicate ids collapse to their first position). -/
def dictKeys (l : List String) : List String := l.foldl setAdd []

/-- The final `for v_id, trip_orders in vehicle_trips.items()` flush. -/
def bmFlushStep (twoOpt : TwoOptFn) (metrics : MetricsFn)
    (sortedVehicles : List SVehicle) (st : BmState) (vid : String) : BmState :=
  if st.trips vid ≠ [] then
    match sortedVehicles.find? (fun v => v.id = vid) with
    | some v =>
        { st with allRoutes :=
            st.allRoutes ++ [bmCloseTrip twoOpt metrics v (st.trips vid) (st.load vid) st.allRoutes] }
    | none => st
  else st

/-- `balanced_multi_trip_algorithm(orders, vehicles, calculate_distance,
two_opt_improve, calculate_route_metrics)`.  The computed-but-unused
`target_util = min(0.85, total_weight / total_capacity)` (it is only
printed) is modelled in `balanced_multi_trip_checked`, which raises the
`ZeroDivisionError` the division produces when the fleet capacity sums
to zero. -/
def balanced_multi_trip_algorithm (orders : List SOrder)
    (vehicles : List SVehicle) (dist : DistFn) (twoOpt : TwoOptFn)
    (metrics : MetricsFn) : List SRoute × Nat :=
  let sortedOrders := List.insertionSort bmOrderLe orders
  let sortedVehicles := List.insertionSort svehLe vehicles
  let st0 : BmState := ⟨fun _ => [], fun _ => 0, fun _ => 0, [], []⟩
  let st1 := sortedOrders.foldl (bmOrderStep dist twoOpt metrics sortedVehicles) st0
  let keys := dictKeys (sortedVehicles.map (fun v => v.id))
  let st2 := keys.foldl (bmFlushStep twoOpt metrics sortedVehicles) st1
  (st2.allRoutes, st2.assigned.length)

inductive PyErr where
  | valueError
  | zeroDivisionError
  | keyError
  | typeError
deriving DecidableEq

/-- `balanced_multi_trip_algorithm` including the effect of its preamble
`total_weight = sum(o['weight'] ...)`, `total_capacity = sum(v['maxCapacity'] ...)`,
`target_util = min(0.85, total_weight / total_capacity)`: the division
raises `ZeroDivisionError` whenever the fleet's total capacity is zero
(in particular for an empty vehicle list). -/
def balanced_multi_trip_checked (orders : List SOrder)
    (vehicles : List SVehicle) (dist : DistFn) (twoOpt : TwoOptFn)
    (metrics : MetricsFn) : Except PyErr (List SRoute × Nat) :=
  let total_capacity := qsum (vehicles.map (fun v => v.maxCapacity))
  if total_capacity = 0 then .error .zeroDivisionError
  else .ok (balanced_multi_trip_algorithm orders vehicles dist twoOpt metrics)

/-! ## `genetic_algorithm` (vrp_algorithms.py lines 312-492)

The algorithm draws from Python's *global* `random` module (it accepts no
seed or random-source parameter).  The global random stream is made
explicit as a `RandS` value threaded through a state-and-error monad
`RandM`: each primitive consumes values from the stream.  Every result
the Python primitives can produce is produced by the model under some
stream, and conversely each modelled result is realisable, so universal
statements over all streams cover all Python runs, and concrete streams
replay concrete runs. -/

/-- The (explicit) state of Python's global random generator: an
infinite supply of naturals. -/
def RandS : Type := Nat → Nat

/-- State-and-error monad threading the random stream; exceptions model
the `ValueError`/`TypeError`/`KeyError` the source can raise. -/
def RandM (α : Type) : Type := RandS → Except PyErr (α × RandS)

instance : Monad RandM where
  pure a := fun s => .ok (a, s)
  bind m f := fun s =>
    match m s with
    | .ok (a, s') => f a s'
    | .error e => .error e

def rthrow {α : Type} (e : PyErr) : RandM α := fun _ => .error e

def nextNat : RandM Nat := fun s => .ok (s 0, fun n => s (n + 1))

/-- `random.random()`, used only in the comparisons `< 0.7` and `> 0.2`;
a stream value `v` yields `(v % 1000) / 1000`, which realises every
outcome of those comparisons. -/
def randFloat : RandM ℚ := do
  let n ← nextNat
  pure (qmk ((n % 1000 : Nat) : Int) 1000 (by norm_num))

/-- `random.randint(a, b)` (raises `ValueError` when `a > b`). -/
def randintN (a b : Nat) : RandM Nat :=
  if b < a then rthrow .valueError
  else do
    let n ← nextNat
    pure (a + n % (b - a + 1))

def sampleAux {α : Type} : Nat → List α → RandM (List α)
  | 0, _ => pure []
  | k + 1, xs => do
      let n ← nextNat
      match xs.get? (n % xs.length) with
      | none => rthrow .valueError
      | some x => do
          let rest ← sampleAux k (xs.eraseIdx (n % xs.length))
          pure (x :: rest)

/-- `random.sample(xs, k)`: `k` distinct positions, in draw order
(raises `ValueError` when `k > len(xs)`). -/
def sample {α : Type} (xs : List α) (k : Nat) : RandM (List α) :=
  if xs.length < k then rthrow .valueError else sampleAux k xs

/-- `random.choice(xs)` (raises on an empty sequence). -/
def choice {α : Type} (xs : List α) : RandM α := do
  let n ← nextNat
  match xs.get? (n % xs.length) with
  | none => rthrow .valueError
  | some x => pure x

/-- Sequence a list of monadic actions left to right (Python list
comprehensions and accumulation loops). -/
def rmapM {α β : Type} (f : α → RandM β) : List α → RandM (List β)
  | [] => pure []
  | x :: xs => do
      let y ← f x
      let ys ← rmapM f xs
      pure (y :: ys)

/-- A chromosome: an ordered list of `(vehicleId, orderIdList)` pairs. -/
abbrev Chrom := List (String × List String)

/-- The greedy packing loop inside `create_chromosome`.  Mirrors the
source exactly, including the branch where the vehicle list is exhausted
by an overflow: the current load is *not* reset and the following
iteration breaks out. -/
def gaPackLoop (vl : List SVehicle) :
    List SOrder → Nat → Chrom → List String → ℚ → Chrom × List String × Nat
  | [], vIdx, ch, load, _ => (ch, load, vIdx)
  | o :: rest, vIdx, ch, load, w =>
      if h : vIdx < vl.length then
        let v := vl.get ⟨vIdx, h⟩
        if qadd w o.weight ≤ v.maxCapacity then
          gaPackLoop vl rest vIdx ch (load ++ [o.id]) (qadd w o.weight)
        else
          let ch' := if load ≠ [] then ch ++ [(v.id, load)] else ch
          if vIdx + 1 < vl.length then
            gaPackLoop vl rest (vIdx + 1) ch' [o.id] o.weight
          else
            gaPackLoop vl rest (vIdx + 1) ch' load w
      else (ch, load, vIdx)

/-- `create_chromosome()`: shuffle orders and vehicles, then pack
greedily by capacity (no range or time awareness). -/
def create_chromosome (orders : List SOrder) (vehicles : List SVehicle) :
    RandM Chrom := do
  let order_list ← sample orders orders.length
  let vehicle_list ← sample vehicles vehicles.length
  let res := gaPackLoop vehicle_list order_list 0 [] [] 0
  let vIdx := res.2.2
  if res.2.1 ≠ [] ∧ vIdx < vehicle_list.length then
    pure (res.1 ++ [((vehicle_list.getD vIdx default).id, res.2.1)])
  else
    pure res.1

/-- Dict lookup for `{o['id']: o for o in orders}` (a later duplicate
key overwrites an earlier one, hence the reverse search). -/
def omLookup (orders : List SOrder) (oid : String) : Option SOrder :=
  orders.reverse.find? (fun o => o.id = oid)

def vmLookup (vehicles : List SVehicle) (vid : String) : Option SVehicle :=
  vehicles.reverse.find? (fun v => v.id = vid)

/-- Decode one chromosome into routes for `evaluate_fitness` (skipping
unknown vehicle ids and unknown order ids, no 2-opt). -/
def gaFitnessRoutes (metrics : MetricsFn) (orders : List SOrder)
    (vehicles : List SVehicle) (ch : Chrom) : List SRoute :=
  ch.foldl (fun acc p =>
    match vmLookup vehicles p.1 with
    | none => acc
    | some v =>
        let route_orders := p.2.filterMap (omLookup orders)
        if route_orders ≠ [] then
          acc ++ [metrics (mkSRoute v route_orders (qsum (route_orders.map (fun o => o.weight))))
            DEPOT_LAT DEPOT_LNG]
        else acc) []

/-- `evaluate_fitness(chromosome)`: the weighted sum
`-0.30*dist - 0.25*penalty + 0.25*(1000*avgUtil) + 0.20*(10*assigned)`,
or `-10000` for a chromosome decoding to no route.  `totalWeight /
maxCapacity` is totalised by `qdiv` (Python raises on a zero-capacity
vehicle; no claim depends on that). -/
def evaluate_fitness (metrics : MetricsFn) (orders : List SOrder)
    (vehicles : List SVehicle) (ch : Chrom) : ℚ :=
  let routes := gaFitnessRoutes metrics orders vehicles ch
  if routes.isEmpty then qneg (qofNat 10000)
  else
    let total_dist := qsum (routes.map (fun r => r.totalDistance))
    let total_penalty := qsum (routes.map (fun r => r.totalPenalty))
    let total_util := qsum (routes.map (fun r => qdiv r.totalWeight r.vehicle.maxCapacity))
    let avg_util := qdiv total_util (qofNat routes.length)
    let assigned := qofNat (routes.map (fun r => r.orders.length)).sum
    qadd (qadd (qadd
      (qmul (qneg total_dist) (qmk 3 10 (by norm_num)))
      (qmul (qneg total_penalty) (qmk 1 4 (by norm_num))))
      (qmul (qmul avg_util (qofNat 1000)) (qmk 1 4 (by norm_num))))
      (qmul (qmul assigned (qofNat 10)) (qmk 1 5 (by norm_num)))

/-- The de-duplication pass of `crossover`: drop order ids already seen
in earlier segments (duplicates *within* one segment are both kept, as
in the source, which only tests membership in `seen`). -/
def gaDedup : Chrom → List String → Chrom → Chrom
  | [], _, acc => acc
  | (vid, oids) :: rest, seen, acc =>
      let uniq := oids.filter (fun oid => oid ∉ seen)
      if uniq ≠ [] then gaDedup rest (seen ++ uniq) (acc ++ [(vid, uniq)])
      else gaDedup rest seen acc

/-- `crossover(p1, p2)`: single-point crossover with de-duplication;
`random.randint(1, min(len)-1)` raises `ValueError` when both parents
have exactly one segment. -/
def crossover (p1 p2 : Chrom) : RandM Chrom :=
  if p1 = [] ∨ p2 = [] then pure (if p1 ≠ [] then p1 else p2)
  else do
    let point ← randintN 1 (min p1.length p2.length - 1)
    pure (gaDedup (p1.take point ++ p2.drop point) [] [])

/-- Swap the orders at positions `a` of segment `i` and `b` of segment
`j` (the in-place tuple swap of `mutate`). -/
def gaSwap (ch : Chrom) (i j a b : Nat) : Chrom :=
  let si := ch.getD i ("", [])
  let sj := ch.getD j ("", [])
  let x := si.2.getD a ""
  let y := sj.2.getD b ""
  (ch.set i (si.1, si.2.set a y)).set j (sj.1, sj.2.set b x)

/-- `mutate(chromosome)`: with probability 0.2 pick one of
`['swap', 'move', 'shuffle']`; only `'swap'` is implemented. -/
def mutate (ch : Chrom) : RandM Chrom :=
  if ch = [] then pure ch
  else do
    let r ← randFloat
    if qmk 1 5 (by norm_num) < r then pure ch
    else do
      let m ← choice ["swap", "move", "shuffle"]
      if m = "swap" ∧ 2 ≤ ch.length then do
        let ij ← sample (List.range ch.length) 2
        match ij with
        | [i, j] =>
            let oids1 := (ch.getD i ("", [])).2
            let oids2 := (ch.getD j ("", [])).2
            if oids1 ≠ [] ∧ oids2 ≠ [] then do
              let a ← randintN 0 (oids1.length - 1)
              let b ← randintN 0 (oids2.length - 1)
              pure (gaSwap ch i j a b)
            else pure ch
        | _ => pure ch
      else pure ch

/-- `max(t_indices, key=lambda i: fitness_scores[i])`: the first index
among `idxs` with maximal score. -/
def gaArgmax (scores : List ℚ) (idxs : List Nat) : Nat :=
  match idxs with
  | [] => 0
  | i :: rest => rest.foldl (fun acc k =>
      if scores.getD acc 0 < scores.getD k 0 then k else acc) i

/-- First maximum of a fitness list (`max(fitness_scores)`); `none` for
an empty population, where Python raises `ValueError`. -/
def gaMaxScore : List ℚ → Option ℚ
  | [] => none
  | x :: xs => some (xs.foldl (fun a b => if a < b then b else a) x)

/-- One tournament selection (group size 3). -/
def gaTournament (pop : List Chrom) (scores : List ℚ) : RandM Chrom := do
  let t ← sample (List.range pop.length) 3
  pure (pop.getD (gaArgmax scores t) [])

/-- Produce one child for the next population. -/
def gaChild (pop : List Chrom) (scores : List ℚ) : RandM Chrom := do
  let p1 ← gaTournament pop scores
  let p2 ← gaTournament pop scores
  let r ← randFloat
  let child ← if r < qmk 7 10 (by norm_num) then crossover p1 p2 else pure p1
  mutate child

/-- One generation: score, update the memoised best, and breed a fresh
population.  `best = none` models `best_fitness = float('-inf')`. -/
def gaGeneration (metrics : MetricsFn) (orders : List SOrder)
    (vehicles : List SVehicle) (populationSize : Nat)
    (pop : List Chrom) (best : Option (ℚ × Chrom)) :
    RandM (List Chrom × Option (ℚ × Chrom)) := do
  let scores := pop.map (evaluate_fitness metrics orders vehicles)
  match gaMaxScore scores with
  | none => rthrow .valueError
  | some maxFit =>
      let best' :=
        if match best with
           | none => true
           | some (bf, _) => decide (bf < maxFit) then
          some (maxFit, pop.getD ((scores.findIdx? (fun x => x = maxFit)).getD 0) [])
        else best
      let newPop ← rmapM (fun _ => gaChild pop scores) (List.range populationSize)
      pure (newPop, best')

def gaEvolve (metrics : MetricsFn) (orders : List SOrder)
    (vehicles : List SVehicle) (populationSize : Nat) :
    Nat → List Chrom → Option (ℚ × Chrom) → RandM (Option (ℚ × Chrom))
  | 0, _, best => pure best
  | g + 1, pop, best => do
      let res ← gaGeneration metrics orders vehicles populationSize pop best
      gaEvolve metrics orders vehicles populationSize g res.1 res.2

/-- Decode the best chromosome into final routes (2-opt plus metrics);
`vehicle_map[v_id]` is a direct subscript and raises `KeyError` on an
unknown vehicle id. -/
def gaDecode (twoOpt : TwoOptFn) (metrics : MetricsFn) (orders : List SOrder)
    (vehicles : List SVehicle) : Chrom → List SRoute → Except PyErr (List SRoute)
  | [], acc => .ok acc
  | (vid, oids) :: rest, acc =>
      let route_orders := oids.filterMap (omLookup orders)
      if route_orders ≠ [] then
        match vmLookup vehicles vid with
        | none => .error .keyError
        | some v =>
            let r := mkSRoute v route_orders (qsum (route_orders.map (fun o => o.weight)))
            let r' := metrics { r with orders := twoOpt r.orders DEPOT_LAT DEPOT_LNG }
              DEPOT_LAT DEPOT_LNG
            gaDecode twoOpt metrics orders vehicles rest (acc ++ [r'])
      else gaDecode twoOpt metrics orders vehicles rest acc

/-- `genetic_algorithm(orders, vehicles, calculate_distance,
two_opt_improve, calculate_route_metrics, generations=50,
population_size=30)`.  `calculate_distance` is received but never used
directly (distances enter only through `calculate_route_metrics`).
Iterating `best_solution = None` (when `generations == 0`) raises
`TypeError` exactly as the Python `for` over `None` would. -/
def genetic_algorithm (orders : List SOrder) (vehicles : List SVehicle)
    (dist : DistFn) (twoOpt : TwoOptFn) (metrics : MetricsFn)
    (generations populationSize : Nat) : RandM (List SRoute × Nat) := do
  let pop ← rmapM (fun _ => create_chromosome orders vehicles) (List.range populationSize)
  let best ← gaEvolve metrics orders vehicles populationSize generations pop none
  match best with
  | none => rthrow .typeError
  | some (_, b) =>
      fun s =>
        match gaDecode twoOpt metrics orders vehicles b [] with
        | .error e => .error e
        | .ok routes => .ok ((routes, (routes.map (fun r => r.orders.length)).sum), s)

/-! ## Spec-modelled `calculate_route_metrics` and `two_opt_improve`

`vrp_algorithms.py` imports these from the main backend, but
`backend_app.py` (the only backend module in `src/`) does not define
them — the `try/except` around the import silently falls back.  The
repository code that implements them is therefore not under `src/`, and
the concrete instances below are modelled from the spec; every universal
theorem only assumes the properties `TwoOptPerm`/`MetricsPreserves`. -/

/-- Modelled from the spec: §4.3 RouteMetrics.  Starting at the depot at
08:00, simulate travel at 40 km/h plus 5 minutes of service per stop,
scoring each arrival with `calculate_time_penalty` (tolerance 60), and
append the closing leg to the depot.  `totalPenalty` is the accumulated
lateness (the spec's `totalLatenessPenalty`); distances are accumulated
at full precision. -/
def route_metrics_fold (dist : DistFn) (st : ℚ × ℚ × ℚ × ℚ × ℚ × Nat × Nat)
    (o : SOrder) : ℚ × ℚ × ℚ × ℚ × ℚ × Nat × Nat :=
  let (curLat, curLng, time, totalDist, lateSum, onT, late) := st
  let d := dist curLat curLng o.lat o.lng
  let travel := qmul (qdiv d (qofNat 40)) (qofNat 60)
  let arrival := qadd (qadd time travel) (qofNat 5)
  let p := calculate_time_penalty arrival
    ((time_to_minutes (o.windowEnd.getD "")).map qofInt) (qofNat 60)
  (o.lat, o.lng, arrival, qadd totalDist d, qadd lateSum p.2,
    onT + (if p.1 then 1 else 0), late + (if p.1 then 0 else 1))

/-- Modelled from the spec: §4.3 (see `route_metrics_fold`). -/
def calculate_route_metrics (dist : DistFn) : MetricsFn := fun r dlat dlng =>
  let st := r.orders.foldl (route_metrics_fold dist) (dlat, dlng, qofNat 480, 0, 0, 0, 0)
  let (lastLat, lastLng, _, totalDist, lateSum, onT, late) := st
  { r with
    totalDistance := qadd totalDist (dist lastLat lastLng dlat dlng)
    totalPenalty := lateSum
    totalLateness := lateSum
    onTimeDeliveries := onT
    lateDeliveries := late }

/-- Total travel distance of a stop sequence, depot-to-first and
last-to-depot included (the 2-opt objective of spec §4.4). -/
def routeTravel (dist : DistFn) (dlat dlng : ℚ) : List SOrder → ℚ
  | [] => 0
  | o :: rest => qadd (dist dlat dlng o.lat o.lng) (routeTravelFrom dist dlat dlng o rest)
where
  routeTravelFrom (dist : DistFn) (dlat dlng : ℚ) (prev : SOrder) :
      List SOrder → ℚ
  | [] => dist prev.lat prev.lng dlat dlng
  | o :: rest => qadd (dist prev.lat prev.lng o.lat o.lng)
      (routeTravelFrom dist dlat dlng o rest)

/-- Reverse the contiguous segment `[i, j]` of a list. -/
def reverseSegment {α : Type} (l : List α) (i j : Nat) : List α :=
  l.take i ++ ((l.drop i).take (j - i + 1)).reverse ++ l.drop (j + 1)

/-- First strictly improving segment reversal, scanning pairs `i < j`
in lexicographic order. -/
def twoOptStep (dist : DistFn) (dlat dlng : ℚ) (l : List SOrder) :
    Option (List SOrder) :=
  ((List.range l.length).flatMap (fun i =>
    ((List.range l.length).drop (i + 1)).map (fun j => (i, j)))).findSome?
    (fun p =>
      let cand := reverseSegment l p.1 p.2
      if routeTravel dist dlat dlng cand < routeTravel dist dlat dlng l
      then some cand else none)

def twoOptGo (dist : DistFn) (dlat dlng : ℚ) : Nat → List SOrder → List SOrder
  | 0, l => l
  | f + 1, l =>
      match twoOptStep dist dlat dlng l with
      | none => l
      | some l' => twoOptGo dist dlat dlng f l'

/-- Modelled from the spec: §4.4 TwoOptImprover.  Repeatedly apply the
first strictly-improving reversal, stopping when none exists or after an
iteration cap of `len²`. -/
def two_opt_improve (dist : DistFn) : TwoOptFn := fun l dlat dlng =>
  twoOptGo dist dlat dlng (l.length * l.length) l

/-- The only property of `two_opt_improve` the algorithms' invariants
rely on: it permutes the stops of the single route it is given. -/
def TwoOptPerm (twoOpt : TwoOptFn) : Prop :=
  ∀ l a b, (twoOpt l a b).Perm l

/-- The only property of `calculate_route_metrics` the invariants rely
on: it computes derived metrics without touching the vehicle, the stop
sequence, the cumulative weight or the trip number. -/
def MetricsPreserves (metrics : MetricsFn) : Prop :=
  ∀ r a b, (metrics r a b).vehicle = r.vehicle ∧ (metrics r a b).orders = r.orders ∧
    (metrics r a b).totalWeight = r.totalWeight ∧ (metrics r a b).tripNumber = r.tripNumber

instance {ε α : Type} [DecidableEq ε] [DecidableEq α] : DecidableEq (Except ε α) :=
  fun a b =>
    match a, b with
    | .ok x, .ok y =>
        if h : x = y then .isTrue (by rw [h])
        else .isFalse (fun hc => by cases hc; exact h rfl)
    | .error e, .error f =>
        if h : e = f then .isTrue (by rw [h])
        else .isFalse (fun hc => by cases hc; exact h rfl)
    | .ok _, .error _ => .isFalse (fun hc => by cases hc)
    | .error _, .ok _ => .isFalse (fun hc => by cases hc)

/-! ## Counting toolkit for the no-duplication invariants -/

/-- Stop ids of a backend route. -/
def idsOfB (r : BRoute) : List String := r.orders.map (fun s => s.ord.id)

/-- All stop ids across a backend algorithm output, in route order. -/
def routesIdsB (rs : List BRoute) : List String := rs.flatMap idsOfB

/-- Stop ids of an advanced-algorithm route. -/
def idsOfS (r : SRoute) : List String := r.orders.map (fun o => o.id)

def routesIdsS (rs : List SRoute) : List String := rs.flatMap idsOfS

/-! ## Claim C3: the Distance-First selection rule -/

/-- The selection score the claim (and spec §4.5) prescribe:
distance-from-current-position plus `0.5 ×` priority rank
(express = 0, urgent = 1, standard = 2). -/
def dfSelectionScoreSpec (dist : DistFn) (curLat curLng : ℚ) (o : BOrder) : ℚ :=
  qadd (dist curLat curLng (blat o) (blng o))
    (qmul (qofNat (bpriorityScore o)) (qmk 1 2 (by norm_num)))

/-- C3 failing input: a standard-priority order 5 km from the depot,
listed first, and an express order 5.4 km away.  (Distances of 5 and
5.4 km are realisable by the road-factored haversine: place the orders
approximately 0.035° and 0.037° of latitude north of the depot.) -/
def c3OrderA : BOrder := ⟨"a", some (qofNat 1), some (qofNat 1), some (qofNat 1), some "standard", none⟩

def c3OrderB : BOrder := ⟨"b", some (qofNat 2), some (qofNat 2), some (qofNat 1), some "express", none⟩

def c3Truck : BVehicle := ⟨some "V1", some (qofNat 100), some "truck", some "diesel"⟩

/-- Distance table for the C3 run: everything is 5 km from a point with
latitude 1 and 5.4 km from a point with latitude 2. -/
def c3Dist : DistFn := fun _ _ la _ =>
  if la = qofNat 1 then qofNat 5
  else if la = qofNat 2 then qmk 27 5 (by norm_num) else 0

/-! ## Claim C7: the Time-First processing order -/

/-- An order with a parseable midnight deadline `'00:00'`. -/
def c7WithWindow : BOrder := ⟨"haswin", none, none, none, none, some "00:00"⟩

/-- An order with no `windowEnd` field at all. -/
def c7NoWindow : BOrder := ⟨"nowin", none, none, none, none, none⟩

/-- "Has a delivery window" in the claim's sense: the field is present
and parses to a clock time. -/
def hasDeliveryWindow (o : BOrder) : Bool :=
  match o.windowEnd with
  | some s => (time_to_minutes s).isSome
  | none => false

/-! ## Claim C9: Clarke-Wright savings -/

/-- The priority tier of an order under the data model's documented
default (`standard`) and case-folding. -/
def priorityTier (o : SOrder) : String := pyLower (o.priority.getD "standard")

/-- The saving the claim prescribes: `d(0,i) + d(0,j) - d(i,j)` plus a
`+1.0` bonus exactly when the two orders share the same priority tier. -/
def savingSpec (dist : DistFn) (oi oj : SOrder) : ℚ :=
  let base := qsub (qadd (dist DEPOT_LAT DEPOT_LNG oi.lat oi.lng)
    (dist DEPOT_LAT DEPOT_LNG oj.lat oj.lng)) (dist oi.lat oi.lng oj.lat oj.lng)
  if priorityTier oi = priorityTier oj then qadd base (qofNat 1) else base

/-- C9 counterexample data: one order with explicit `standard` priority
and one with the field missing — both of `standard` tier. -/
def c9OrderA : SOrder := ⟨"a", qofNat 1, 0, qofNat 1, some "standard", none⟩

def c9OrderB : SOrder := ⟨"b", qofNat 2, 0, qofNat 1, none, none⟩

/-- Distance table: depot to `a` is 2 km, depot to `b` is 3 km, `a` to
`b` is 4 km (realisable by the road-factored haversine on three roughly
collinear points). -/
def c9Dist : DistFn := fun la1 _ la2 _ =>
  if la1 = DEPOT_LAT then (if la2 = qofNat 1 then qofNat 2 else qofNat 3)
  else qofNat 4

/-! ## Claim C1: the capacity invariant -/

/-- All-zero distance table: realised by the haversine when every
location coincides with the depot. -/
def distZero : DistFn := fun _ _ _ _ => 0

/-- A 50 kg order at the depot itself. -/
def c1Order : SOrder := ⟨"o1", DEPOT_LAT, DEPOT_LNG, qofNat 50, none, none⟩

/-- A capacity-10 van. -/
def c1Vehicle : SVehicle := ⟨"v1", qofNat 10, some "van", some "diesel"⟩

/-! ## Claim C2: the range-limit invariant -/

/-- Constant 60 km distance table (realisable: place the order about
0.42° of latitude from the depot). -/
def c2Dist : DistFn := fun _ _ _ _ => qofNat 60

def c2Order : SOrder := ⟨"x", qofNat 1, qofNat 1, qofNat 1, none, none⟩

def c2Van : SVehicle := ⟨"v1", qofNat 100, some "van", none⟩

/-! ## Claim C6: error handling on degenerate input -/

/-- An order 60 km from the depot (under `c2Dist`). -/
def c6Order : SOrder := ⟨"o1", qofNat 1, qofNat 1, qofNat 5, none, none⟩

/-- A zero-capacity bike: not feasible for any order (the depot distance
60 exceeds the bike's 15 km limit), and the fleet capacity sums to 0. -/
def c6Bike : SVehicle := ⟨"v1", 0, some "bike", none⟩

/-! ## Claim C4: genetic-search seeding -/

def c4OrderA : SOrder := ⟨"a", 0, 0, qofNat 6, none, none⟩

def c4OrderB : SOrder := ⟨"b", 0, 0, qofNat 6, none, none⟩

def c4Vehicle : SVehicle := ⟨"v", qofNat 10, none, none⟩

/-- One possible state of the global random stream. -/
def c4Stream1 : RandS := fun _ => 700

/-- Another possible state of the global random stream. -/
def c4Stream2 : RandS := fun _ => 701

/-- The invariant carried across vehicles by `distance_first_algorithm`:
every stop of every collected route respects its own vehicle's radius. -/
def DfRangeOk (dist : DistFn) (routes : List BRoute) : Prop :=
  ∀ r ∈ routes, ∀ s ∈ r.orders,
    radiusExceeded (bMaxRadius r.vehicle)
      (dist depot_lat depot_lng (blat s.ord) (blng s.ord)) = false

/-- Stops collected by the Time-First working routes all passed their
own vehicle's radius check. -/
def TfRangeOk (dist : DistFn) (works : List TfWork) : Prop :=
  ∀ w ∈ works, ∀ s ∈ w.route.orders,
    radiusExceeded (bMaxRadius w.route.vehicle)
      (dist depot_lat depot_lng (blat s.ord) (blng s.ord)) = false

/-- Ids collected in the Time-First working state. -/
def worksIds (ws : List TfWork) : List String :=
  ws.flatMap (fun w => w.route.orders.map (fun s => s.ord.id))

/-- The Time-First accumulator stays duplicate-free: the assigned set is
duplicate-free and bounds the stop multiset. -/
def TfCnt (acc : List TfWork × List String) : Prop :=
  acc.2.Nodup ∧ ∀ z, (worksIds acc.1).count z ≤ acc.2.count z

/-- Accumulated Distance-First state: assigned set duplicate-free and
bounding the stop multiset. -/
def DfCnt (acc : List BRoute × List String) : Prop :=
  acc.2.Nodup ∧ ∀ z, (routesIdsB acc.1).count z ≤ acc.2.count z

/-! ## C7 amended: what the Time-First sort actually does -/

instance : IsTotal BOrder tfOrderLe :=
  ⟨fun a b => Int.le_total (tfSortKey a) (tfSortKey b)⟩

instance : IsTrans BOrder tfOrderLe :=
  ⟨fun _ _ _ h1 h2 => le_trans h1 h2⟩

/-! ## C9 amended: what the Clarke-Wright savings phase actually does -/

instance : IsTotal Saving savGe :=
  ⟨fun a b => le_total b.saving a.saving⟩

instance : IsTrans Saving savGe :=
  ⟨fun _ _ _ h1 h2 => le_trans h2 h1⟩

/-- The Clarke-Wright accumulator invariant: the assigned index set is
duplicate-free and in range, each assigned index's order id already sits
on some route, and the stop-id multiset is bounded by the assigned
indices' ids. -/
def CwInv (orders : List SOrder) (st : List SRoute × List Nat) : Prop :=
  st.2.Nodup ∧ (∀ i ∈ st.2, i < orders.length) ∧
  (∀ i ∈ st.2, (orders.getD i default).id ∈ routesIdsS st.1) ∧
  (∀ z, (routesIdsS st.1).count z ≤
    (st.2.map (fun i => (orders.getD i default).id)).count z)

/-! ## No-duplication for the sweep -/

/-- Stop ids held in the open sweep route, if any. -/
def swCurIds : Option SweepCur → List String
  | some cur => cur.2.1.map (fun o => o.id)
  | none => []

/-- All stop ids of the sweep state: closed routes plus the open one. -/
def swIds (st : SweepSt) : List String := routesIdsS st.routes ++ swCurIds st.current

/-- Stop ids held in the per-vehicle open trips, keyed by `keys`. -/
def bmTripsIds (st : BmState) (keys : List String) : List String :=
  keys.flatMap (fun vid => (st.trips vid).map (fun o => o.id))

/-- All order ids mentioned by a chromosome, in segment order. -/
def chromIds (ch : Chrom) : List String := ch.flatMap (fun p => p.2)

theorem qmk_eq_aux (n : Int) (d : Nat) (g : Nat) (hg : 0 < g)
    (hn : (g : Int) ∣ n) (hdd : g ∣ d) :
    Rat.divInt (n / (g : Int)) ((d / g : Nat) : Int) = (n : ℚ) / (d : ℚ) := by
  have hgz : ((g : Nat) : Int) ≠ 0 := by exact_mod_cast Nat.pos_iff_ne_zero.mp hg
  obtain ⟨a, ha⟩ := hn
  obtain ⟨b, hb⟩ := hdd
  have h1 : n / (g : Int) = a := by rw [ha]; exact Int.mul_ediv_cancel_left _ hgz
  have h2 : d / g = b := by rw [hb]; exact Nat.mul_div_cancel_left _ hg
  rw [h1, h2]
  calc Rat.divInt a (b : Int)
      = Rat.divInt ((g : Int) * a) ((g : Int) * (b : Int)) :=
        (Rat.divInt_mul_left hgz).symm
    _ = Rat.divInt n (d : Int) := by rw [← ha]; congr 1; exact_mod_cast hb.symm
    _ = (n : ℚ) / (d : ℚ) := Rat.divInt_eq_div n d

theorem qmk_eq (n : Int) (d : Nat) (hd : 0 < d) : qmk n d hd = (n : ℚ) / (d : ℚ) := by
  have hg : 0 < n.natAbs.gcd d := Nat.gcd_pos_of_pos_right _ hd
  have hdvd : ((n.natAbs.gcd d : Nat) : Int) ∣ n :=
    Int.natCast_dvd.mpr (Nat.gcd_dvd_left _ _)
  have := qmk_eq_aux n d (n.natAbs.gcd d) hg hdvd (Nat.gcd_dvd_right _ _)
  rw [qmk, Rat.mk'_eq_divInt]
  exact this

theorem qofInt_eq (z : Int) : qofInt z = (z : ℚ) := by
  rw [qofInt, Rat.mk'_eq_divInt, Rat.divInt_eq_div]
  simp

theorem qofNat_eq (n : Nat) : qofNat n = (n : ℚ) := by
  rw [qofNat, qofInt_eq]; simp

theorem qadd_eq (x y : ℚ) : qadd x y = x + y := by
  rw [qadd, qmk_eq]
  push_cast
  conv_rhs => rw [← Rat.num_div_den x, ← Rat.num_div_den y]
  have hx : ((x.den : ℚ)) ≠ 0 := by exact_mod_cast x.den_nz
  have hy : ((y.den : ℚ)) ≠ 0 := by exact_mod_cast y.den_nz
  field_simp

theorem qneg_eq (x : ℚ) : qneg x = -x := by
  rw [qneg, Rat.mk'_eq_divInt, ← Rat.neg_divInt, Rat.num_divInt_den x]

theorem qsub_eq (x y : ℚ) : qsub x y = x - y := by
  rw [qsub, qadd_eq, qneg_eq]; ring

theorem qmul_eq (x y : ℚ) : qmul x y = x * y := by
  rw [qmul, qmk_eq]
  push_cast
  conv_rhs => rw [← Rat.num_div_den x, ← Rat.num_div_den y]
  have hx : ((x.den : ℚ)) ≠ 0 := by exact_mod_cast x.den_nz
  have hy : ((y.den : ℚ)) ≠ 0 := by exact_mod_cast y.den_nz
  field_simp

theorem qmkInt_eq (n d : Int) : qmkInt n d = (n : ℚ) / (d : ℚ) := by
  rw [qmkInt]
  by_cases hd : 0 < d
  · rw [dif_pos hd, qmk_eq]
    congr 2
    exact_mod_cast Int.toNat_of_nonneg hd.le
  · rw [dif_neg hd]
    by_cases hd' : d < 0
    · rw [dif_pos hd', qmk_eq]
      have h1 : (((-d).toNat : Nat) : ℚ) = ((-d : Int) : ℚ) := by
        exact_mod_cast Int.toNat_of_nonneg (by omega : (0:Int) ≤ -d)
      rw [h1]
      push_cast
      rw [div_neg, neg_div, neg_neg]
    · rw [dif_neg hd']
      have : d = 0 := by omega
      simp [this]

theorem qdiv_eq (x y : ℚ) : qdiv x y = x / y := by
  rw [qdiv, qmkInt_eq]
  by_cases hy : y = 0
  · simp [hy]
  · have hyn : (y.num : ℚ) ≠ 0 := by
      exact_mod_cast Rat.num_ne_zero.mpr hy
    have hx : ((x.den : ℚ)) ≠ 0 := by exact_mod_cast x.den_nz
    have hyd : ((y.den : ℚ)) ≠ 0 := by exact_mod_cast y.den_nz
    conv_rhs => rw [← Rat.num_div_den x, ← Rat.num_div_den y]
    push_cast
    field_simp

theorem qsum_eq_foldl_add (l : List ℚ) : ∀ a : ℚ, l.foldl qadd a = a + l.sum := by
  induction l with
  | nil => intro a; simp
  | cons x xs ih => intro a; simp [List.foldl_cons, qadd_eq, ih, List.sum_cons]; ring

theorem qsum_eq (l : List ℚ) : qsum l = l.sum := by
  rw [qsum, qsum_eq_foldl_add]; simp

theorem qfloor_eq (x : ℚ) : qfloor x = Int.floor x := by
  rw [qfloor, Rat.floor_def]

theorem reverseSegment_perm {α : Type} (l : List α) (i j : Nat) (hij : i ≤ j) :
    (reverseSegment l i j).Perm l := by
  have key : l.take i ++ ((l.drop i).take (j - i + 1) ++ l.drop (j + 1)) = l := by
    conv_rhs => rw [← List.take_append_drop i l]
    congr 1
    conv_rhs => rw [← List.take_append_drop (j - i + 1) (l.drop i)]
    congr 1
    rw [List.drop_drop]
    congr 1
    omega
  have h1 : (((l.drop i).take (j - i + 1)).reverse ++ l.drop (j + 1)).Perm
      ((l.drop i).take (j - i + 1) ++ l.drop (j + 1)) :=
    ((l.drop i).take (j - i + 1)).reverse_perm.append_right _
  have h2 := h1.append_left (l.take i)
  rw [reverseSegment]
  rw [List.append_assoc]
  exact (h2.trans (by rw [key]))

theorem mem_drop_range {n m j : Nat} (h : j ∈ (List.range n).drop m) : m ≤ j := by
  rcases List.mem_iff_getElem.mp h with ⟨k, hk, hget⟩
  rw [List.getElem_drop, List.getElem_range] at hget
  omega

theorem twoOptStep_perm (dist : DistFn) (dlat dlng : ℚ) (l l' : List SOrder)
    (h : twoOptStep dist dlat dlng l = some l') : l'.Perm l := by
  rw [twoOptStep, List.findSome?_eq_some_iff] at h
  obtain ⟨l₁, p, l₂, hsplit, hp, -⟩ := h
  have hmem : p ∈ (List.range l.length).flatMap (fun i =>
      ((List.range l.length).drop (i + 1)).map (fun j => (i, j))) := by
    rw [hsplit]; exact List.mem_append.mpr (Or.inr (List.mem_cons_self _ _))
  have hij : p.1 < p.2 := by
    rw [List.mem_flatMap] at hmem
    obtain ⟨i, -, hmap⟩ := hmem
    rw [List.mem_map] at hmap
    obtain ⟨j, hj, hpe⟩ := hmap
    have hgt := mem_drop_range hj
    rw [← hpe]
    show i < j
    omega
  by_cases hlt : routeTravel dist dlat dlng (reverseSegment l p.1 p.2) <
      routeTravel dist dlat dlng l
  · rw [if_pos hlt] at hp
    cases hp
    exact reverseSegment_perm l p.1 p.2 hij.le
  · rw [if_neg hlt] at hp
    cases hp

theorem twoOptGo_perm (dist : DistFn) (dlat dlng : ℚ) :
    ∀ (fuel : Nat) (l : List SOrder), (twoOptGo dist dlat dlng fuel l).Perm l := by
  intro fuel
  induction fuel with
  | zero => intro l; exact List.Perm.refl l
  | succ f ih =>
      intro l
      rw [twoOptGo]
      cases hstep : twoOptStep dist dlat dlng l with
      | none => exact List.Perm.refl l
      | some l' => exact (ih l').trans (twoOptStep_perm dist dlat dlng l l' hstep)

theorem two_opt_improve_perm (dist : DistFn) : TwoOptPerm (two_opt_improve dist) := by
  intro l a b
  exact twoOptGo_perm dist a b _ l

theorem calculate_route_metrics_preserves (dist : DistFn) :
    MetricsPreserves (calculate_route_metrics dist) := by
  intro r a b
  refine ⟨rfl, rfl, rfl, rfl⟩

/-! ## Claim C5: the three-tier time-penalty policy -/

/-- C5.  For every arrival time, window end and (nonnegative) tolerance,
`calculate_time_penalty` returns: `(on-time, 0)` when there is no window
end; `(on-time, 0)` when `arrival ≤ window_end`; `(on-time, arrival -
window_end)` in the grace band `window_end < arrival ≤ window_end +
tolerance`; and `(not on-time, arrival - window_end)` when `arrival >
window_end + tolerance`. -/
theorem claim_C5_time_penalty (arrival w tol : ℚ) (htol : 0 ≤ tol) :
    calculate_time_penalty arrival none tol = (true, 0) ∧
    (arrival ≤ w → calculate_time_penalty arrival (some w) tol = (true, 0)) ∧
    (w < arrival → arrival ≤ w + tol →
      calculate_time_penalty arrival (some w) tol = (true, arrival - w)) ∧
    (w + tol < arrival →
      calculate_time_penalty arrival (some w) tol = (false, arrival - w)) := by
  refine ⟨rfl, ?_, ?_, ?_⟩
  · intro h
    rw [calculate_time_penalty]
    rw [if_pos (by rw [qadd_eq]; linarith), if_pos h]
  · intro h1 h2
    rw [calculate_time_penalty]
    rw [if_pos (by rw [qadd_eq]; linarith), if_neg (by linarith), qsub_eq]
  · intro h
    rw [calculate_time_penalty]
    rw [if_neg (by rw [qadd_eq]; linarith), qsub_eq]

/-- Witness for C5 at concrete inputs: arrival 08:20 against window end
08:00 with tolerance 60 is on-time-with-lateness 20; arrival 10:01 is
late by 121. -/
theorem claim_C5_time_penalty_witness :
    calculate_time_penalty (qofNat 500) (some (qofNat 480)) (qofNat 60) =
      (true, qofNat 20) ∧
    calculate_time_penalty (qofNat 601) (some (qofNat 480)) (qofNat 60) =
      (false, qofNat 121) := by
  have h := claim_C5_time_penalty (qofNat 500) (qofNat 480) (qofNat 60)
    (by rw [qofNat_eq]; norm_num)
  have h' := claim_C5_time_penalty (qofNat 601) (qofNat 480) (qofNat 60)
    (by rw [qofNat_eq]; norm_num)
  constructor
  · rw [h.2.2.1 (by rw [qofNat_eq, qofNat_eq]; norm_num)
      (by rw [qofNat_eq, qofNat_eq, qofNat_eq]; norm_num)]
    rw [qofNat_eq, qofNat_eq, qofNat_eq]
    norm_num
  · rw [h'.2.2.2 (by rw [qofNat_eq, qofNat_eq, qofNat_eq]; norm_num)]
    rw [qofNat_eq, qofNat_eq, qofNat_eq]
    norm_num

/-- A list with pointwise smaller counts than a duplicate-free list is
itself duplicate-free. -/
theorem nodup_of_count_le {α : Type} [DecidableEq α] {l m : List α}
    (h : ∀ z, l.count z ≤ m.count z) (hm : m.Nodup) : l.Nodup := by
  rw [List.nodup_iff_count_le_one] at hm ⊢
  exact fun a => (h a).trans (hm a)

theorem count_set_elem {α : Type} [DecidableEq α] (l : List α) (i : Nat)
    (h : i < l.length) (x z : α) :
    ((l.set i x).count z) + (if l[i] = z then 1 else 0) =
      l.count z + (if x = z then 1 else 0) := by
  have hdec : l = l.take i ++ l[i] :: l.drop (i + 1) := by
    conv_lhs => rw [← List.take_append_drop i l, List.drop_eq_getElem_cons h]
  rw [List.set_eq_take_append_cons_drop, if_pos h]
  conv_rhs => rw [hdec]
  rw [List.count_append, List.count_append, List.count_cons, List.count_cons]
  simp only [beq_iff_eq]
  omega

/-- Count of a flattened map after updating one entry. -/
theorem count_flatMap_set {β α : Type} [DecidableEq α] (L : List β) (i : Nat)
    (h : i < L.length) (r' : β) (f : β → List α) (z : α) :
    ((L.set i r').flatMap f).count z + (f L[i]).count z =
      (L.flatMap f).count z + (f r').count z := by
  have hdec : L = L.take i ++ L[i] :: L.drop (i + 1) := by
    conv_lhs => rw [← List.take_append_drop i L, List.drop_eq_getElem_cons h]
  rw [List.set_eq_take_append_cons_drop, if_pos h]
  conv_rhs => rw [hdec]
  rw [List.flatMap_append, List.flatMap_cons, List.flatMap_append, List.flatMap_cons]
  rw [List.count_append, List.count_append, List.count_append, List.count_append]
  omega

/-- Count of a flattening over a duplicate-free key list after changing
the function at a single key. -/
theorem count_flatMap_update_key {f f' : String → List String}
    {keys : List String} (hk : keys.Nodup) {vid : String} (hvid : vid ∈ keys)
    (hoth : ∀ k, k ≠ vid → f' k = f k) (z : String) :
    (keys.flatMap f').count z + (f vid).count z =
      (keys.flatMap f).count z + (f' vid).count z := by
  induction keys with
  | nil => cases hvid
  | cons k ks ih =>
      rw [List.flatMap_cons, List.flatMap_cons, List.count_append, List.count_append]
      rcases List.mem_cons.mp hvid with hkv | hmem
      · have hvnotin : vid ∉ ks := fun hc => (List.nodup_cons.mp hk).1 (hkv ▸ hc)
        have hsame : ks.flatMap f' = ks.flatMap f := by
          unfold List.flatMap
          congr 1
          exact List.map_congr_left (fun a ha => hoth a (fun hc => hvnotin (hc ▸ ha)))
        rw [hsame, ← hkv]
        omega
      · have hk' : k ≠ vid := fun hc => (List.nodup_cons.mp hk).1 (hc ▸ hmem)
        rw [hoth k hk']
        have := ih (List.nodup_cons.mp hk).2 hmem
        omega

theorem count_le_one_of_nodup {α : Type} [DecidableEq α] {l : List α}
    (h : l.Nodup) (z : α) : l.count z ≤ 1 :=
  List.nodup_iff_count_le_one.mp h z

/-- C3 (code bug).  On the failing input the code assigns the
standard-priority order `a` first although the express order `b` — also
feasible (it fits the empty truck and the truck has no range limit) —
has the strictly smaller selection score 5.4 vs 6.0: the loop compares
each candidate's score against the incumbent's raw distance
(`nearest_distance`) but stores the raw distance instead of the score
(backend_app.py lines 196-200), so the promised priority tie-break never
selects the better-scored order. -/
theorem claim_C3_score_bug :
    ((distance_first_algorithm c3Dist [c3OrderA, c3OrderB] [c3Truck]).1.map
      (fun r => r.orders.map (fun s => s.ord.id))) = [["a", "b"]] ∧
    dfSelectionScoreSpec c3Dist depot_lat depot_lng c3OrderB <
      dfSelectionScoreSpec c3Dist depot_lat depot_lng c3OrderA ∧
    qadd 0 (bweight c3OrderB) ≤ bcap c3Truck ∧
    bMaxRadius c3Truck = none := by decide

/-- C7 counterexample.  `'00:00'` parses to minute 0, which is falsy in
Python, so `time_to_minutes(...) or 1440` maps it to sort key 1440,
while a *missing* window defaults to the string `'23:59:00'` and key
1439: the order with no delivery window is processed *before* the order
whose parsed window end is midnight, refuting both "ascending order of
parsed window-end" and "orders with no window sort last". -/
theorem claim_C7_counterexample :
    sortOrdersTF [c7WithWindow, c7NoWindow] = [c7NoWindow, c7WithWindow] ∧
    hasDeliveryWindow c7WithWindow = true ∧
    hasDeliveryWindow c7NoWindow = false ∧
    time_to_minutes "00:00" = some 0 ∧
    tfSortKey c7WithWindow = 1440 ∧ tfSortKey c7NoWindow = 1439 := by decide

/-- C9 counterexample.  The code compares the raw
`order.get('priority')` fields (`'standard' != None`), so the pair gets
no bonus (saving `2 + 3 - 4 = 1`) although both orders are of the
`standard` tier and the claim prescribes saving `2`. -/
theorem claim_C9_counterexample :
    (savingsPairs c9Dist [c9OrderA, c9OrderB]).map (fun sp => sp.saving) = [qofNat 1] ∧
    savingSpec c9Dist c9OrderA c9OrderB = qofNat 2 ∧
    priorityTier c9OrderA = priorityTier c9OrderB ∧
    c9OrderA.priority ≠ c9OrderB.priority := by decide

/-- C1 (code bug).  Balanced Multi-Trip returns a route whose cumulative
weight 50 exceeds its vehicle's capacity 10: the new-trip branch
(vrp_algorithms.py lines 600-602) starts a trip with an order without
checking that the order alone fits, although the module's own docstring
promises "All algorithms respect: Vehicle capacity".  (The sweep
new-route branch at lines 285-291 and the genetic packing at lines
352-354 skip the same check.) -/
theorem claim_C1_capacity_bug :
    ((balanced_multi_trip_algorithm [c1Order] [c1Vehicle] distZero
      (two_opt_improve distZero) (calculate_route_metrics distZero)).1.map
      (fun r => (r.totalWeight, r.vehicle.maxCapacity, idsOfS r))) =
      [(qofNat 50, qofNat 10, ["o1"])] ∧
    qofNat 10 < qofNat 50 := by decide

/-- C2 counterexample.  The sweep algorithm assigns an order 60 km from
the depot to a `van`: its feasibility test (vrp_algorithms.py lines
269-273) checks the depot radius only for `bike`-type vehicles, so the
van's 50 km limit from the claim is not enforced (the same holds for
`find_vehicle`/`can_add` in Clarke-Wright and for the balanced
algorithm; the genetic algorithm checks no range at all). -/
theorem claim_C2_van_counterexample :
    ((sweep_algorithm [c2Order] [c2Van] c2Dist (two_opt_improve c2Dist)
      (calculate_route_metrics c2Dist) (fun _ _ => 0)).1.map
      (fun r => (stype r.vehicle, idsOfS r))) = [("van", ["x"])] ∧
    qofNat 50 < c2Dist DEPOT_LAT DEPOT_LNG c2Order.lat c2Order.lng := by decide

/-- C6 counterexample.  A run in which no vehicle is feasible for any
order does not always return "zero routes, all unassigned": with a fleet
whose capacities sum to zero, Balanced Multi-Trip raises
`ZeroDivisionError` in its preamble `total_weight / total_capacity`
(vrp_algorithms.py line 519) before any assignment is attempted. -/
theorem claim_C6_crash_counterexample :
    balanced_multi_trip_checked [c6Order] [c6Bike] c2Dist
      (two_opt_improve c2Dist) (calculate_route_metrics c2Dist) =
      .error .zeroDivisionError ∧
    (stype c6Bike = "bike" ∧
      qofNat 15 < c2Dist DEPOT_LAT DEPOT_LNG c6Order.lat c6Order.lng) := by decide

/-- C4 (code bug).  `genetic_algorithm` exposes no seed parameter: its
signature is `(orders, vehicles, calculate_distance, two_opt_improve,
calculate_route_metrics, generations, population_size)` and it draws
from the global `random` module.  Consequently two runs with identical
declared inputs can return different route sets, depending only on the
(uncontrollable) state of the global stream: under one stream the best
chromosome routes order `a`, under another it routes order `b`. -/
theorem claim_C4_seedless_divergence :
    (genetic_algorithm [c4OrderA, c4OrderB] [c4Vehicle] distZero
      (two_opt_improve distZero) (calculate_route_metrics distZero) 1 3
      c4Stream1).map (fun p => (p.1.1.map idsOfS, p.1.2)) = .ok ([["a"]], 1) ∧
    (genetic_algorithm [c4OrderA, c4OrderB] [c4Vehicle] distZero
      (two_opt_improve distZero) (calculate_route_metrics distZero) 1 3
      c4Stream2).map (fun p => (p.1.1.map idsOfS, p.1.2)) = .ok ([["b"]], 1) := by
  exact ⟨by decide, by decide⟩

/-! ## Invariant lemmas for `distance_first_algorithm` -/

theorem dfStep_sound (dist : DistFn) (assigned : List String) (totalW maxCap : ℚ)
    (maxRadius : Option ℚ) (curLat curLng : ℚ) (P : BOrder → Prop)
    (best : Option (BOrder × ℚ)) (o : BOrder)
    (hbest : ∀ q e, best = some (q, e) → P q)
    (hfeas : o.id ∉ assigned → ¬(maxCap < qadd totalW (bweight o)) →
      radiusExceeded maxRadius (dist depot_lat depot_lng (blat o) (blng o)) = false → P o) :
    ∀ q e, dfStep dist assigned totalW maxCap maxRadius curLat curLng best o = some (q, e) → P q := by
  intro q e
  rw [dfStep]
  by_cases h1 : o.id ∈ assigned
  · rw [if_pos h1]; exact hbest q e
  rw [if_neg h1]
  by_cases h2 : maxCap < qadd totalW (bweight o)
  · rw [if_pos h2]; exact hbest q e
  rw [if_neg h2]
  by_cases h3 : radiusExceeded maxRadius (dist depot_lat depot_lng (blat o) (blng o)) = true
  · rw [if_pos h3]; exact hbest q e
  rw [if_neg h3]
  have h3' : radiusExceeded maxRadius (dist depot_lat depot_lng (blat o) (blng o)) = false :=
    Bool.not_eq_true _ ▸ (eq_false_of_ne_true h3)
  cases best with
  | none =>
      intro hsome
      cases hsome
      exact hfeas h1 h2 h3'
  | some b =>
      obtain ⟨bo, bd⟩ := b
      intro hsome
      dsimp only at hsome
      split at hsome
      · cases hsome
        exact hfeas h1 h2 h3'
      · exact hbest q e hsome

theorem dfFold_sound (dist : DistFn) (assigned : List String) (totalW maxCap : ℚ)
    (maxRadius : Option ℚ) (curLat curLng : ℚ) (P : BOrder → Prop) :
    ∀ (orders : List BOrder) (best : Option (BOrder × ℚ)),
    (∀ q e, best = some (q, e) → P q) →
    (∀ o ∈ orders, o.id ∉ assigned → ¬(maxCap < qadd totalW (bweight o)) →
      radiusExceeded maxRadius (dist depot_lat depot_lng (blat o) (blng o)) = false → P o) →
    ∀ q e, orders.foldl (dfStep dist assigned totalW maxCap maxRadius curLat curLng) best
      = some (q, e) → P q := by
  intro orders
  induction orders with
  | nil => intro best hbest _ q e h; exact hbest q e h
  | cons o rest ih =>
      intro best hbest hfeas q e h
      rw [List.foldl_cons] at h
      refine ih _ ?_ (fun p hp => hfeas p (List.mem_cons_of_mem o hp)) q e h
      exact dfStep_sound dist assigned totalW maxCap maxRadius curLat curLng P best o hbest
        (hfeas o (List.mem_cons_self o rest))

/-- Everything known about a successfully selected order. -/
theorem dfScan_sound (dist : DistFn) (assigned : List String) (totalW maxCap : ℚ)
    (maxRadius : Option ℚ) (curLat curLng : ℚ) (orders : List BOrder)
    (q : BOrder) (e : ℚ)
    (h : dfScan dist assigned totalW maxCap maxRadius curLat curLng orders = some (q, e)) :
    q ∈ orders ∧ q.id ∉ assigned ∧ ¬(maxCap < qadd totalW (bweight q)) ∧
    radiusExceeded maxRadius (dist depot_lat depot_lng (blat q) (blng q)) = false := by
  refine dfFold_sound dist assigned totalW maxCap maxRadius curLat curLng
    (fun o => o ∈ orders ∧ o.id ∉ assigned ∧ ¬(maxCap < qadd totalW (bweight o)) ∧
      radiusExceeded maxRadius (dist depot_lat depot_lng (blat o) (blng o)) = false)
    orders none (by intro _ _ hc; cases hc) ?_ q e h
  intro o hmem h1 h2 h3
  exact ⟨hmem, h1, h2, h3⟩

/-- The greedy loop only appends stops that passed the radius check, and
never changes the vehicle. -/
theorem dfVehicleLoop_stops (dist : DistFn) (orders : List BOrder) (maxCap : ℚ)
    (maxRadius : Option ℚ) :
    ∀ (fuel : Nat) (route : BRoute) (curLat curLng curTime : ℚ) (assigned : List String),
    (∀ s ∈ route.orders,
      radiusExceeded maxRadius (dist depot_lat depot_lng (blat s.ord) (blng s.ord)) = false) →
    (∀ s ∈ (dfVehicleLoop dist orders maxCap maxRadius fuel route curLat curLng curTime assigned).1.orders,
      radiusExceeded maxRadius (dist depot_lat depot_lng (blat s.ord) (blng s.ord)) = false) ∧
    (dfVehicleLoop dist orders maxCap maxRadius fuel route curLat curLng curTime assigned).1.vehicle
      = route.vehicle := by
  intro fuel
  induction fuel with
  | zero => intro route _ _ _ _ hstops; exact ⟨hstops, rfl⟩
  | succ f ih =>
      intro route curLat curLng curTime assigned hstops
      rw [dfVehicleLoop]
      cases hscan : dfScan dist assigned route.totalWeight maxCap maxRadius curLat curLng orders with
      | none => exact ⟨hstops, rfl⟩
      | some p =>
          obtain ⟨o, nd⟩ := p
          have hfacts := dfScan_sound dist assigned route.totalWeight maxCap maxRadius
            curLat curLng orders o nd hscan
          refine ih _ _ _ _ _ ?_
          intro s hs
          rcases List.mem_append.mp hs with hs1 | hs2
          · exact hstops s hs1
          · rcases List.mem_singleton.mp hs2 with rfl
            exact hfacts.2.2.2

theorem dfProcessVehicle_range (dist : DistFn) (orders : List BOrder)
    (acc : List BRoute × List String) (v : BVehicle)
    (hacc : DfRangeOk dist acc.1) :
    DfRangeOk dist (dfProcessVehicle dist orders acc v).1 := by
  rw [dfProcessVehicle]
  have hloop := dfVehicleLoop_stops dist orders (bcap v) (bMaxRadius v)
    (orders.length + 1) ⟨v, [], 0, 0, 0, 0, 0⟩ depot_lat depot_lng (qofNat 480) acc.2
    (by intro s hs; cases hs)
  cases hlast : (dfVehicleLoop dist orders (bcap v) (bMaxRadius v)
      (orders.length + 1) ⟨v, [], 0, 0, 0, 0, 0⟩ depot_lat depot_lng (qofNat 480) acc.2).1.orders.getLast? with
  | none => exact hacc
  | some lastStop =>
      intro r hr
      rcases List.mem_append.mp hr with hr1 | hr2
      · exact hacc r hr1
      · rcases List.mem_singleton.mp hr2 with rfl
        intro s hs
        have hveh := hloop.2
        simp only [hveh]
        exact hloop.1 s hs

theorem distance_first_range (dist : DistFn) (orders : List BOrder)
    (vehicles : List BVehicle) :
    DfRangeOk dist (distance_first_algorithm dist orders vehicles).1 := by
  rw [distance_first_algorithm]
  have main : ∀ (vs : List BVehicle) (acc : List BRoute × List String),
      DfRangeOk dist acc.1 → DfRangeOk dist (vs.foldl (dfProcessVehicle dist orders) acc).1 := by
    intro vs
    induction vs with
    | nil => intro acc h; exact h
    | cons v rest ih =>
        intro acc h
        rw [List.foldl_cons]
        exact ih _ (dfProcessVehicle_range dist orders acc v h)
  exact main (sortVehicles vehicles) ([], []) (by intro r hr; cases hr)

/-! ## Invariant lemmas for `time_first_algorithm` -/

theorem tfStep_idx (dist : DistFn) (ow olat olng : ℚ) (we : Option ℚ)
    (acc : Option TfBest × Nat) (w : TfWork) :
    (tfStep dist ow olat olng we acc w).2 = acc.2 + 1 := rfl

theorem tfStep_sound (dist : DistFn) (ow olat olng : ℚ) (we : Option ℚ)
    (P : Nat → Prop) (acc : Option TfBest × Nat) (w : TfWork)
    (hbest : ∀ b, acc.1 = some b → P b.idx)
    (hw : ¬(bcap w.route.vehicle < qadd w.route.totalWeight ow) →
      radiusExceeded (bMaxRadius w.route.vehicle)
        (dist depot_lat depot_lng olat olng) = false → P acc.2) :
    ∀ b, (tfStep dist ow olat olng we acc w).1 = some b → P b.idx := by
  intro b
  show tfStepBest dist ow olat olng we acc.1 acc.2 w = some b → P b.idx
  rw [tfStepBest.eq_def]
  by_cases h1 : bcap w.route.vehicle < qadd w.route.totalWeight ow
  · rw [if_pos h1]; exact hbest b
  rw [if_neg h1]
  by_cases h2 : radiusExceeded (bMaxRadius w.route.vehicle)
      (dist depot_lat depot_lng olat olng) = true
  · rw [if_pos h2]; exact hbest b
  rw [if_neg h2]
  have h2' : radiusExceeded (bMaxRadius w.route.vehicle)
      (dist depot_lat depot_lng olat olng) = false :=
    Bool.not_eq_true _ ▸ (eq_false_of_ne_true h2)
  cases hacc : acc.1 with
  | none =>
      intro hsome
      cases hsome
      exact hw h1 h2'
  | some bb =>
      dsimp only
      by_cases h4 : (tfCand dist olat olng we acc.2 w).score < bb.score
      · rw [if_pos h4]
        intro hsome
        cases hsome
        exact hw h1 h2'
      · rw [if_neg h4]
        intro hsome
        exact hbest b (hacc.trans hsome)

theorem tfFold_sound (dist : DistFn) (ow olat olng : ℚ) (we : Option ℚ)
    (P : Nat → Prop) :
    ∀ (ws : List TfWork) (best0 : Option TfBest) (i0 : Nat),
    (∀ b, best0 = some b → P b.idx) →
    (∀ k (hk : k < ws.length),
      ¬(bcap (ws.get ⟨k, hk⟩).route.vehicle <
          qadd (ws.get ⟨k, hk⟩).route.totalWeight ow) →
      radiusExceeded (bMaxRadius (ws.get ⟨k, hk⟩).route.vehicle)
        (dist depot_lat depot_lng olat olng) = false → P (i0 + k)) →
    ∀ b, (ws.foldl (tfStep dist ow olat olng we) (best0, i0)).1 = some b → P b.idx := by
  intro ws
  induction ws with
  | nil => intro best0 i0 hbest _ b h; exact hbest b h
  | cons w rest ih =>
      intro best0 i0 hbest hks b h
      rw [List.foldl_cons] at h
      have hpair : tfStep dist ow olat olng we (best0, i0) w =
          ((tfStep dist ow olat olng we (best0, i0) w).1, i0 + 1) := by
        rw [← tfStep_idx dist ow olat olng we (best0, i0) w]
      rw [hpair] at h
      refine ih _ (i0 + 1) ?_ ?_ b h
      · refine tfStep_sound dist ow olat olng we P (best0, i0) w hbest ?_
        intro hcap hrad
        have := hks 0 (by simp) hcap hrad
        simpa using this
      · intro k hk hcap hrad
        have := hks (k + 1) (by simpa using Nat.succ_lt_succ hk) hcap hrad
        have heq : i0 + (k + 1) = i0 + 1 + k := by omega
        rw [heq] at this
        exact this

/-- Everything the update step needs to know about a selected best
vehicle: its index is in range and the work there passed the capacity
and radius checks for this order. -/
theorem tfScan_sound (dist : DistFn) (ow olat olng : ℚ) (we : Option ℚ)
    (works : List TfWork) (b : TfBest)
    (h : (works.foldl (tfStep dist ow olat olng we) (none, 0)).1 = some b) :
    ∃ hk : b.idx < works.length,
      ¬(bcap (works.get ⟨b.idx, hk⟩).route.vehicle <
          qadd (works.get ⟨b.idx, hk⟩).route.totalWeight ow) ∧
      radiusExceeded (bMaxRadius (works.get ⟨b.idx, hk⟩).route.vehicle)
        (dist depot_lat depot_lng olat olng) = false := by
  refine tfFold_sound dist ow olat olng we
    (fun i => ∃ hk : i < works.length,
      ¬(bcap (works.get ⟨i, hk⟩).route.vehicle <
          qadd (works.get ⟨i, hk⟩).route.totalWeight ow) ∧
      radiusExceeded (bMaxRadius (works.get ⟨i, hk⟩).route.vehicle)
        (dist depot_lat depot_lng olat olng) = false)
    works none 0 (by intro _ hc; cases hc) ?_ b h
  intro k hk hcap hrad
  exact ⟨by simpa using hk, by simpa using hcap, by simpa using hrad⟩

theorem get_of_get?_eq {α : Type} {l : List α} {i : Nat} {x : α}
    (h : l.get? i = some x) (hk : i < l.length) : l.get ⟨i, hk⟩ = x := by
  rw [List.get?_eq_get hk] at h
  exact Option.some.inj h

theorem tfAssignOrder_range (dist : DistFn) (acc : List TfWork × List String)
    (o : BOrder) (h : TfRangeOk dist acc.1) :
    TfRangeOk dist (tfAssignOrder dist acc o).1 := by
  rw [tfAssignOrder]
  by_cases h0 : o.id ∈ acc.2
  · rw [if_pos h0]; exact h
  rw [if_neg h0]
  dsimp only
  cases hscan : (acc.1.foldl (tfStep dist (bweight o) (blat o) (blng o)
      ((time_to_minutes (o.windowEnd.getD "")).map qofInt)) (none, 0)).1 with
  | none => exact h
  | some b =>
      dsimp only
      obtain ⟨hk, hcap, hrad⟩ := tfScan_sound dist (bweight o) (blat o) (blng o)
        ((time_to_minutes (o.windowEnd.getD "")).map qofInt) acc.1 b hscan
      cases hget : acc.1.get? b.idx with
      | none => exact h
      | some w =>
          dsimp only
          have hw : acc.1.get ⟨b.idx, hk⟩ = w := get_of_get?_eq hget hk
          rw [hw] at hrad
          intro w' hw' s hs
          rcases List.mem_or_eq_of_mem_set hw' with hmem | rfl
          · exact h w' hmem s hs
          · rcases List.mem_append.mp hs with hs1 | hs2
            · exact h w (List.get?_mem hget) s hs1
            · rcases List.mem_singleton.mp hs2 with rfl
              exact hrad

/-- `tfFinish` keeps each route's vehicle and stop list. -/
theorem tfFinish_mem (dist : DistFn) :
    ∀ (works : List TfWork) (acc : List BRoute),
    ∀ r ∈ works.foldl (fun acc w =>
      match w.route.orders.getLast? with
      | none => acc
      | some lastStop =>
          acc ++ [{ w.route with
            totalDistance := pyRound1 (qadd w.route.totalDistance
              (dist (blat lastStop.ord) (blng lastStop.ord) depot_lat depot_lng)) }]) acc,
    r ∈ acc ∨ ∃ w ∈ works, r.vehicle = w.route.vehicle ∧ r.orders = w.route.orders := by
  intro works
  induction works with
  | nil => intro acc r hr; exact Or.inl hr
  | cons w rest ih =>
      intro acc r hr
      rw [List.foldl_cons] at hr
      rcases ih _ r hr with hacc | ⟨w', hw', hveh, hord⟩
      · cases hlast : w.route.orders.getLast? with
        | none =>
            rw [hlast] at hacc
            exact Or.inl hacc
        | some lastStop =>
            rw [hlast] at hacc
            rcases List.mem_append.mp hacc with h1 | h2
            · exact Or.inl h1
            · rcases List.mem_singleton.mp h2 with rfl
              exact Or.inr ⟨w, List.mem_cons_self _ _, rfl, rfl⟩
      · exact Or.inr ⟨w', List.mem_cons_of_mem _ hw', hveh, hord⟩

theorem time_first_range (dist : DistFn) (orders : List BOrder)
    (vehicles : List BVehicle) :
    ∀ r ∈ (time_first_algorithm dist orders vehicles).1, ∀ s ∈ r.orders,
      radiusExceeded (bMaxRadius r.vehicle)
        (dist depot_lat depot_lng (blat s.ord) (blng s.ord)) = false := by
  rw [time_first_algorithm]
  intro r hr
  have hworks : TfRangeOk dist ((sortOrdersTF orders).foldl (tfAssignOrder dist)
      ((sortVehicles vehicles).map
        (fun v => (⟨⟨v, [], 0, 0, 0, 0, 0⟩, depot_lat, depot_lng, qofNat 480⟩ : TfWork)), [])).1 := by
    have main : ∀ (os : List BOrder) (acc : List TfWork × List String),
        TfRangeOk dist acc.1 → TfRangeOk dist (os.foldl (tfAssignOrder dist) acc).1 := by
      intro os
      induction os with
      | nil => intro acc h; exact h
      | cons o rest ih =>
          intro acc h
          rw [List.foldl_cons]
          exact ih _ (tfAssignOrder_range dist acc o h)
    refine main _ _ ?_
    intro w hw s hs
    rcases List.mem_map.mp hw with ⟨v, -, rfl⟩
    cases hs
  have := tfFinish_mem dist ((sortOrdersTF orders).foldl (tfAssignOrder dist)
      ((sortVehicles vehicles).map
        (fun v => (⟨⟨v, [], 0, 0, 0, 0, 0⟩, depot_lat, depot_lng, qofNat 480⟩ : TfWork)), [])).1 [] r hr
  rcases this with hacc | ⟨w, hw, hveh, hord⟩
  · cases hacc
  · intro s hs
    rw [hveh, hord] at *
    exact hworks w hw s hs

/-- Convert a passed radius check into the distance bound. -/
theorem radius_le_of_not_exceeded {r d : ℚ} (h : radiusExceeded (some r) d = false) :
    d ≤ r := by
  rw [radiusExceeded] at h
  exact not_lt.mp (of_decide_eq_false h)

theorem bMaxRadius_bike {v : BVehicle} (h : btype v = "bike") :
    bMaxRadius v = some (qofNat 15) := by
  rw [bMaxRadius, if_pos h]

theorem bMaxRadius_van {v : BVehicle} (h : btype v = "van") :
    bMaxRadius v = some (qofNat 50) := by
  rw [bMaxRadius]
  rw [if_neg (by rw [h]; decide), if_pos h]

/-- C2 (amended).  In Distance-First and Time-First, every stop of every
returned route respects the vehicle-type range limit as computed by the
algorithm's distance function: bike stops lie within 15 km of the depot
and van stops within 50 km; trucks and other types are unlimited.  (Per
the counterexample, the four advanced algorithms enforce only the
bike limit — Clarke-Wright, sweep, balanced — or none at all — genetic —
so the original claim's universal quantification over algorithms fails.) -/
theorem claim_C2_amended (dist : DistFn) (orders : List BOrder)
    (vehicles : List BVehicle) :
    (∀ r ∈ (distance_first_algorithm dist orders vehicles).1, ∀ s ∈ r.orders,
      (btype r.vehicle = "bike" →
        dist depot_lat depot_lng (blat s.ord) (blng s.ord) ≤ qofNat 15) ∧
      (btype r.vehicle = "van" →
        dist depot_lat depot_lng (blat s.ord) (blng s.ord) ≤ qofNat 50)) ∧
    (∀ r ∈ (time_first_algorithm dist orders vehicles).1, ∀ s ∈ r.orders,
      (btype r.vehicle = "bike" →
        dist depot_lat depot_lng (blat s.ord) (blng s.ord) ≤ qofNat 15) ∧
      (btype r.vehicle = "van" →
        dist depot_lat depot_lng (blat s.ord) (blng s.ord) ≤ qofNat 50)) := by
  constructor
  · intro r hr s hs
    have h := distance_first_range dist orders vehicles r hr s hs
    constructor
    · intro hb
      rw [bMaxRadius_bike hb] at h
      exact radius_le_of_not_exceeded h
    · intro hv
      rw [bMaxRadius_van hv] at h
      exact radius_le_of_not_exceeded h
  · intro r hr s hs
    have h := time_first_range dist orders vehicles r hr s hs
    constructor
    · intro hb
      rw [bMaxRadius_bike hb] at h
      exact radius_le_of_not_exceeded h
    · intro hv
      rw [bMaxRadius_van hv] at h
      exact radius_le_of_not_exceeded h

/-! ## Amended error-handling behaviour (C6) -/

theorem qadd_zero_left (x : ℚ) : qadd 0 x = x := by
  rw [qadd_eq, zero_add]

theorem dfStep_infeasible (dist : DistFn) (assigned : List String)
    (totalW maxCap : ℚ) (maxRadius : Option ℚ) (curLat curLng : ℚ) (o : BOrder)
    (ho : o.id ∉ assigned → maxCap < qadd totalW (bweight o)) :
    dfStep dist assigned totalW maxCap maxRadius curLat curLng none o = none := by
  rw [dfStep]
  by_cases h1 : o.id ∈ assigned
  · rw [if_pos h1]
  · rw [if_neg h1, if_pos (ho h1)]

theorem dfScan_infeasible (dist : DistFn) (assigned : List String)
    (totalW maxCap : ℚ) (maxRadius : Option ℚ) (curLat curLng : ℚ)
    (orders : List BOrder)
    (h : ∀ o ∈ orders, o.id ∉ assigned → maxCap < qadd totalW (bweight o)) :
    dfScan dist assigned totalW maxCap maxRadius curLat curLng orders = none := by
  rw [dfScan]
  induction orders with
  | nil => rfl
  | cons o rest ih =>
      rw [List.foldl_cons, dfStep_infeasible dist assigned totalW maxCap maxRadius
        curLat curLng o (h o (List.mem_cons_self o rest))]
      exact ih (fun p hp => h p (List.mem_cons_of_mem o hp))

theorem tfStepBest_infeasible (dist : DistFn) (ow olat olng : ℚ) (we : Option ℚ)
    (idx : Nat) (w : TfWork)
    (hcap : bcap w.route.vehicle < qadd w.route.totalWeight ow) :
    tfStepBest dist ow olat olng we none idx w = none := by
  rw [tfStepBest.eq_def, if_pos hcap]

theorem tfFold_infeasible (dist : DistFn) (ow olat olng : ℚ) (we : Option ℚ) :
    ∀ (ws : List TfWork) (i0 : Nat),
    (∀ w ∈ ws, bcap w.route.vehicle < qadd w.route.totalWeight ow) →
    (ws.foldl (tfStep dist ow olat olng we) (none, i0)).1 = none := by
  intro ws
  induction ws with
  | nil => intro i0 _; rfl
  | cons w rest ih =>
      intro i0 h
      rw [List.foldl_cons]
      have hstep : tfStep dist ow olat olng we (none, i0) w = (none, i0 + 1) := by
        show (tfStepBest dist ow olat olng we none i0 w, i0 + 1) = (none, i0 + 1)
        rw [tfStepBest_infeasible dist ow olat olng we i0 w (h w (List.mem_cons_self w rest))]
      rw [hstep]
      exact ih (i0 + 1) (fun p hp => h p (List.mem_cons_of_mem w hp))

/-- C6 (amended).  The two backend algorithms never fail: a run in which
no vehicle can take any order (every order outweighs every capacity)
returns zero routes with every order unassigned, and an unparsable or
absent time window makes `calculate_time_penalty` report on-time with no
lateness.  (Per the counterexample, the claim's "no algorithm raises" is
false for the four advanced algorithms, which subscript
`order['weight']`/`vehicle['maxCapacity']` directly and — in Balanced
Multi-Trip — divide by the fleet's total capacity.) -/
theorem claim_C6_amended (dist : DistFn) (orders : List BOrder)
    (vehicles : List BVehicle)
    (hinf : ∀ o ∈ orders, ∀ v ∈ vehicles, bcap v < bweight o) :
    distance_first_algorithm dist orders vehicles = ([], 0) ∧
    time_first_algorithm dist orders vehicles = ([], 0) ∧
    (∀ s, time_to_minutes s = none → ∀ arrival tol,
      calculate_time_penalty arrival ((time_to_minutes s).map qofInt) tol = (true, 0)) := by
  refine ⟨?_, ?_, ?_⟩
  · rw [distance_first_algorithm]
    have main : ∀ vs : List BVehicle, (∀ v ∈ vs, v ∈ vehicles) →
        vs.foldl (dfProcessVehicle dist orders) ([], []) = ([], []) := by
      intro vs
      induction vs with
      | nil => intro _; rfl
      | cons v rest ih =>
          intro hmem
          rw [List.foldl_cons]
          have hone : dfProcessVehicle dist orders ([], []) v = ([], []) := by
            rw [dfProcessVehicle]
            have hscan : dfScan dist [] (0 : ℚ) (bcap v) (bMaxRadius v)
                depot_lat depot_lng orders = none := by
              refine dfScan_infeasible dist [] 0 (bcap v) (bMaxRadius v)
                depot_lat depot_lng orders ?_
              intro o ho _
              rw [qadd_zero_left]
              exact hinf o ho v (hmem v (List.mem_cons_self v rest))
            have hloop : dfVehicleLoop dist orders (bcap v) (bMaxRadius v)
                (orders.length + 1) ⟨v, [], 0, 0, 0, 0, 0⟩ depot_lat depot_lng
                (qofNat 480) [] = (⟨v, [], 0, 0, 0, 0, 0⟩, []) := by
              rw [dfVehicleLoop]
              rw [hscan]
            rw [hloop]
            rfl
          rw [hone]
          exact ih (fun p hp => hmem p (List.mem_cons_of_mem v hp))
    rw [main (sortVehicles vehicles)
      (fun v hv => (List.perm_insertionSort vehLe vehicles).mem_iff.mp hv)]
    rfl
  · rw [time_first_algorithm]
    have hworks : ∀ w ∈ (sortVehicles vehicles).map
        (fun v => (⟨⟨v, [], 0, 0, 0, 0, 0⟩, depot_lat, depot_lng, qofNat 480⟩ : TfWork)),
        w.route.vehicle ∈ vehicles ∧ w.route.totalWeight = 0 ∧ w.route.orders = [] := by
      intro w hw
      rcases List.mem_map.mp hw with ⟨v, hv, rfl⟩
      exact ⟨(List.perm_insertionSort vehLe vehicles).mem_iff.mp hv, rfl, rfl⟩
    set works0 := (sortVehicles vehicles).map
      (fun v => (⟨⟨v, [], 0, 0, 0, 0, 0⟩, depot_lat, depot_lng, qofNat 480⟩ : TfWork)) with hw0
    have hfold : (sortOrdersTF orders).foldl (tfAssignOrder dist) (works0, []) = (works0, []) := by
      have horder : ∀ o ∈ sortOrdersTF orders, o ∈ orders :=
        fun o ho => (List.perm_insertionSort tfOrderLe orders).mem_iff.mp ho
      have main : ∀ os : List BOrder, (∀ o ∈ os, o ∈ orders) →
          os.foldl (tfAssignOrder dist) (works0, []) = (works0, []) := by
        intro os
        induction os with
        | nil => intro _; rfl
        | cons o rest ih =>
            intro hmem
            rw [List.foldl_cons]
            have hone : tfAssignOrder dist (works0, []) o = (works0, []) := by
              rw [tfAssignOrder]
              rw [if_neg (by intro hc; cases hc)]
              dsimp only
              rw [tfFold_infeasible dist (bweight o) (blat o) (blng o)
                ((time_to_minutes (o.windowEnd.getD "")).map qofInt) works0 0 ?_]
              intro w hw
              obtain ⟨hv, hz, -⟩ := hworks w hw
              rw [hz, qadd_zero_left]
              exact hinf o (hmem o (List.mem_cons_self o rest)) _ hv
            rw [hone]
            exact ih (fun p hp => hmem p (List.mem_cons_of_mem o hp))
      exact main _ horder
    rw [hfold]
    have hfin : tfFinish dist works0 = [] := by
      rw [tfFinish]
      have main : ∀ ws : List TfWork, (∀ w ∈ ws, w.route.orders = []) →
          ∀ acc : List BRoute, ws.foldl (fun acc w =>
            match w.route.orders.getLast? with
            | none => acc
            | some lastStop =>
                acc ++ [{ w.route with
                  totalDistance := pyRound1 (qadd w.route.totalDistance
                    (dist (blat lastStop.ord) (blng lastStop.ord) depot_lat depot_lng)) }]) acc = acc := by
        intro ws
        induction ws with
        | nil => intro _ acc; rfl
        | cons w rest ih =>
            intro hmem acc
            rw [List.foldl_cons]
            have : w.route.orders = [] := hmem w (List.mem_cons_self w rest)
            rw [this]
            exact ih (fun p hp => hmem p (List.mem_cons_of_mem w hp)) acc
      exact main works0 (fun w hw => (hworks w hw).2.2) []
    rw [hfin]
    rfl
  · intro s hs arrival tol
    rw [hs]
    rfl

/-- Witness for the amended C6: one 5 kg order against a single
capacity-1 vehicle yields zero routes and zero assigned orders in both
backend algorithms. -/
theorem claim_C6_amended_witness :
    distance_first_algorithm distZero
      [⟨"o1", some 0, some 0, some (qofNat 5), none, none⟩]
      [⟨some "v1", some (qofNat 1), some "van", none⟩] = ([], 0) ∧
    time_first_algorithm distZero
      [⟨"o1", some 0, some 0, some (qofNat 5), none, none⟩]
      [⟨some "v1", some (qofNat 1), some "van", none⟩] = ([], 0) := by
  have h := claim_C6_amended distZero
    [⟨"o1", some 0, some 0, some (qofNat 5), none, none⟩]
    [⟨some "v1", some (qofNat 1), some "van", none⟩]
    (by
      intro o ho v hv
      rcases List.mem_singleton.mp ho with rfl
      rcases List.mem_singleton.mp hv with rfl
      decide)
  exact ⟨h.1, h.2.1⟩

/-! ## No-duplication for the backend algorithms -/

theorem flatMap_nil_of {α β : Type} (f : α → List β) :
    ∀ L : List α, (∀ x ∈ L, f x = []) → L.flatMap f = [] := by
  intro L
  induction L with
  | nil => intro _; rfl
  | cons x rest ih =>
      intro h
      rw [List.flatMap_cons, h x (List.mem_cons_self x rest), List.nil_append]
      exact ih (fun y hy => h y (List.mem_cons_of_mem x hy))

theorem count_singleton_ite {α : Type} [DecidableEq α] (x z : α) :
    List.count z [x] = if x = z then 1 else 0 := by
  rw [List.count_cons, List.count_nil]
  simp [beq_iff_eq]

theorem tfAssignOrder_cnt (dist : DistFn) (acc : List TfWork × List String)
    (o : BOrder) (h : TfCnt acc) : TfCnt (tfAssignOrder dist acc o) := by
  rw [tfAssignOrder]
  by_cases h0 : o.id ∈ acc.2
  · rw [if_pos h0]; exact h
  rw [if_neg h0]
  dsimp only
  cases hscan : (acc.1.foldl (tfStep dist (bweight o) (blat o) (blng o)
      ((time_to_minutes (o.windowEnd.getD "")).map qofInt)) (none, 0)).1 with
  | none => exact h
  | some b =>
      dsimp only
      obtain ⟨hk, -, -⟩ := tfScan_sound dist (bweight o) (blat o) (blng o)
        ((time_to_minutes (o.windowEnd.getD "")).map qofInt) acc.1 b hscan
      cases hget : acc.1.get? b.idx with
      | none => exact h
      | some w =>
          dsimp only
          constructor
          · rw [List.nodup_append]
            exact ⟨h.1, List.nodup_singleton _, fun x hx hx1 =>
              h0 ((List.mem_singleton.mp hx1) ▸ hx)⟩
          · intro z
            dsimp only
            have hgetE : acc.1[b.idx] = w := by
              have := get_of_get?_eq hget hk
              simpa using this
            have hcnt := count_flatMap_set acc.1 b.idx hk (tfUpdatedWork o b w)
              (fun w => w.route.orders.map (fun s => s.ord.id)) z
            rw [hgetE] at hcnt
            have hnew : (tfUpdatedWork o b w).route.orders.map (fun s => s.ord.id) =
                w.route.orders.map (fun s => s.ord.id) ++ [o.id] := by
              rw [tfUpdatedWork]
              rw [List.map_append]
              rfl
            rw [hnew, List.count_append, count_singleton_ite] at hcnt
            have hbound := h.2 z
            rw [List.count_append, count_singleton_ite]
            unfold worksIds at hbound ⊢
            omega

theorem tf_fold_cnt (dist : DistFn) :
    ∀ (os : List BOrder) (acc : List TfWork × List String),
    TfCnt acc → TfCnt (os.foldl (tfAssignOrder dist) acc) := by
  intro os
  induction os with
  | nil => intro acc h; exact h
  | cons o rest ih =>
      intro acc h
      rw [List.foldl_cons]
      exact ih _ (tfAssignOrder_cnt dist acc o h)

theorem tfFinish_cnt (dist : DistFn) (z : String) :
    ∀ (works : List TfWork) (acc : List BRoute),
    (routesIdsB (works.foldl (fun acc w =>
      match w.route.orders.getLast? with
      | none => acc
      | some lastStop =>
          acc ++ [{ w.route with
            totalDistance := pyRound1 (qadd w.route.totalDistance
              (dist (blat lastStop.ord) (blng lastStop.ord) depot_lat depot_lng)) }]) acc)).count z ≤
      (routesIdsB acc).count z + (worksIds works).count z := by
  intro works
  induction works with
  | nil => intro acc; simp [worksIds]
  | cons w rest ih =>
      intro acc
      rw [List.foldl_cons]
      have hrest := ih (match w.route.orders.getLast? with
        | none => acc
        | some lastStop =>
            acc ++ [{ w.route with
              totalDistance := pyRound1 (qadd w.route.totalDistance
                (dist (blat lastStop.ord) (blng lastStop.ord) depot_lat depot_lng)) }])
      have hstep : (routesIdsB (match w.route.orders.getLast? with
          | none => acc
          | some lastStop =>
              acc ++ [{ w.route with
                totalDistance := pyRound1 (qadd w.route.totalDistance
                  (dist (blat lastStop.ord) (blng lastStop.ord) depot_lat depot_lng)) }])).count z ≤
          (routesIdsB acc).count z + (w.route.orders.map (fun s => s.ord.id)).count z := by
        cases hlast : w.route.orders.getLast? with
        | none => simp
        | some lastStop =>
            rw [routesIdsB, List.flatMap_append, List.count_append]
            have : (([{ w.route with
                totalDistance := pyRound1 (qadd w.route.totalDistance
                  (dist (blat lastStop.ord) (blng lastStop.ord) depot_lat depot_lng)) }] :
                List BRoute).flatMap idsOfB).count z =
                (w.route.orders.map (fun s => s.ord.id)).count z := by
              rw [List.flatMap_cons]
              simp [idsOfB]
            rw [this]
            rfl
      have hw : (worksIds (w :: rest)).count z =
          (w.route.orders.map (fun s => s.ord.id)).count z + (worksIds rest).count z := by
        rw [worksIds, List.flatMap_cons, List.count_append]
        rfl
      rw [hw]
      omega

/-- Time-First never places an order twice: the flattened stop-id list
of its output is duplicate-free (no distinct-ids hypothesis is needed —
the algorithm's own assigned-set guard enforces it). -/
theorem time_first_nodup (dist : DistFn) (orders : List BOrder)
    (vehicles : List BVehicle) :
    (routesIdsB (time_first_algorithm dist orders vehicles).1).Nodup := by
  rw [time_first_algorithm]
  set works0 := (sortVehicles vehicles).map
    (fun v => (⟨⟨v, [], 0, 0, 0, 0, 0⟩, depot_lat, depot_lng, qofNat 480⟩ : TfWork)) with hw0
  have hinit : TfCnt (works0, []) := by
    constructor
    · exact List.nodup_nil
    · intro z
      have : worksIds works0 = [] := by
        refine flatMap_nil_of _ works0 ?_
        intro w hw
        rcases List.mem_map.mp hw with ⟨v, -, rfl⟩
        rfl
      rw [this]
  have hcnt := tf_fold_cnt dist (sortOrdersTF orders) (works0, []) hinit
  refine nodup_of_count_le (m := ((sortOrdersTF orders).foldl (tfAssignOrder dist)
    (works0, [])).2) ?_ hcnt.1
  intro z
  calc (routesIdsB (tfFinish dist ((sortOrdersTF orders).foldl (tfAssignOrder dist)
        (works0, [])).1)).count z
      ≤ (routesIdsB []).count z + (worksIds ((sortOrdersTF orders).foldl
          (tfAssignOrder dist) (works0, [])).1).count z := tfFinish_cnt dist z _ []
    _ ≤ (((sortOrdersTF orders).foldl (tfAssignOrder dist) (works0, [])).2).count z := by
        have := hcnt.2 z
        simpa [routesIdsB] using this

/-- The greedy loop appends exactly the ids it adds to the assigned set,
and assignment stays duplicate-free. -/
theorem dfVehicleLoop_track (dist : DistFn) (orders : List BOrder) (maxCap : ℚ)
    (maxRadius : Option ℚ) :
    ∀ (fuel : Nat) (route : BRoute) (curLat curLng curTime : ℚ) (assigned : List String),
    ∃ newIds : List String,
      (dfVehicleLoop dist orders maxCap maxRadius fuel route curLat curLng curTime assigned).2
        = assigned ++ newIds ∧
      idsOfB (dfVehicleLoop dist orders maxCap maxRadius fuel route curLat curLng curTime assigned).1
        = idsOfB route ++ newIds ∧
      (assigned.Nodup → (assigned ++ newIds).Nodup) := by
  intro fuel
  induction fuel with
  | zero =>
      intro route curLat curLng curTime assigned
      exact ⟨[], by rw [List.append_nil]; rfl, by rw [List.append_nil]; rfl, fun h => by
        rw [List.append_nil]; exact h⟩
  | succ f ih =>
      intro route curLat curLng curTime assigned
      rw [dfVehicleLoop]
      cases hscan : dfScan dist assigned route.totalWeight maxCap maxRadius curLat curLng orders with
      | none =>
          exact ⟨[], by rw [List.append_nil], by rw [List.append_nil], fun h => by
            rw [List.append_nil]; exact h⟩
      | some p =>
          obtain ⟨o, nd⟩ := p
          have hfacts := dfScan_sound dist assigned route.totalWeight maxCap maxRadius
            curLat curLng orders o nd hscan
          obtain ⟨newIds, h1, h2, h3⟩ := ih
            { vehicle := route.vehicle
              orders := route.orders ++ [⟨o,
                qadd (qadd curTime (qmul (qdiv nd (qofNat 40)) (qofNat 60))) (qofNat 5),
                (calculate_time_penalty (qadd (qadd curTime (qmul (qdiv nd (qofNat 40)) (qofNat 60))) (qofNat 5))
                  ((time_to_minutes (o.windowEnd.getD "")).map qofInt) (qofNat 60)).1,
                (calculate_time_penalty (qadd (qadd curTime (qmul (qdiv nd (qofNat 40)) (qofNat 60))) (qofNat 5))
                  ((time_to_minutes (o.windowEnd.getD "")).map qofInt) (qofNat 60)).2⟩]
              totalWeight := qadd route.totalWeight (bweight o)
              totalDistance := qadd route.totalDistance nd
              onTimeDeliveries := route.onTimeDeliveries +
                (if (calculate_time_penalty (qadd (qadd curTime (qmul (qdiv nd (qofNat 40)) (qofNat 60))) (qofNat 5))
                  ((time_to_minutes (o.windowEnd.getD "")).map qofInt) (qofNat 60)).1 then 1 else 0)
              lateDeliveries := route.lateDeliveries +
                (if (calculate_time_penalty (qadd (qadd curTime (qmul (qdiv nd (qofNat 40)) (qofNat 60))) (qofNat 5))
                  ((time_to_minutes (o.windowEnd.getD "")).map qofInt) (qofNat 60)).1 then 0 else 1)
              totalLateness := qadd route.totalLateness
                (calculate_time_penalty (qadd (qadd curTime (qmul (qdiv nd (qofNat 40)) (qofNat 60))) (qofNat 5))
                  ((time_to_minutes (o.windowEnd.getD "")).map qofInt) (qofNat 60)).2 }
            (blat o) (blng o)
            (qadd (qadd curTime (qmul (qdiv nd (qofNat 40)) (qofNat 60))) (qofNat 5))
            (assigned ++ [o.id])
          refine ⟨o.id :: newIds, ?_, ?_, ?_⟩
          · rw [h1, List.append_assoc]
            rfl
          · rw [h2, idsOfB, List.map_append, List.append_assoc]
            rfl
          · intro hnodup
            have hstep : (assigned ++ [o.id]).Nodup := by
              rw [List.nodup_append]
              exact ⟨hnodup, List.nodup_singleton _, fun x hx hx1 =>
                hfacts.2.1 ((List.mem_singleton.mp hx1) ▸ hx)⟩
            have := h3 hstep
            rw [List.append_assoc] at this
            exact this

theorem dfProcessVehicle_cnt (dist : DistFn) (orders : List BOrder)
    (acc : List BRoute × List String) (v : BVehicle) (h : DfCnt acc) :
    DfCnt (dfProcessVehicle dist orders acc v) := by
  rw [dfProcessVehicle]
  obtain ⟨newIds, h1, h2, h3⟩ := dfVehicleLoop_track dist orders (bcap v) (bMaxRadius v)
    (orders.length + 1) ⟨v, [], 0, 0, 0, 0, 0⟩ depot_lat depot_lng (qofNat 480) acc.2
  cases hlast : (dfVehicleLoop dist orders (bcap v) (bMaxRadius v)
      (orders.length + 1) ⟨v, [], 0, 0, 0, 0, 0⟩ depot_lat depot_lng (qofNat 480) acc.2).1.orders.getLast? with
  | none =>
      refine ⟨h1 ▸ h3 h.1, ?_⟩
      intro z
      calc (routesIdsB acc.1).count z ≤ (acc.2).count z := h.2 z
        _ ≤ ((dfVehicleLoop dist orders (bcap v) (bMaxRadius v) (orders.length + 1)
            ⟨v, [], 0, 0, 0, 0, 0⟩ depot_lat depot_lng (qofNat 480) acc.2).2).count z := by
            rw [h1, List.count_append]
            omega
  | some lastStop =>
      refine ⟨h1 ▸ h3 h.1, ?_⟩
      intro z
      have hroutes : routesIdsB (acc.1 ++
          [{ (dfVehicleLoop dist orders (bcap v) (bMaxRadius v) (orders.length + 1)
              ⟨v, [], 0, 0, 0, 0, 0⟩ depot_lat depot_lng (qofNat 480) acc.2).1 with
            totalDistance := pyRound1 (qadd ((dfVehicleLoop dist orders (bcap v) (bMaxRadius v)
              (orders.length + 1) ⟨v, [], 0, 0, 0, 0, 0⟩ depot_lat depot_lng (qofNat 480) acc.2).1).totalDistance
              (dist (blat lastStop.ord) (blng lastStop.ord) depot_lat depot_lng)) }]) =
          routesIdsB acc.1 ++ newIds := by
        rw [routesIdsB, List.flatMap_append, List.flatMap_cons]
        have : idsOfB ({ (dfVehicleLoop dist orders (bcap v) (bMaxRadius v) (orders.length + 1)
            ⟨v, [], 0, 0, 0, 0, 0⟩ depot_lat depot_lng (qofNat 480) acc.2).1 with
            totalDistance := pyRound1 (qadd ((dfVehicleLoop dist orders (bcap v) (bMaxRadius v)
              (orders.length + 1) ⟨v, [], 0, 0, 0, 0, 0⟩ depot_lat depot_lng (qofNat 480) acc.2).1).totalDistance
              (dist (blat lastStop.ord) (blng lastStop.ord) depot_lat depot_lng)) }) = newIds := by
          exact h2.trans (List.nil_append newIds)
        rw [this, routesIdsB, List.flatMap_nil, List.append_nil]
      rw [hroutes, List.count_append, h1, List.count_append]
      have := h.2 z
      omega

/-- Distance-First never places an order twice. -/
theorem distance_first_nodup (dist : DistFn) (orders : List BOrder)
    (vehicles : List BVehicle) :
    (routesIdsB (distance_first_algorithm dist orders vehicles).1).Nodup := by
  rw [distance_first_algorithm]
  have main : ∀ (vs : List BVehicle) (acc : List BRoute × List String),
      DfCnt acc → DfCnt (vs.foldl (dfProcessVehicle dist orders) acc) := by
    intro vs
    induction vs with
    | nil => intro acc h; exact h
    | cons v rest ih =>
        intro acc h
        rw [List.foldl_cons]
        exact ih _ (dfProcessVehicle_cnt dist orders acc v h)
  have hfin := main (sortVehicles vehicles) ([], [])
    ⟨List.nodup_nil, fun z => by rw [routesIdsB]; rfl⟩
  exact nodup_of_count_le (fun z => hfin.2 z) hfin.1

/-- C7 (amended).  Time-First processes the orders sorted stably in
ascending order of the key `time_to_minutes(windowEnd or '23:59:00') or 1440`,
and places each order at most once.  Contrary to the spec sentence, an
order with *no* `windowEnd` field does not sort last: it inherits the
default string `'23:59:00'` and hence the key 1439, while an order whose
window is unparsable — or parses to midnight, minute 0 — receives the
key 1440 via Python's falsy `or` and sorts after it. -/
theorem claim_C7_amended (dist : DistFn) (orders : List BOrder)
    (vehicles : List BVehicle) :
    (sortOrdersTF orders).Sorted tfOrderLe
    ∧ (sortOrdersTF orders).Perm orders
    ∧ (∀ o : BOrder, o.windowEnd = none → tfSortKey o = 1439)
    ∧ (∀ (o : BOrder) (s : String), o.windowEnd = some s →
        time_to_minutes s = none → tfSortKey o = 1440)
    ∧ (∀ (o : BOrder) (s : String), o.windowEnd = some s →
        time_to_minutes s = some 0 → tfSortKey o = 1440)
    ∧ (routesIdsB (time_first_algorithm dist orders vehicles).1).Nodup := by
  refine ⟨List.sorted_insertionSort tfOrderLe orders,
    List.perm_insertionSort tfOrderLe orders, ?_, ?_, ?_,
    time_first_nodup dist orders vehicles⟩
  · intro o h
    rw [tfSortKey, h]
    decide
  · intro o s h1 h2
    rw [tfSortKey, h1, Option.getD_some, h2]
  · intro o s h1 h2
    rw [tfSortKey, h1, Option.getD_some, h2]
    rfl

theorem mem_drop_range_of {n m j : Nat} (h1 : m ≤ j) (h2 : j < n) :
    j ∈ (List.range n).drop m := by
  rw [List.mem_iff_getElem]
  refine ⟨j - m, ?_, ?_⟩
  · rw [List.length_drop, List.length_range]; omega
  · rw [List.getElem_drop, List.getElem_range]; omega

/-- Every `i < j < n` pair is generated by the two nested range loops. -/
theorem savingsPairs_mem (dist : DistFn) (orders : List SOrder) (i j : Nat)
    (hij : i < j) (hj : j < orders.length) :
    (⟨savingOfPair dist (orders.getD i default) (orders.getD j default), i, j,
      orders.getD i default, orders.getD j default⟩ : Saving)
      ∈ savingsPairs dist orders := by
  rw [savingsPairs]
  refine List.mem_flatMap.mpr ⟨i, List.mem_range.mpr (lt_trans hij hj), ?_⟩
  exact List.mem_map.mpr ⟨j, mem_drop_range_of hij hj, rfl⟩

/-- Conversely every generated pair has this shape. -/
theorem savingsPairs_shape (dist : DistFn) (orders : List SOrder) :
    ∀ sp ∈ savingsPairs dist orders,
      sp.i < sp.j ∧ sp.j < orders.length ∧
      sp.order_i = orders.getD sp.i default ∧
      sp.order_j = orders.getD sp.j default ∧
      sp.saving = savingOfPair dist sp.order_i sp.order_j := by
  intro sp hsp
  rw [savingsPairs] at hsp
  rcases List.mem_flatMap.mp hsp with ⟨i, hi, hmap⟩
  rcases List.mem_map.mp hmap with ⟨j, hj, rfl⟩
  have hij : i + 1 ≤ j := mem_drop_range hj
  have hjn : j < orders.length := List.mem_range.mp (List.mem_of_mem_drop hj)
  exact ⟨show i < j by omega, hjn, rfl, rfl, rfl⟩

/-- The saving value in ordinary rational arithmetic: the textbook
formula plus a `+1` bonus iff the two raw `priority` fields coincide. -/
theorem savingOfPair_eq (dist : DistFn) (oi oj : SOrder) :
    savingOfPair dist oi oj =
      dist DEPOT_LAT DEPOT_LNG oi.lat oi.lng + dist DEPOT_LAT DEPOT_LNG oj.lat oj.lng
        - dist oi.lat oi.lng oj.lat oj.lng
        + (if oi.priority = oj.priority then 1 else 0) := by
  rw [savingOfPair]
  by_cases h : oi.priority = oj.priority
  · rw [if_pos h, if_pos h, qadd_eq, qsub_eq, qadd_eq, qofNat_eq]
    push_cast
    ring
  · rw [if_neg h, if_neg h, qsub_eq, qadd_eq]
    ring

/-- C9 (amended).  Clarke-Wright computes, for every pair `i < j`, the
saving `d(0,i) + d(0,j) - d(i,j)` with a `+1.0` bonus exactly when the
two orders' *raw* `priority` fields are equal (`order.get('priority')`
without default or lowercasing — not the normalised priority tier of the
spec); it processes the pairs stably sorted by descending saving, and a
pair both of whose orders are already assigned leaves the state
untouched (no merging of existing routes). -/
theorem claim_C9_amended (dist : DistFn) (orders : List SOrder)
    (vehicles : List SVehicle) :
    (∀ i j : Nat, i < j → j < orders.length →
      (⟨savingOfPair dist (orders.getD i default) (orders.getD j default), i, j,
        orders.getD i default, orders.getD j default⟩ : Saving)
        ∈ savingsPairs dist orders)
    ∧ (∀ sp ∈ savingsPairs dist orders, sp.i < sp.j ∧ sp.j < orders.length ∧
        sp.order_i = orders.getD sp.i default ∧
        sp.order_j = orders.getD sp.j default ∧
        sp.saving = savingOfPair dist sp.order_i sp.order_j)
    ∧ (∀ oi oj : SOrder, savingOfPair dist oi oj =
        dist DEPOT_LAT DEPOT_LNG oi.lat oi.lng + dist DEPOT_LAT DEPOT_LNG oj.lat oj.lng
          - dist oi.lat oi.lng oj.lat oj.lng
          + (if oi.priority = oj.priority then 1 else 0))
    ∧ (sortSavings (savingsPairs dist orders)).Sorted savGe
    ∧ (sortSavings (savingsPairs dist orders)).Perm (savingsPairs dist orders)
    ∧ (∀ (st : List SRoute × List Nat) (sp : Saving),
        sp.i ∈ st.2 → sp.j ∈ st.2 → cwMergeStep dist vehicles st sp = st) := by
  refine ⟨savingsPairs_mem dist orders, savingsPairs_shape dist orders,
    savingOfPair_eq dist, List.sorted_insertionSort savGe _,
    List.perm_insertionSort savGe _, ?_⟩
  intro st sp hi hj
  rw [cwMergeStep, if_pos ⟨hi, hj⟩]

/-! ## No-duplication for Clarke-Wright -/

theorem setAdd_of_notMem {α : Type} [DecidableEq α] {s : List α} {x : α}
    (h : x ∉ s) : setAdd s x = s ++ [x] := by
  rw [setAdd, if_neg h]

theorem notMem_routesIds_of_findIdx_none (rs : List SRoute) (oid : String)
    (h : rs.findIdx? (fun r => routeHasId r oid) = none) :
    oid ∉ routesIdsS rs := by
  rw [List.findIdx?_eq_none_iff] at h
  intro hc
  rw [routesIdsS, List.mem_flatMap] at hc
  obtain ⟨r, hr, hid⟩ := hc
  have hfalse := h r hr
  rw [routeHasId] at hfalse
  simp only [List.contains_eq_any_beq, List.any_eq_false, beq_iff_eq] at hfalse
  exact hfalse _ hid (rfl)

/-- Appending one fresh route to the pool. -/
theorem routesIdsS_append_one (rs : List SRoute) (r : SRoute) :
    routesIdsS (rs ++ [r]) = routesIdsS rs ++ idsOfS r := by
  rw [routesIdsS, routesIdsS, List.flatMap_append, List.flatMap_cons,
    List.flatMap_nil, List.append_nil]

theorem idsOfS_addToRoute (r : SRoute) (o : SOrder) :
    idsOfS (addToRoute r o) = idsOfS r ++ [o.id] := by
  rw [addToRoute, idsOfS, idsOfS]
  simp only [List.map_append, List.map_cons, List.map_nil]

/-- Updating the route at a valid index `k` by appending the order `o`:
the pooled stop-id count grows by exactly the indicator of `o.id`. -/
theorem count_routesIds_set_add (rs : List SRoute) (k : Nat)
    (hk : k < rs.length) (o : SOrder) (z : String) :
    (routesIdsS (rs.set k (addToRoute rs[k] o))).count z =
      (routesIdsS rs).count z + (if o.id = z then 1 else 0) := by
  have h := count_flatMap_set rs k hk (addToRoute rs[k] o) idsOfS z
  rw [idsOfS_addToRoute, List.count_append, count_singleton_ite] at h
  rw [routesIdsS, routesIdsS]
  omega

theorem mem_routesIds_set_add {rs : List SRoute} {k : Nat}
    (hk : k < rs.length) {o : SOrder} {z : String}
    (h : z ∈ routesIdsS rs) :
    z ∈ routesIdsS (rs.set k (addToRoute rs[k] o)) := by
  have h1 : 0 < (routesIdsS rs).count z := List.count_pos_iff.mpr h
  have h2 := count_routesIds_set_add rs k hk o z
  exact List.count_pos_iff.mp (by omega)

theorem cwMergeStep_inv (dist : DistFn) (vehicles : List SVehicle)
    (orders : List SOrder) (st : List SRoute × List Nat) (sp : Saving)
    (hinv : CwInv orders st) (hij : sp.i < sp.j) (hjn : sp.j < orders.length)
    (hoi : sp.order_i = orders.getD sp.i default)
    (hoj : sp.order_j = orders.getD sp.j default) :
    CwInv orders (cwMergeStep dist vehicles st sp) := by
  obtain ⟨hnd, hrange, hmem, hcnt⟩ := hinv
  rw [cwMergeStep]
  by_cases hboth : sp.i ∈ st.2 ∧ sp.j ∈ st.2
  · rw [if_pos hboth]; exact ⟨hnd, hrange, hmem, hcnt⟩
  rw [if_neg hboth]
  cases hfi : st.1.findIdx? (fun r => routeHasId r sp.order_i.id) with
  | none =>
    cases hfj : st.1.findIdx? (fun r => routeHasId r sp.order_j.id) with
    | none =>
        have hnoti := notMem_routesIds_of_findIdx_none st.1 sp.order_i.id hfi
        have hnotj := notMem_routesIds_of_findIdx_none st.1 sp.order_j.id hfj
        have hinot : sp.i ∉ st.2 := fun hc => hnoti (hoi ▸ hmem _ hc)
        have hjnot : sp.j ∉ st.2 := fun hc => hnotj (hoj ▸ hmem _ hc)
        cases hfv : find_vehicle dist vehicles [sp.order_i, sp.order_j]
            (st.1.map (fun r => r.vehicle.id)) with
        | some v =>
            have hidx : setAdd (setAdd st.2 sp.i) sp.j = st.2 ++ [sp.i, sp.j] := by
              rw [setAdd_of_notMem hinot, setAdd_of_notMem (by
                intro hc
                rcases List.mem_append.mp hc with h | h
                · exact hjnot h
                · rcases List.mem_singleton.mp h with h
                  omega)]
              rw [List.append_assoc]
              rfl
            refine ⟨?_, ?_, ?_, ?_⟩
            · show (setAdd (setAdd st.2 sp.i) sp.j).Nodup
              rw [hidx, List.nodup_append]
              refine ⟨hnd, ?_, ?_⟩
              · refine List.nodup_cons.mpr ⟨?_, List.nodup_singleton sp.j⟩
                intro hc
                rcases List.mem_singleton.mp hc with h
                omega
              · intro a ha hb
                rcases List.mem_cons.mp hb with h | h
                · exact hinot (h ▸ ha)
                · rcases List.mem_singleton.mp h with h
                  exact hjnot (h ▸ ha)
            · show ∀ i ∈ setAdd (setAdd st.2 sp.i) sp.j, i < orders.length
              rw [hidx]
              intro i hi
              rcases List.mem_append.mp hi with h | h
              · exact hrange i h
              · rcases List.mem_cons.mp h with h | h
                · omega
                · rcases List.mem_singleton.mp h with h
                  omega
            · show ∀ i ∈ setAdd (setAdd st.2 sp.i) sp.j,
                (orders.getD i default).id ∈ routesIdsS (st.1 ++
                  [mkSRoute v [sp.order_i, sp.order_j]
                    (qadd sp.order_i.weight sp.order_j.weight)])
              rw [hidx, routesIdsS_append_one]
              intro i hi
              rcases List.mem_append.mp hi with h | h
              · exact List.mem_append.mpr (Or.inl (hmem i h))
              · refine List.mem_append.mpr (Or.inr ?_)
                show (orders.getD i default).id ∈ [sp.order_i.id, sp.order_j.id]
                rcases List.mem_cons.mp h with h | h
                · subst h; rw [← hoi]; exact List.mem_cons_self _ _
                · rcases List.mem_singleton.mp h with h
                  subst h; rw [← hoj]
                  exact List.mem_cons_of_mem _ (List.mem_cons_self _ _)
            · intro z
              rw [hidx, routesIdsS_append_one, List.count_append, List.map_append,
                List.count_append]
              have h1 : (idsOfS (mkSRoute v [sp.order_i, sp.order_j]
                  (qadd sp.order_i.weight sp.order_j.weight))).count z =
                  (([sp.i, sp.j]).map (fun i => (orders.getD i default).id)).count z := by
                show ([sp.order_i.id, sp.order_j.id]).count z = _
                rw [List.map_cons, List.map_cons, List.map_nil, ← hoi, ← hoj]
              have := hcnt z
              omega
        | none => exact ⟨hnd, hrange, hmem, hcnt⟩
    | some rj =>
        have hsome := List.findIdx?_eq_some_iff_getElem.mp hfj
        obtain ⟨hrj, hprj, -⟩ := hsome
        have hget : st.1.get? rj = some st.1[rj] := by
          rw [List.get?_eq_getElem?, List.getElem?_eq_getElem hrj]
        dsimp only
        rw [hget]
        dsimp only
        by_cases hca : can_add dist st.1[rj] sp.order_i
        · rw [if_pos hca]
          have hnoti := notMem_routesIds_of_findIdx_none st.1 sp.order_i.id hfi
          have hinot : sp.i ∉ st.2 := fun hc => hnoti (hoi ▸ hmem _ hc)
          refine ⟨?_, ?_, ?_, ?_⟩
          · show (setAdd st.2 sp.i).Nodup
            rw [setAdd_of_notMem hinot, List.nodup_append]
            exact ⟨hnd, List.nodup_singleton _, fun a ha hb =>
              hinot ((List.mem_singleton.mp hb) ▸ ha)⟩
          · show ∀ i ∈ setAdd st.2 sp.i, i < orders.length
            rw [setAdd_of_notMem hinot]
            intro i hi
            rcases List.mem_append.mp hi with h | h
            · exact hrange i h
            · rcases List.mem_singleton.mp h with h
              omega
          · show ∀ i ∈ setAdd st.2 sp.i, (orders.getD i default).id ∈
              routesIdsS (st.1.set rj (addToRoute st.1[rj] sp.order_i))
            rw [setAdd_of_notMem hinot]
            intro i hi
            rcases List.mem_append.mp hi with h | h
            · exact mem_routesIds_set_add hrj (hmem i h)
            · rcases List.mem_singleton.mp h with h
              subst h
              rw [← hoi]
              refine List.count_pos_iff.mp ?_
              rw [count_routesIds_set_add st.1 rj hrj sp.order_i sp.order_i.id,
                if_pos rfl]
              omega
          · intro z
            rw [count_routesIds_set_add st.1 rj hrj sp.order_i z,
              setAdd_of_notMem hinot, List.map_append, List.count_append]
            have := hcnt z
            have h1 : (([sp.i]).map (fun i => (orders.getD i default).id)).count z =
                (if sp.order_i.id = z then 1 else 0) := by
              rw [List.map_singleton, count_singleton_ite, ← hoi]
            omega
        · rw [if_neg hca]; exact ⟨hnd, hrange, hmem, hcnt⟩
  | some ri =>
    cases hfj : st.1.findIdx? (fun r => routeHasId r sp.order_j.id) with
    | none =>
        have hsome := List.findIdx?_eq_some_iff_getElem.mp hfi
        obtain ⟨hri, hpri, -⟩ := hsome
        have hget : st.1.get? ri = some st.1[ri] := by
          rw [List.get?_eq_getElem?, List.getElem?_eq_getElem hri]
        dsimp only
        rw [hget]
        dsimp only
        by_cases hca : can_add dist st.1[ri] sp.order_j
        · rw [if_pos hca]
          have hnotj := notMem_routesIds_of_findIdx_none st.1 sp.order_j.id hfj
          have hjnot : sp.j ∉ st.2 := fun hc => hnotj (hoj ▸ hmem _ hc)
          refine ⟨?_, ?_, ?_, ?_⟩
          · show (setAdd st.2 sp.j).Nodup
            rw [setAdd_of_notMem hjnot, List.nodup_append]
            exact ⟨hnd, List.nodup_singleton _, fun a ha hb =>
              hjnot ((List.mem_singleton.mp hb) ▸ ha)⟩
          · show ∀ i ∈ setAdd st.2 sp.j, i < orders.length
            rw [setAdd_of_notMem hjnot]
            intro i hi
            rcases List.mem_append.mp hi with h | h
            · exact hrange i h
            · rcases List.mem_singleton.mp h with h
              omega
          · show ∀ i ∈ setAdd st.2 sp.j, (orders.getD i default).id ∈
              routesIdsS (st.1.set ri (addToRoute st.1[ri] sp.order_j))
            rw [setAdd_of_notMem hjnot]
            intro i hi
            rcases List.mem_append.mp hi with h | h
            · exact mem_routesIds_set_add hri (hmem i h)
            · rcases List.mem_singleton.mp h with h
              subst h
              rw [← hoj]
              refine List.count_pos_iff.mp ?_
              rw [count_routesIds_set_add st.1 ri hri sp.order_j sp.order_j.id,
                if_pos rfl]
              omega
          · intro z
            rw [count_routesIds_set_add st.1 ri hri sp.order_j z,
              setAdd_of_notMem hjnot, List.map_append, List.count_append]
            have := hcnt z
            have h1 : (([sp.j]).map (fun i => (orders.getD i default).id)).count z =
                (if sp.order_j.id = z then 1 else 0) := by
              rw [List.map_singleton, count_singleton_ite, ← hoj]
            omega
        · rw [if_neg hca]; exact ⟨hnd, hrange, hmem, hcnt⟩
    | some rj => exact ⟨hnd, hrange, hmem, hcnt⟩

theorem cwRemainStep_inv (dist : DistFn) (vehicles : List SVehicle)
    (orders : List SOrder) (st : List SRoute × List Nat) (io : Nat × SOrder)
    (hinv : CwInv orders st) (hin : io.1 < orders.length)
    (ho : io.2 = orders.getD io.1 default) :
    CwInv orders (cwRemainStep dist vehicles st io) := by
  obtain ⟨hnd, hrange, hmem, hcnt⟩ := hinv
  rw [cwRemainStep]
  by_cases hassigned : io.1 ∈ st.2
  · rw [if_pos hassigned]; exact ⟨hnd, hrange, hmem, hcnt⟩
  rw [if_neg hassigned]
  cases hfk : st.1.findIdx? (fun r => can_add dist r io.2) with
  | some k =>
      have hsome := List.findIdx?_eq_some_iff_getElem.mp hfk
      obtain ⟨hk, -, -⟩ := hsome
      have hget : st.1.get? k = some st.1[k] := by
        rw [List.get?_eq_getElem?, List.getElem?_eq_getElem hk]
      dsimp only
      rw [hget]
      dsimp only
      refine ⟨?_, ?_, ?_, ?_⟩
      · show (setAdd st.2 io.1).Nodup
        rw [setAdd_of_notMem hassigned, List.nodup_append]
        exact ⟨hnd, List.nodup_singleton _, fun a ha hb =>
          hassigned ((List.mem_singleton.mp hb) ▸ ha)⟩
      · show ∀ i ∈ setAdd st.2 io.1, i < orders.length
        rw [setAdd_of_notMem hassigned]
        intro i hi
        rcases List.mem_append.mp hi with h | h
        · exact hrange i h
        · rcases List.mem_singleton.mp h with h
          omega
      · show ∀ i ∈ setAdd st.2 io.1, (orders.getD i default).id ∈
          routesIdsS (st.1.set k (addToRoute st.1[k] io.2))
        rw [setAdd_of_notMem hassigned]
        intro i hi
        rcases List.mem_append.mp hi with h | h
        · exact mem_routesIds_set_add hk (hmem i h)
        · rcases List.mem_singleton.mp h with h
          subst h
          rw [← ho]
          refine List.count_pos_iff.mp ?_
          rw [count_routesIds_set_add st.1 k hk io.2 io.2.id, if_pos rfl]
          omega
      · intro z
        rw [count_routesIds_set_add st.1 k hk io.2 z,
          setAdd_of_notMem hassigned, List.map_append, List.count_append]
        have := hcnt z
        have h1 : (([io.1]).map (fun i => (orders.getD i default).id)).count z =
            (if io.2.id = z then 1 else 0) := by
          rw [List.map_singleton, count_singleton_ite, ← ho]
        omega
  | none =>
      cases hfv : find_vehicle dist vehicles [io.2]
          (st.1.map (fun r => r.vehicle.id)) with
      | some v =>
          refine ⟨?_, ?_, ?_, ?_⟩
          · show (setAdd st.2 io.1).Nodup
            rw [setAdd_of_notMem hassigned, List.nodup_append]
            exact ⟨hnd, List.nodup_singleton _, fun a ha hb =>
              hassigned ((List.mem_singleton.mp hb) ▸ ha)⟩
          · show ∀ i ∈ setAdd st.2 io.1, i < orders.length
            rw [setAdd_of_notMem hassigned]
            intro i hi
            rcases List.mem_append.mp hi with h | h
            · exact hrange i h
            · rcases List.mem_singleton.mp h with h
              omega
          · show ∀ i ∈ setAdd st.2 io.1, (orders.getD i default).id ∈
              routesIdsS (st.1 ++ [mkSRoute v [io.2] io.2.weight])
            rw [setAdd_of_notMem hassigned, routesIdsS_append_one]
            intro i hi
            rcases List.mem_append.mp hi with h | h
            · exact List.mem_append.mpr (Or.inl (hmem i h))
            · rcases List.mem_singleton.mp h with h
              subst h
              refine List.mem_append.mpr (Or.inr ?_)
              rw [← ho]
              exact List.mem_singleton.mpr rfl
          · intro z
            rw [routesIdsS_append_one, List.count_append,
              setAdd_of_notMem hassigned, List.map_append, List.count_append]
            have := hcnt z
            have h1 : (idsOfS (mkSRoute v [io.2] io.2.weight)).count z =
                (([io.1]).map (fun i => (orders.getD i default).id)).count z := by
              show ([io.2.id]).count z = _
              rw [List.map_singleton, count_singleton_ite, count_singleton_ite, ← ho]
            omega
      | none => exact ⟨hnd, hrange, hmem, hcnt⟩

/-- Distinct in-range indices pick distinct order ids when the input ids
are duplicate-free. -/
theorem map_getD_ids_nodup (orders : List SOrder) (idxs : List Nat)
    (hnd : idxs.Nodup) (hrange : ∀ i ∈ idxs, i < orders.length)
    (hids : (orders.map (fun o => o.id)).Nodup) :
    (idxs.map (fun i => (orders.getD i default).id)).Nodup := by
  refine List.Nodup.map_on ?_ hnd
  intro x hx y hy hxy
  have hxl := hrange x hx
  have hyl := hrange y hy
  rw [List.getD_eq_getElem orders default hxl,
    List.getD_eq_getElem orders default hyl] at hxy
  have hx' : x < (orders.map (fun o => o.id)).length := by
    rw [List.length_map]; exact hxl
  have hy' : y < (orders.map (fun o => o.id)).length := by
    rw [List.length_map]; exact hyl
  have hmap : (orders.map (fun o => o.id))[x] = (orders.map (fun o => o.id))[y] := by
    rw [List.getElem_map, List.getElem_map]; exact hxy
  exact (hids.getElem_inj_iff).mp hmap

theorem cwMerge_fold_inv (dist : DistFn) (vehicles : List SVehicle)
    (orders : List SOrder) (sps : List Saving)
    (hsps : ∀ sp ∈ sps, sp.i < sp.j ∧ sp.j < orders.length ∧
      sp.order_i = orders.getD sp.i default ∧
      sp.order_j = orders.getD sp.j default) :
    ∀ st : List SRoute × List Nat, CwInv orders st →
      CwInv orders (sps.foldl (cwMergeStep dist vehicles) st) := by
  induction sps with
  | nil => exact fun st hinv => hinv
  | cons sp rest ih =>
      intro st hinv
      rw [List.foldl_cons]
      have h := hsps sp (List.mem_cons_self sp rest)
      exact ih (fun q hq => hsps q (List.mem_cons_of_mem _ hq)) _
        (cwMergeStep_inv dist vehicles orders st sp hinv h.1 h.2.1 h.2.2.1 h.2.2.2)

theorem cwRemain_fold_inv (dist : DistFn) (vehicles : List SVehicle)
    (orders : List SOrder) (ios : List (Nat × SOrder))
    (hios : ∀ io ∈ ios, io.1 < orders.length ∧ io.2 = orders.getD io.1 default) :
    ∀ st : List SRoute × List Nat, CwInv orders st →
      CwInv orders (ios.foldl (cwRemainStep dist vehicles) st) := by
  induction ios with
  | nil => exact fun st hinv => hinv
  | cons io rest ih =>
      intro st hinv
      rw [List.foldl_cons]
      have h := hios io (List.mem_cons_self io rest)
      exact ih (fun q hq => hios q (List.mem_cons_of_mem _ hq)) _
        (cwRemainStep_inv dist vehicles orders st io hinv h.1 h.2)

/-- The final 2-opt + metrics pass permutes each route's stop ids. -/
theorem routesIds_map_twoopt_metrics_perm (twoOpt : TwoOptFn)
    (metrics : MetricsFn) (ht : TwoOptPerm twoOpt) (hm : MetricsPreserves metrics)
    (rs : List SRoute) :
    (routesIdsS (rs.map (fun r =>
      metrics { r with orders := twoOpt r.orders DEPOT_LAT DEPOT_LNG }
        DEPOT_LAT DEPOT_LNG))).Perm (routesIdsS rs) := by
  induction rs with
  | nil => exact List.Perm.refl _
  | cons r rest ih =>
      rw [List.map_cons, routesIdsS, routesIdsS, List.flatMap_cons, List.flatMap_cons]
      refine List.Perm.append ?_ ih
      have horders := (hm { r with orders := twoOpt r.orders DEPOT_LAT DEPOT_LNG }
        DEPOT_LAT DEPOT_LNG).2.1
      rw [idsOfS, horders]
      show ((twoOpt r.orders DEPOT_LAT DEPOT_LNG).map (fun o => o.id)).Perm (idsOfS r)
      exact (ht r.orders DEPOT_LAT DEPOT_LNG).map _

/-- Clarke-Wright never places an order id twice, given duplicate-free
input ids. -/
theorem clarke_wright_nodup (orders : List SOrder) (vehicles : List SVehicle)
    (dist : DistFn) (twoOpt : TwoOptFn) (metrics : MetricsFn)
    (hids : (orders.map (fun o => o.id)).Nodup) (ht : TwoOptPerm twoOpt)
    (hm : MetricsPreserves metrics) :
    (routesIdsS
      (clarke_wright_savings_algorithm orders vehicles dist twoOpt metrics).1).Nodup := by
  rw [clarke_wright_savings_algorithm]
  dsimp only
  have hinv0 : CwInv orders ([], []) :=
    ⟨List.nodup_nil, fun i h => absurd h (List.not_mem_nil i),
      fun i h => absurd h (List.not_mem_nil i), fun z => Nat.le.refl⟩
  have h1 := cwMerge_fold_inv dist vehicles orders
    (sortSavings (savingsPairs dist orders))
    (fun sp hsp => by
      have hsp' : sp ∈ savingsPairs dist orders :=
        (List.perm_insertionSort savGe (savingsPairs dist orders)).mem_iff.mp hsp
      have h := savingsPairs_shape dist orders sp hsp'
      exact ⟨h.1, h.2.1, h.2.2.1, h.2.2.2.1⟩)
    ([], []) hinv0
  have h2 := cwRemain_fold_inv dist vehicles orders orders.enum
    (fun io hio => by
      obtain ⟨i, o⟩ := io
      have h := List.mem_enum hio
      exact ⟨h.1, by rw [h.2, List.getD_eq_getElem orders default h.1]⟩)
    _ h1
  obtain ⟨hnd, hrange, -, hcnt⟩ := h2
  have hperm := routesIds_map_twoopt_metrics_perm twoOpt metrics ht hm
    ((orders.enum.foldl (cwRemainStep dist vehicles)
      ((sortSavings (savingsPairs dist orders)).foldl (cwMergeStep dist vehicles)
        ([], []))).1)
  rw [hperm.nodup_iff]
  refine nodup_of_count_le ?_ (map_getD_ids_nodup orders _ hnd hrange hids)
  exact hcnt

theorem sweepHandle_inv (dist : DistFn) (vehiclesSorted : List SVehicle)
    (st : SweepSt) (cur : SweepCur) (o : SOrder)
    (hcur : st.current = some cur) (hnd : st.assigned.Nodup)
    (hcnt : ∀ z, (swIds st).count z ≤ st.assigned.count z)
    (hnew : o.id ∉ st.assigned) :
    (sweepHandle dist vehiclesSorted st cur o).assigned.Nodup ∧
    (∀ z, (swIds (sweepHandle dist vehiclesSorted st cur o)).count z ≤
      (sweepHandle dist vehiclesSorted st cur o).assigned.count z) ∧
    (∀ w, w ∈ (sweepHandle dist vehiclesSorted st cur o).assigned →
      w ∈ st.assigned ∨ w = o.id) := by
  have hswid : swIds st = routesIdsS st.routes ++ cur.2.1.map (fun o => o.id) := by
    rw [swIds, hcur]; rfl
  have hclosed : ∀ z, (routesIdsS (if cur.2.1 ≠ [] then
      st.routes ++ [mkSRoute cur.1 cur.2.1 cur.2.2] else st.routes)).count z =
      (swIds st).count z := by
    intro z
    by_cases hne : cur.2.1 ≠ []
    · rw [if_pos hne, routesIdsS_append_one, hswid, List.count_append, List.count_append]
      rfl
    · rw [if_neg hne, hswid, List.count_append]
      push_neg at hne
      rw [hne]
      rfl
  rw [sweepHandle]
  by_cases hadd : sweepCanAdd dist cur o
  · rw [if_pos hadd]
    refine ⟨?_, ?_, ?_⟩
    · show (setAdd st.assigned o.id).Nodup
      rw [setAdd_of_notMem hnew, List.nodup_append]
      exact ⟨hnd, List.nodup_singleton _, fun a ha hb =>
        hnew ((List.mem_singleton.mp hb) ▸ ha)⟩
    · intro z
      show (routesIdsS st.routes ++ (cur.2.1 ++ [o]).map (fun o => o.id)).count z ≤
        (setAdd st.assigned o.id).count z
      rw [setAdd_of_notMem hnew, List.map_append, List.count_append,
        List.count_append, List.count_append]
      have := hcnt z
      rw [hswid, List.count_append] at this
      have h1 : (([o] : List SOrder).map (fun o => o.id)).count z =
          ([o.id]).count z := rfl
      omega
    · intro w hw
      rcases List.mem_append.mp ((setAdd_of_notMem hnew) ▸ hw) with h | h
      · exact Or.inl h
      · exact Or.inr (List.mem_singleton.mp h)
  · rw [if_neg hadd]
    by_cases hvi : st.vehicleIdx < vehiclesSorted.length
    · rw [dif_pos hvi]
      refine ⟨?_, ?_, ?_⟩
      · show (setAdd st.assigned o.id).Nodup
        rw [setAdd_of_notMem hnew, List.nodup_append]
        exact ⟨hnd, List.nodup_singleton _, fun a ha hb =>
          hnew ((List.mem_singleton.mp hb) ▸ ha)⟩
      · intro z
        show (routesIdsS (if cur.2.1 ≠ [] then
            st.routes ++ [mkSRoute cur.1 cur.2.1 cur.2.2] else st.routes) ++
            ([o] : List SOrder).map (fun o => o.id)).count z ≤
          (setAdd st.assigned o.id).count z
        rw [List.count_append, hclosed z, setAdd_of_notMem hnew, List.count_append]
        have := hcnt z
        have h1 : ((([o] : List SOrder).map (fun o => o.id))).count z =
            ([o.id]).count z := rfl
        omega
      · intro w hw
        rcases List.mem_append.mp ((setAdd_of_notMem hnew) ▸ hw) with h | h
        · exact Or.inl h
        · exact Or.inr (List.mem_singleton.mp h)
    · rw [dif_neg hvi]
      refine ⟨hnd, ?_, fun w hw => Or.inl hw⟩
      intro z
      show (routesIdsS (if cur.2.1 ≠ [] then
          st.routes ++ [mkSRoute cur.1 cur.2.1 cur.2.2] else st.routes) ++
          swCurIds none).count z ≤ st.assigned.count z
      rw [List.count_append, hclosed z]
      have := hcnt z
      have h0 : (swCurIds none).count z = 0 := rfl
      omega

theorem sweepLoop_inv (dist : DistFn) (vehiclesSorted : List SVehicle) :
    ∀ (rest : List SOrder) (st : SweepSt), st.assigned.Nodup →
    (∀ z, (swIds st).count z ≤ st.assigned.count z) →
    (rest.map (fun o => o.id)).Nodup →
    (∀ o ∈ rest, o.id ∉ st.assigned) →
    (sweepLoop dist vehiclesSorted rest st).assigned.Nodup ∧
    (∀ z, (swIds (sweepLoop dist vehiclesSorted rest st)).count z ≤
      (sweepLoop dist vehiclesSorted rest st).assigned.count z) := by
  intro rest
  induction rest with
  | nil => exact fun st hnd hcnt _ _ => ⟨hnd, hcnt⟩
  | cons o rest ih =>
      intro st hnd hcnt hrid hdisj
      have hridrest : (rest.map (fun o => o.id)).Nodup :=
        (List.nodup_cons.mp hrid).2
      have honotin : o.id ∉ rest.map (fun o => o.id) := (List.nodup_cons.mp hrid).1
      rw [sweepLoop]
      cases hc : st.current with
      | some cur =>
          have h := sweepHandle_inv dist vehiclesSorted st cur o hc hnd hcnt
            (hdisj o (List.mem_cons_self o rest))
          refine ih _ h.1 h.2.1 hridrest ?_
          intro o' ho' hmem
          rcases h.2.2 o'.id hmem with hin | heq
          · exact hdisj o' (List.mem_cons_of_mem o ho') hin
          · exact honotin (heq ▸ List.mem_map_of_mem _ ho')
      | none =>
          by_cases hvi : st.vehicleIdx < vehiclesSorted.length
          · rw [dif_pos hvi]
            have hcnt1 : ∀ z, (swIds { st with
                current := some (vehiclesSorted.get ⟨st.vehicleIdx, hvi⟩, [], 0),
                vehicleIdx := st.vehicleIdx + 1 }).count z ≤ st.assigned.count z := by
              intro z
              show (routesIdsS st.routes ++
                (([] : List SOrder).map (fun o => o.id))).count z ≤ st.assigned.count z
              have := hcnt z
              rw [swIds, hc, List.count_append] at this
              rw [List.count_append]
              have h0 : ((swCurIds none)).count z = 0 := rfl
              have h1 : ((([] : List SOrder).map (fun o => o.id))).count z = 0 := rfl
              omega
            have h := sweepHandle_inv dist vehiclesSorted
              { st with
                current := some (vehiclesSorted.get ⟨st.vehicleIdx, hvi⟩, [], 0),
                vehicleIdx := st.vehicleIdx + 1 }
              (vehiclesSorted.get ⟨st.vehicleIdx, hvi⟩, [], 0) o rfl hnd hcnt1
              (hdisj o (List.mem_cons_self o rest))
            refine ih _ h.1 h.2.1 hridrest ?_
            intro o' ho' hmem
            rcases h.2.2 o'.id hmem with hin | heq
            · exact hdisj o' (List.mem_cons_of_mem o ho') hin
            · exact honotin (heq ▸ List.mem_map_of_mem _ ho')
          · rw [dif_neg hvi]
            exact ⟨hnd, hcnt⟩

/-- The final plain-metrics pass permutes each route's stop ids. -/
theorem routesIds_map_metrics_perm (metrics : MetricsFn)
    (hm : MetricsPreserves metrics) (rs : List SRoute) :
    (routesIdsS (rs.map (fun r => metrics r DEPOT_LAT DEPOT_LNG))).Perm
      (routesIdsS rs) := by
  induction rs with
  | nil => exact List.Perm.refl _
  | cons r rest ih =>
      rw [List.map_cons, routesIdsS, routesIdsS, List.flatMap_cons, List.flatMap_cons]
      refine List.Perm.append ?_ ih
      rw [idsOfS, (hm r DEPOT_LAT DEPOT_LNG).2.1]
      exact List.Perm.refl _

/-- The sweep never places an order id twice, given duplicate-free
input ids. -/
theorem sweep_nodup (orders : List SOrder) (vehicles : List SVehicle)
    (dist : DistFn) (twoOpt : TwoOptFn) (metrics : MetricsFn)
    (atan2M : ℚ → ℚ → ℚ)
    (hids : (orders.map (fun o => o.id)).Nodup)
    (hm : MetricsPreserves metrics) :
    (routesIdsS
      (sweep_algorithm orders vehicles dist twoOpt metrics atan2M).1).Nodup := by
  rw [sweep_algorithm]
  dsimp only
  set withAngles := orders.map (fun o =>
    (o, atan2M (qsub o.lat DEPOT_LAT) (qsub o.lng DEPOT_LNG))) with hwa
  have hperm : ((List.insertionSort angLe withAngles).map
      (fun p => p.1)).Perm orders := by
    have h1 := (List.perm_insertionSort angLe withAngles).map (fun p => p.1)
    have h2 : withAngles.map (fun p : SOrder × ℚ => p.1) = orders := by
      rw [hwa, List.map_map]
      exact List.map_id orders
    rw [h2] at h1
    exact h1
  have hsid : (((List.insertionSort angLe withAngles).map
      (fun p => p.1)).map (fun o => o.id)).Nodup :=
    ((hperm.map (fun o => o.id)).nodup_iff).mpr hids
  have hloop := sweepLoop_inv dist (List.insertionSort svehLe vehicles)
    ((List.insertionSort angLe withAngles).map (fun p => p.1))
    ⟨[], none, 0, []⟩ List.nodup_nil (fun z => Nat.le.refl) hsid
    (fun o _ hc => absurd hc (List.not_mem_nil o.id))
  set stf := sweepLoop dist (List.insertionSort svehLe vehicles)
    ((List.insertionSort angLe withAngles).map (fun p => p.1))
    ⟨[], none, 0, []⟩ with hstf
  obtain ⟨hnd, hcnt⟩ := hloop
  have hflush : ∀ z, (routesIdsS (match stf.current with
      | some cur => if cur.2.1 ≠ [] then
          stf.routes ++ [mkSRoute cur.1 cur.2.1 cur.2.2] else stf.routes
      | none => stf.routes)).count z ≤ (swIds stf).count z := by
    intro z
    cases hc : stf.current with
    | some cur =>
        dsimp only
        rw [swIds, hc]
        by_cases hne : cur.2.1 ≠ []
        · rw [if_pos hne, routesIdsS_append_one, List.count_append, List.count_append]
          exact Nat.le.refl
        · rw [if_neg hne, List.count_append]
          omega
    | none =>
        dsimp only
        rw [swIds, hc, List.count_append]
        omega
  refine nodup_of_count_le (m := stf.assigned) ?_ hnd
  intro z
  have h1 := (routesIds_map_metrics_perm metrics hm (match stf.current with
      | some cur => if cur.2.1 ≠ [] then stf.routes ++ [mkSRoute cur.1 cur.2.1 cur.2.2]
          else stf.routes
      | none => stf.routes)).count_eq z
  exact le_trans (le_of_eq h1) ((hflush z).trans (hcnt z))

/-! ## No-duplication for balanced multi-trip -/

theorem mem_setAdd {α : Type} [DecidableEq α] {s : List α} {x y : α} :
    y ∈ setAdd s x ↔ y ∈ s ∨ y = x := by
  rw [setAdd]
  by_cases h : x ∈ s
  · rw [if_pos h]
    constructor
    · exact Or.inl
    · rintro (hy | rfl)
      · exact hy
      · exact h
  · rw [if_neg h, List.mem_append, List.mem_singleton]

theorem setAdd_nodup {α : Type} [DecidableEq α] {s : List α} (hs : s.Nodup)
    (x : α) : (setAdd s x).Nodup := by
  rw [setAdd]
  by_cases h : x ∈ s
  · rw [if_pos h]; exact hs
  · rw [if_neg h, List.nodup_append]
    exact ⟨hs, List.nodup_singleton _, fun a ha hb =>
      h ((List.mem_singleton.mp hb) ▸ ha)⟩

theorem mem_dictKeys_foldl {x : String} :
    ∀ (l : List String) (acc : List String),
    (x ∈ l.foldl setAdd acc ↔ x ∈ acc ∨ x ∈ l) := by
  intro l
  induction l with
  | nil =>
      intro acc
      rw [List.foldl_nil]
      constructor
      · exact Or.inl
      · rintro (h | h)
        · exact h
        · cases h
  | cons y rest ih =>
      intro acc
      rw [List.foldl_cons, ih, mem_setAdd, List.mem_cons]
      constructor
      · rintro ((h | rfl) | h)
        · exact Or.inl h
        · exact Or.inr (Or.inl rfl)
        · exact Or.inr (Or.inr h)
      · rintro (h | (rfl | h))
        · exact Or.inl (Or.inl h)
        · exact Or.inl (Or.inr rfl)
        · exact Or.inr h

theorem mem_dictKeys {x : String} {l : List String} :
    x ∈ dictKeys l ↔ x ∈ l := by
  rw [dictKeys, mem_dictKeys_foldl]
  constructor
  · rintro (h | h)
    · cases h
    · exact h
  · exact Or.inr

theorem dictKeys_nodup (l : List String) : (dictKeys l).Nodup := by
  rw [dictKeys]
  have : ∀ (l : List String) (acc : List String), acc.Nodup →
      (l.foldl setAdd acc).Nodup := by
    intro l
    induction l with
    | nil => exact fun acc h => h
    | cons y rest ih =>
        intro acc hacc
        rw [List.foldl_cons]
        exact ih _ (setAdd_nodup hacc y)
  exact this l [] List.nodup_nil

/-- One scan step either keeps the accumulator or proposes the scanned
vehicle. -/
theorem bmScanStep_cases (dist : DistFn) (o : SOrder) (st : BmState)
    (best : Option (SVehicle × ℚ)) (v : SVehicle) :
    bmScanStep dist o st best v = best ∨
    ∃ sc, bmScanStep dist o st best v = some (v, sc) := by
  rw [bmScanStep]
  by_cases h1 : stype v = "bike" ∧ qofNat 15 < dist DEPOT_LAT DEPOT_LNG o.lat o.lng
  · rw [if_pos h1]; exact Or.inl rfl
  rw [if_neg h1]
  dsimp only
  by_cases h2 : qofNat 600 < qadd (st.time v.id)
      (qmul (qmul (qdiv (dist DEPOT_LAT DEPOT_LNG o.lat o.lng) (qofNat 40)) (qofNat 60)) (qofNat 2))
  · rw [if_pos h2]; exact Or.inl rfl
  rw [if_neg h2]
  cases best with
  | none => exact Or.inr ⟨_, rfl⟩
  | some p =>
      obtain ⟨w, bs⟩ := p
      dsimp only
      by_cases h3 : (if v.maxCapacity < qadd (st.load v.id) o.weight
          then qadd (qdiv (st.load v.id) v.maxCapacity) (qmk 1 2 (by norm_num))
          else qdiv (st.load v.id) v.maxCapacity) < bs
      · rw [if_pos h3]; exact Or.inr ⟨_, rfl⟩
      · rw [if_neg h3]; exact Or.inl rfl

/-- The selected vehicle comes from the scanned list. -/
theorem bmScan_foldl_mem (dist : DistFn) (o : SOrder) (st : BmState) :
    ∀ (l : List SVehicle) (acc : Option (SVehicle × ℚ)) (v : SVehicle) (sc : ℚ),
    l.foldl (bmScanStep dist o st) acc = some (v, sc) →
    (∃ sc0, acc = some (v, sc0)) ∨ v ∈ l := by
  intro l
  induction l with
  | nil => exact fun acc v sc h => Or.inl ⟨sc, h⟩
  | cons u rest ih =>
      intro acc v sc h
      rw [List.foldl_cons] at h
      rcases ih _ v sc h with ⟨sc0, hacc⟩ | hmem
      · rcases bmScanStep_cases dist o st acc u with heq | ⟨sc1, heq⟩
        · rw [heq] at hacc
          exact Or.inl ⟨sc0, hacc⟩
        · rw [heq] at hacc
          have hv : u = v := congrArg Prod.fst (Option.some.inj hacc)
          exact Or.inr (hv ▸ List.mem_cons_self u rest)
      · exact Or.inr (List.mem_cons_of_mem _ hmem)

/-- Closing a trip permutes its stop ids. -/
theorem bmCloseTrip_ids (twoOpt : TwoOptFn) (metrics : MetricsFn)
    (ht : TwoOptPerm twoOpt) (hm : MetricsPreserves metrics) (v : SVehicle)
    (tripOrders : List SOrder) (load : ℚ) (allRoutes : List SRoute) :
    (idsOfS (bmCloseTrip twoOpt metrics v tripOrders load allRoutes)).Perm
      (tripOrders.map (fun o => o.id)) := by
  rw [bmCloseTrip]
  rw [idsOfS, (hm _ DEPOT_LAT DEPOT_LNG).2.1]
  show ((twoOpt tripOrders DEPOT_LAT DEPOT_LNG).map (fun o => o.id)).Perm _
  exact (ht tripOrders DEPOT_LAT DEPOT_LNG).map _

/-- One order of the balanced loop adds at most one occurrence of its own
id to the pooled stops (closed routes plus open trips). -/
theorem bmOrderStep_cnt (dist : DistFn) (twoOpt : TwoOptFn) (metrics : MetricsFn)
    (sortedVehicles : List SVehicle) (ht : TwoOptPerm twoOpt)
    (hm : MetricsPreserves metrics) (keys : List String) (hk : keys.Nodup)
    (hkeys : ∀ v ∈ sortedVehicles, v.id ∈ keys) (st : BmState) (o : SOrder)
    (z : String) :
    (routesIdsS (bmOrderStep dist twoOpt metrics sortedVehicles st o).allRoutes ++
      bmTripsIds (bmOrderStep dist twoOpt metrics sortedVehicles st o) keys).count z ≤
    (routesIdsS st.allRoutes ++ bmTripsIds st keys).count z +
      ([o.id]).count z := by
  rw [bmOrderStep]
  cases hscan : sortedVehicles.foldl (bmScanStep dist o st) none with
  | none =>
      dsimp only
      omega
  | some p =>
      obtain ⟨v, sc⟩ := p
      have hvmem : v ∈ sortedVehicles := by
        rcases bmScan_foldl_mem dist o st sortedVehicles none v sc hscan with
          ⟨sc0, hc⟩ | h
        · cases hc
        · exact h
      have hvid : v.id ∈ keys := hkeys v hvmem
      dsimp only
      by_cases hover : v.maxCapacity < qadd (st.load v.id) o.weight
      · rw [if_pos hover]
        dsimp only
        have hupd := @count_flatMap_update_key
          (fun k => (st.trips k).map (fun o => o.id))
          (fun k => ((if k = v.id then [o] else st.trips k)).map (fun o => o.id))
          keys hk v.id hvid
          (fun k hkv => by dsimp only; rw [if_neg hkv]) z
        rw [if_pos rfl] at hupd
        have hclosed : (routesIdsS (if st.trips v.id ≠ [] then
            st.allRoutes ++ [bmCloseTrip twoOpt metrics v (st.trips v.id)
              (st.load v.id) st.allRoutes] else st.allRoutes)).count z =
            (routesIdsS st.allRoutes).count z +
              ((st.trips v.id).map (fun o => o.id)).count z := by
          by_cases htr : st.trips v.id ≠ []
          · rw [if_pos htr, routesIdsS_append_one, List.count_append,
              (bmCloseTrip_ids twoOpt metrics ht hm v (st.trips v.id)
                (st.load v.id) st.allRoutes).count_eq z]
          · rw [if_neg htr]
            push_neg at htr
            rw [htr]
            simp only [List.map_nil, List.count_nil]
            omega
        rw [List.count_append, List.count_append, bmTripsIds, bmTripsIds, hclosed]
        dsimp only
        have h1 : (([o] : List SOrder).map (fun o => o.id)).count z =
            ([o.id]).count z := rfl
        omega
      · rw [if_neg hover]
        dsimp only
        have hupd := @count_flatMap_update_key
          (fun k => (st.trips k).map (fun o => o.id))
          (fun k => ((if k = v.id then st.trips v.id ++ [o]
            else st.trips k)).map (fun o => o.id))
          keys hk v.id hvid
          (fun k hkv => by dsimp only; rw [if_neg hkv]) z
        rw [if_pos rfl] at hupd
        have h1 : ((st.trips v.id ++ [o]).map (fun o => o.id)).count z =
            ((st.trips v.id).map (fun o => o.id)).count z + ([o.id]).count z := by
          rw [List.map_append, List.count_append]
          rfl
        rw [List.count_append, List.count_append, bmTripsIds, bmTripsIds]
        dsimp only
        omega

theorem bmOrder_fold_cnt (dist : DistFn) (twoOpt : TwoOptFn) (metrics : MetricsFn)
    (sortedVehicles : List SVehicle) (ht : TwoOptPerm twoOpt)
    (hm : MetricsPreserves metrics) (keys : List String) (hk : keys.Nodup)
    (hkeys : ∀ v ∈ sortedVehicles, v.id ∈ keys) :
    ∀ (os : List SOrder) (st : BmState) (z : String),
    (routesIdsS ((os.foldl (bmOrderStep dist twoOpt metrics sortedVehicles) st)).allRoutes ++
      bmTripsIds (os.foldl (bmOrderStep dist twoOpt metrics sortedVehicles) st) keys).count z ≤
    (routesIdsS st.allRoutes ++ bmTripsIds st keys).count z +
      (os.map (fun o => o.id)).count z := by
  intro os
  induction os with
  | nil =>
      intro st z
      rw [List.foldl_nil]
      omega
  | cons o rest ih =>
      intro st z
      rw [List.foldl_cons]
      have h1 := ih (bmOrderStep dist twoOpt metrics sortedVehicles st o) z
      have h2 := bmOrderStep_cnt dist twoOpt metrics sortedVehicles ht hm keys hk
        hkeys st o z
      have h3 : ((o :: rest).map (fun o => o.id)).count z =
          ([o.id]).count z + (rest.map (fun o => o.id)).count z := by
        rw [List.map_cons, ← List.singleton_append, List.count_append]
      omega

/-- A flush step does not touch the open trips and moves at most the
flushed vehicle's trip ids into the closed pool. -/
theorem bmFlushStep_cnt (twoOpt : TwoOptFn) (metrics : MetricsFn)
    (sortedVehicles : List SVehicle) (ht : TwoOptPerm twoOpt)
    (hm : MetricsPreserves metrics) (st : BmState) (vid : String) (z : String) :
    (bmFlushStep twoOpt metrics sortedVehicles st vid).trips = st.trips ∧
    (routesIdsS (bmFlushStep twoOpt metrics sortedVehicles st vid).allRoutes).count z ≤
      (routesIdsS st.allRoutes).count z +
        ((st.trips vid).map (fun o => o.id)).count z := by
  rw [bmFlushStep]
  by_cases htr : st.trips vid ≠ []
  · rw [if_pos htr]
    cases hfv : sortedVehicles.find? (fun v => v.id = vid) with
    | some v =>
        refine ⟨rfl, ?_⟩
        show (routesIdsS (st.allRoutes ++ [bmCloseTrip twoOpt metrics v
          (st.trips vid) (st.load vid) st.allRoutes])).count z ≤ _
        rw [routesIdsS_append_one, List.count_append,
          (bmCloseTrip_ids twoOpt metrics ht hm v (st.trips vid)
            (st.load vid) st.allRoutes).count_eq z]
    | none =>
        refine ⟨rfl, ?_⟩
        show (routesIdsS st.allRoutes).count z ≤ _
        omega
  · rw [if_neg htr]
    exact ⟨rfl, by omega⟩

theorem bmFlush_fold_cnt (twoOpt : TwoOptFn) (metrics : MetricsFn)
    (sortedVehicles : List SVehicle) (ht : TwoOptPerm twoOpt)
    (hm : MetricsPreserves metrics) :
    ∀ (ks : List String) (st : BmState) (z : String),
    (routesIdsS ((ks.foldl (bmFlushStep twoOpt metrics sortedVehicles) st)).allRoutes).count z ≤
      (routesIdsS st.allRoutes ++ bmTripsIds st ks).count z := by
  intro ks
  induction ks with
  | nil =>
      intro st z
      rw [List.foldl_nil, bmTripsIds, List.flatMap_nil, List.append_nil]
  | cons k rest ih =>
      intro st z
      rw [List.foldl_cons]
      have h2 := bmFlushStep_cnt twoOpt metrics sortedVehicles ht hm st k z
      have h1 := ih (bmFlushStep twoOpt metrics sortedVehicles st k) z
      rw [bmTripsIds] at h1
      rw [h2.1] at h1
      rw [List.count_append] at h1
      rw [bmTripsIds, List.flatMap_cons, List.count_append, List.count_append]
      have h2' := h2.2
      omega

/-- Balanced multi-trip never places an order id twice, given
duplicate-free input ids. -/
theorem balanced_nodup (orders : List SOrder) (vehicles : List SVehicle)
    (dist : DistFn) (twoOpt : TwoOptFn) (metrics : MetricsFn)
    (hids : (orders.map (fun o => o.id)).Nodup) (ht : TwoOptPerm twoOpt)
    (hm : MetricsPreserves metrics) :
    (routesIdsS
      (balanced_multi_trip_algorithm orders vehicles dist twoOpt metrics).1).Nodup := by
  rw [balanced_multi_trip_algorithm]
  dsimp only
  have hk : (dictKeys ((List.insertionSort svehLe vehicles).map
      (fun v => v.id))).Nodup := dictKeys_nodup _
  have hkeys : ∀ v ∈ List.insertionSort svehLe vehicles,
      v.id ∈ dictKeys ((List.insertionSort svehLe vehicles).map (fun v => v.id)) :=
    fun v hv => mem_dictKeys.mpr (List.mem_map_of_mem _ hv)
  have hsid : ((List.insertionSort bmOrderLe orders).map (fun o => o.id)).Nodup :=
    (((List.perm_insertionSort bmOrderLe orders).map (fun o => o.id)).nodup_iff).mpr hids
  refine nodup_of_count_le (m := (List.insertionSort bmOrderLe orders).map
    (fun o => o.id)) ?_ hsid
  intro z
  have h1 := bmFlush_fold_cnt twoOpt metrics (List.insertionSort svehLe vehicles)
    ht hm (dictKeys ((List.insertionSort svehLe vehicles).map (fun v => v.id)))
    ((List.insertionSort bmOrderLe orders).foldl
      (bmOrderStep dist twoOpt metrics (List.insertionSort svehLe vehicles))
      ⟨fun _ => [], fun _ => 0, fun _ => 0, [], []⟩) z
  have h2 := bmOrder_fold_cnt dist twoOpt metrics (List.insertionSort svehLe vehicles)
    ht hm (dictKeys ((List.insertionSort svehLe vehicles).map (fun v => v.id)))
    hk hkeys (List.insertionSort bmOrderLe orders)
    ⟨fun _ => [], fun _ => 0, fun _ => 0, [], []⟩ z
  have h0 : (routesIdsS (⟨fun _ => [], fun _ => 0, fun _ => 0, [], []⟩ : BmState).allRoutes ++
      bmTripsIds ⟨fun _ => [], fun _ => 0, fun _ => 0, [], []⟩
        (dictKeys ((List.insertionSort svehLe vehicles).map (fun v => v.id)))).count z = 0 := by
    rw [List.count_append]
    have ha : (routesIdsS (⟨fun _ => [], fun _ => 0, fun _ => 0, [], []⟩ : BmState).allRoutes).count z = 0 := rfl
    have hb : (bmTripsIds ⟨fun _ => [], fun _ => 0, fun _ => 0, [], []⟩
        (dictKeys ((List.insertionSort svehLe vehicles).map (fun v => v.id)))).count z = 0 := by
      have hbEq : bmTripsIds (⟨fun _ => [], fun _ => 0, fun _ => 0, [], []⟩ : BmState)
          (dictKeys ((List.insertionSort svehLe vehicles).map (fun v => v.id))) = [] :=
        flatMap_nil_of _ _ (fun x _ => rfl)
      rw [hbEq]
      rfl
    omega
  omega

/-! ## No-duplication for the genetic algorithm -/

theorem rbind_ok {α β : Type} {m : RandM α} {f : α → RandM β} {s : RandS}
    {b : β} {s' : RandS} (h : (m >>= f) s = Except.ok (b, s')) :
    ∃ a s1, m s = Except.ok (a, s1) ∧ f a s1 = Except.ok (b, s') := by
  have h' : (match m s with
    | .ok (a, s1) => f a s1
    | .error e => (.error e : Except PyErr (β × RandS))) = .ok (b, s') := h
  cases hm : m s with
  | ok p =>
      obtain ⟨a, s1⟩ := p
      rw [hm] at h'
      exact ⟨a, s1, rfl, h'⟩
  | error e =>
      rw [hm] at h'
      cases h'

theorem rpure_ok {α : Type} {a b : α} {s s' : RandS}
    (h : (pure a : RandM α) s = Except.ok (b, s')) : b = a ∧ s' = s := by
  have h' : (Except.ok (a, s) : Except PyErr (α × RandS)) = .ok (b, s') := h
  have h2 := Except.ok.inj h'
  exact ⟨(congrArg Prod.fst h2).symm, (congrArg Prod.snd h2).symm⟩

theorem rthrow_not_ok {α : Type} {e : PyErr} {a : α} {s s' : RandS}
    (h : (rthrow e : RandM α) s = Except.ok (a, s')) : False := by
  cases h

/-- A drawn element together with the list it was erased from permutes
the original list. -/
theorem getElem_cons_eraseIdx_perm {α : Type} (l : List α) (i : Nat)
    (h : i < l.length) : (l[i] :: l.eraseIdx i).Perm l := by
  rw [List.eraseIdx_eq_take_drop_succ]
  conv_rhs => rw [← List.take_append_drop i l, List.drop_eq_getElem_cons h]
  exact List.perm_middle.symm

/-- `random.sample` draws a sub-permutation: the result extends to a
permutation of the input. -/
theorem sampleAux_perm {α : Type} :
    ∀ (k : Nat) (xs : List α) (s : RandS) (res : List α) (s' : RandS),
    sampleAux k xs s = Except.ok (res, s') → ∃ rest, (res ++ rest).Perm xs := by
  intro k
  induction k with
  | zero =>
      intro xs s res s' h
      obtain ⟨hres, -⟩ := rpure_ok h
      exact ⟨xs, by rw [hres, List.nil_append]⟩
  | succ k ih =>
      intro xs s res s' h
      rw [sampleAux] at h
      obtain ⟨n, s1, -, h2⟩ := rbind_ok h
      cases hg : xs.get? (n % xs.length) with
      | none =>
          rw [hg] at h2
          exact absurd h2 (fun hc => rthrow_not_ok hc)
      | some x =>
          rw [hg] at h2
          obtain ⟨res0, s2, h3, h4⟩ := rbind_ok h2
          obtain ⟨hres, -⟩ := rpure_ok h4
          obtain ⟨rest0, hperm⟩ := ih (xs.eraseIdx (n % xs.length)) s1 res0 s2 h3
          have hlt : n % xs.length < xs.length := by
            rcases List.get?_eq_some.mp hg with ⟨hlt', -⟩
            exact hlt'
          have hx : xs[n % xs.length] = x := by
            rcases List.get?_eq_some.mp hg with ⟨hlt', hget⟩
            rw [← hget]
            rfl
          refine ⟨rest0, ?_⟩
          rw [hres, List.cons_append]
          exact (hperm.cons x).trans (hx ▸ getElem_cons_eraseIdx_perm xs _ hlt)

theorem sample_perm {α : Type} {xs : List α} {k : Nat} {s : RandS}
    {res : List α} {s' : RandS} (h : sample xs k s = Except.ok (res, s')) :
    ∃ rest, (res ++ rest).Perm xs := by
  rw [sample] at h
  by_cases hlen : xs.length < k
  · rw [if_pos hlen] at h
    exact absurd h (fun hc => rthrow_not_ok hc)
  · rw [if_neg hlen] at h
    exact sampleAux_perm k xs s res s' h

theorem sample_count {α : Type} [DecidableEq α] {xs : List α} {k : Nat}
    {s : RandS} {res : List α} {s' : RandS}
    (h : sample xs k s = Except.ok (res, s')) (z : α) :
    res.count z ≤ xs.count z := by
  obtain ⟨rest, hperm⟩ := sample_perm h
  have := hperm.count_eq z
  rw [List.count_append] at this
  omega

theorem sample_nodup {α : Type} {xs : List α} {k : Nat} {s : RandS}
    {res : List α} {s' : RandS} (h : sample xs k s = Except.ok (res, s'))
    (hnd : xs.Nodup) : res.Nodup := by
  obtain ⟨rest, hperm⟩ := sample_perm h
  exact ((hperm.nodup_iff).mpr hnd).of_append_left

theorem sample_mem {α : Type} {xs : List α} {k : Nat} {s : RandS}
    {res : List α} {s' : RandS} (h : sample xs k s = Except.ok (res, s'))
    {x : α} (hx : x ∈ res) : x ∈ xs := by
  obtain ⟨rest, hperm⟩ := sample_perm h
  exact hperm.mem_iff.mp (List.mem_append.mpr (Or.inl hx))

theorem randintN_le {k : Nat} {s : RandS} {a : Nat} {s' : RandS}
    (h : randintN 0 k s = Except.ok (a, s')) : a ≤ k := by
  rw [randintN] at h
  rw [if_neg (by omega)] at h
  obtain ⟨n, s1, -, h2⟩ := rbind_ok h
  obtain ⟨ha, -⟩ := rpure_ok h2
  rw [ha]
  have : n % (k - 0 + 1) < k - 0 + 1 := Nat.mod_lt _ (by omega)
  omega

theorem chromIds_append_one (ch : Chrom) (p : String × List String) :
    chromIds (ch ++ [p]) = chromIds ch ++ p.2 := by
  rw [chromIds, chromIds, List.flatMap_append, List.flatMap_cons,
    List.flatMap_nil, List.append_nil]

/-- The greedy packing loop never invents ids: chromosome ids plus the
open load are bounded by the already-consumed input plus what is still
to come. -/
theorem gaPackLoop_cnt (vl : List SVehicle) :
    ∀ (os : List SOrder) (vIdx : Nat) (ch : Chrom) (load : List String) (w : ℚ)
      (z : String),
    (chromIds (gaPackLoop vl os vIdx ch load w).1 ++
      (if (gaPackLoop vl os vIdx ch load w).2.2 < vl.length
        then (gaPackLoop vl os vIdx ch load w).2.1 else [])).count z ≤
    (chromIds ch ++ (if vIdx < vl.length then load else []) ++
      os.map (fun o => o.id)).count z := by
  intro os
  induction os with
  | nil =>
      intro vIdx ch load w z
      rw [gaPackLoop]
      simp only [List.map_nil, List.append_nil]
      omega
  | cons o rest ih =>
      intro vIdx ch load w z
      rw [gaPackLoop]
      by_cases hv : vIdx < vl.length
      · rw [dif_pos hv, if_pos hv]
        dsimp only
        by_cases hfit : qadd w o.weight ≤ (vl.get ⟨vIdx, hv⟩).maxCapacity
        · rw [if_pos hfit]
          have h := ih vIdx ch (load ++ [o.id]) (qadd w o.weight) z
          rw [if_pos hv] at h
          simp only [List.count_append, List.map_cons, List.count_cons,
            List.count_nil] at h ⊢
          omega
        · rw [if_neg hfit]
          have hch : (chromIds (if load ≠ [] then
              ch ++ [((vl.get ⟨vIdx, hv⟩).id, load)] else ch)).count z =
              (chromIds ch).count z + load.count z := by
            by_cases hl : load ≠ []
            · rw [if_pos hl, chromIds_append_one, List.count_append]
            · rw [if_neg hl]
              push_neg at hl
              rw [hl, List.count_nil]
              omega
          by_cases hnext : vIdx + 1 < vl.length
          · rw [if_pos hnext]
            have h := ih (vIdx + 1)
              (if load ≠ [] then ch ++ [((vl.get ⟨vIdx, hv⟩).id, load)] else ch)
              [o.id] o.weight z
            rw [if_pos hnext] at h
            simp only [List.count_append, List.map_cons, List.count_cons,
              List.count_nil] at h hch ⊢
            omega
          · rw [if_neg hnext]
            have h := ih (vIdx + 1)
              (if load ≠ [] then ch ++ [((vl.get ⟨vIdx, hv⟩).id, load)] else ch)
              load w z
            rw [if_neg hnext] at h
            simp only [List.count_append, List.map_cons, List.count_cons,
              List.count_nil] at h hch ⊢
            omega
      · rw [dif_neg hv]
        dsimp only
        simp only [List.count_append, List.map_cons, List.count_cons,
          List.count_nil]
        omega

/-- A created chromosome mentions each input id at most as often as the
input does. -/
theorem create_chromosome_cnt {orders : List SOrder} {vehicles : List SVehicle}
    {s : RandS} {ch : Chrom} {s' : RandS}
    (h : create_chromosome orders vehicles s = Except.ok (ch, s')) (z : String) :
    (chromIds ch).count z ≤ (orders.map (fun o => o.id)).count z := by
  rw [create_chromosome] at h
  obtain ⟨order_list, s1, h1, h2⟩ := rbind_ok h
  obtain ⟨vehicle_list, s2, h3, h4⟩ := rbind_ok h2
  have hocnt : ∀ w, (order_list.map (fun o => o.id)).count w ≤
      (orders.map (fun o => o.id)).count w := by
    intro w
    obtain ⟨rest, hperm⟩ := sample_perm h1
    have := (hperm.map (fun o => o.id)).count_eq w
    rw [List.map_append, List.count_append] at this
    omega
  have hpack := gaPackLoop_cnt vehicle_list order_list 0 [] [] 0 z
  rw [ite_self] at hpack
  have hnil : chromIds ([] : Chrom) = [] := rfl
  rw [hnil, List.nil_append, List.nil_append] at hpack
  by_cases hcond : (gaPackLoop vehicle_list order_list 0 [] [] 0).2.1 ≠ [] ∧
      (gaPackLoop vehicle_list order_list 0 [] [] 0).2.2 < vehicle_list.length
  · rw [if_pos hcond] at h4
    obtain ⟨hch, -⟩ := rpure_ok h4
    rw [if_pos hcond.2] at hpack
    rw [hch, chromIds_append_one, List.count_append]
    dsimp only
    rw [List.count_append] at hpack
    exact le_trans (by omega) (hocnt z)
  · rw [if_neg hcond] at h4
    obtain ⟨hch, -⟩ := rpure_ok h4
    rw [hch]
    rw [List.count_append] at hpack
    exact le_trans (by omega) (hocnt z)

theorem chromIds_cons (p : String × List String) (ch : Chrom) :
    chromIds (p :: ch) = p.2 ++ chromIds ch := by
  rw [chromIds, chromIds, List.flatMap_cons]

/-- Duplicate-free chromosome ids make every segment duplicate-free. -/
theorem chromIds_nodup_seg {ch : Chrom} (h : (chromIds ch).Nodup) :
    ∀ p ∈ ch, p.2.Nodup := by
  induction ch with
  | nil => intro p hp; cases hp
  | cons q rest ih =>
      rw [chromIds_cons, List.nodup_append] at h
      intro p hp
      rcases List.mem_cons.mp hp with rfl | hp'
      · exact h.1
      · exact ih h.2.1 p hp'

/-- The crossover de-duplication produces duplicate-free ids whenever
every incoming segment is internally duplicate-free. -/
theorem gaDedup_nodup :
    ∀ (segs : Chrom) (seen : List String) (acc : Chrom),
    (chromIds acc).Nodup → (∀ z ∈ chromIds acc, z ∈ seen) →
    (∀ p ∈ segs, p.2.Nodup) →
    (chromIds (gaDedup segs seen acc)).Nodup := by
  intro segs
  induction segs with
  | nil => exact fun seen acc hnd _ _ => hnd
  | cons q rest ih =>
      intro seen acc hnd hseen hseg
      obtain ⟨vid, oids⟩ := q
      rw [gaDedup]
      by_cases hu : oids.filter (fun oid => oid ∉ seen) ≠ []
      · rw [if_pos hu]
        refine ih _ _ ?_ ?_ (fun p hp => hseg p (List.mem_cons_of_mem _ hp))
        · rw [chromIds_append_one, List.nodup_append]
          refine ⟨hnd, ?_, ?_⟩
          · exact (hseg (vid, oids) (List.mem_cons_self _ _)).filter _
          · intro z hz hzf
            have := (List.mem_filter.mp hzf).2
            exact (of_decide_eq_true this) (hseen z hz)
        · intro z hz
          rw [chromIds_append_one] at hz
          rcases List.mem_append.mp hz with h | h
          · exact List.mem_append.mpr (Or.inl (hseen z h))
          · exact List.mem_append.mpr (Or.inr h)
      · rw [if_neg hu]
        exact ih _ _ hnd hseen (fun p hp => hseg p (List.mem_cons_of_mem _ hp))

theorem crossover_ok {p1 p2 : Chrom} {s : RandS} {c : Chrom} {s' : RandS}
    (h1 : (chromIds p1).Nodup) (h2 : (chromIds p2).Nodup)
    (h : crossover p1 p2 s = Except.ok (c, s')) : (chromIds c).Nodup := by
  rw [crossover] at h
  by_cases hemp : p1 = [] ∨ p2 = []
  · rw [if_pos hemp] at h
    obtain ⟨hc, -⟩ := rpure_ok h
    rw [hc]
    by_cases hne : p1 ≠ []
    · rw [if_pos hne]; exact h1
    · rw [if_neg hne]; exact h2
  · rw [if_neg hemp] at h
    obtain ⟨point, s1, -, h3⟩ := rbind_ok h
    obtain ⟨hc, -⟩ := rpure_ok h3
    rw [hc]
    refine gaDedup_nodup _ [] [] List.nodup_nil (fun z hz => absurd hz
      (List.not_mem_nil z)) ?_
    intro p hp
    rcases List.mem_append.mp hp with hp' | hp'
    · exact chromIds_nodup_seg h1 p (List.mem_of_mem_take hp')
    · exact chromIds_nodup_seg h2 p (List.mem_of_mem_drop hp')

/-- The mutation swap preserves the multiset of chromosome ids. -/
theorem gaSwap_count (ch : Chrom) (i j a b : Nat) (hij : i ≠ j)
    (hi : i < ch.length) (hj : j < ch.length)
    (ha : a < (ch.getD i ("", [])).2.length)
    (hb : b < (ch.getD j ("", [])).2.length) (z : String) :
    (chromIds (gaSwap ch i j a b)).count z = (chromIds ch).count z := by
  have ha' : a < ch[i].2.length := by
    rw [← List.getD_eq_getElem ch ("", []) hi]; exact ha
  have hb' : b < ch[j].2.length := by
    rw [← List.getD_eq_getElem ch ("", []) hj]; exact hb
  rw [gaSwap]
  rw [List.getD_eq_getElem ch ("", []) hi, List.getD_eq_getElem ch ("", []) hj]
  rw [List.getD_eq_getElem ch[i].2 "" ha', List.getD_eq_getElem ch[j].2 "" hb']
  have h1 := count_flatMap_set ch i hi (ch[i].1, ch[i].2.set a ch[j].2[b])
    (fun p => p.2) z
  have h2 := count_set_elem ch[i].2 a ha' ch[j].2[b] z
  have hj2 : j < (ch.set i (ch[i].1, ch[i].2.set a ch[j].2[b])).length := by
    rw [List.length_set]; exact hj
  have h3 := count_flatMap_set (ch.set i (ch[i].1, ch[i].2.set a ch[j].2[b]))
    j hj2 (ch[j].1, ch[j].2.set b ch[i].2[a]) (fun p => p.2) z
  rw [List.getElem_set_ne hij hj2] at h3
  have h4 := count_set_elem ch[j].2 b hb' ch[i].2[a] z
  rw [chromIds, chromIds]
  dsimp only at h1 h3
  omega

theorem mutate_ok {ch : Chrom} {s : RandS} {c : Chrom} {s' : RandS}
    (hnd : (chromIds ch).Nodup) (h : mutate ch s = Except.ok (c, s')) :
    (chromIds c).Nodup := by
  rw [mutate] at h
  by_cases hemp : ch = []
  · rw [if_pos hemp] at h
    obtain ⟨hc, -⟩ := rpure_ok h
    rw [hc]; exact hnd
  rw [if_neg hemp] at h
  obtain ⟨r, s1, -, h2⟩ := rbind_ok h
  by_cases hr : qmk 1 5 (by norm_num) < r
  · rw [if_pos hr] at h2
    obtain ⟨hc, -⟩ := rpure_ok h2
    rw [hc]; exact hnd
  rw [if_neg hr] at h2
  obtain ⟨m, s2, -, h3⟩ := rbind_ok h2
  by_cases hm : m = "swap" ∧ 2 ≤ ch.length
  · rw [if_pos hm] at h3
    obtain ⟨ij, s3, hsample, h4⟩ := rbind_ok h3
    have hijnd : ij.Nodup := sample_nodup hsample (List.nodup_range _)
    have hijmem : ∀ x ∈ ij, x < ch.length :=
      fun x hx => List.mem_range.mp (sample_mem hsample hx)
    cases ij with
    | nil =>
        obtain ⟨hc, -⟩ := rpure_ok h4
        rw [hc]; exact hnd
    | cons i tl =>
        cases tl with
        | nil =>
            obtain ⟨hc, -⟩ := rpure_ok h4
            rw [hc]; exact hnd
        | cons j tl2 =>
            cases tl2 with
            | cons w tl3 =>
                obtain ⟨hc, -⟩ := rpure_ok h4
                rw [hc]; exact hnd
            | nil =>
                dsimp only at h4
                by_cases hne : (ch.getD i ("", [])).2 ≠ [] ∧
                    (ch.getD j ("", [])).2 ≠ []
                · rw [if_pos hne] at h4
                  obtain ⟨a, s4, hra, h5⟩ := rbind_ok h4
                  obtain ⟨b, s5, hrb, h6⟩ := rbind_ok h5
                  obtain ⟨hc, -⟩ := rpure_ok h6
                  rw [hc]
                  have hij : i ≠ j := by
                    intro hcon
                    have := (List.nodup_cons.mp hijnd).1
                    exact this (hcon ▸ List.mem_cons_self j [])
                  have hi : i < ch.length := hijmem i (List.mem_cons_self _ _)
                  have hj : j < ch.length :=
                    hijmem j (List.mem_cons_of_mem _ (List.mem_cons_self _ _))
                  have hlen1 : 0 < (ch.getD i ("", [])).2.length :=
                    List.length_pos.mpr hne.1
                  have hlen2 : 0 < (ch.getD j ("", [])).2.length :=
                    List.length_pos.mpr hne.2
                  have ha : a < (ch.getD i ("", [])).2.length := by
                    have := randintN_le hra
                    omega
                  have hb : b < (ch.getD j ("", [])).2.length := by
                    have := randintN_le hrb
                    omega
                  refine nodup_of_count_le (m := chromIds ch) ?_ hnd
                  intro z
                  exact le_of_eq (gaSwap_count ch i j a b hij hi hj ha hb z)
                · rw [if_neg hne] at h4
                  obtain ⟨hc, -⟩ := rpure_ok h4
                  rw [hc]; exact hnd
  · rw [if_neg hm] at h3
    obtain ⟨hc, -⟩ := rpure_ok h3
    rw [hc]; exact hnd

theorem gaTournament_ok {pop : List Chrom} {scores : List ℚ} {s : RandS}
    {c : Chrom} {s' : RandS} (hpop : ∀ ch ∈ pop, (chromIds ch).Nodup)
    (h : gaTournament pop scores s = Except.ok (c, s')) :
    (chromIds c).Nodup := by
  rw [gaTournament] at h
  obtain ⟨t, s1, -, h2⟩ := rbind_ok h
  obtain ⟨hc, -⟩ := rpure_ok h2
  rw [hc]
  by_cases hlt : gaArgmax scores t < pop.length
  · rw [List.getD_eq_getElem pop [] hlt]
    exact hpop _ (List.getElem_mem hlt)
  · rw [List.getD_eq_default pop [] (by omega)]
    exact List.nodup_nil

theorem gaChild_ok {pop : List Chrom} {scores : List ℚ} {s : RandS}
    {c : Chrom} {s' : RandS} (hpop : ∀ ch ∈ pop, (chromIds ch).Nodup)
    (h : gaChild pop scores s = Except.ok (c, s')) :
    (chromIds c).Nodup := by
  rw [gaChild] at h
  obtain ⟨p1, s1, hp1, h2⟩ := rbind_ok h
  obtain ⟨p2, s2, hp2, h3⟩ := rbind_ok h2
  obtain ⟨r, s3, -, h4⟩ := rbind_ok h3
  have hn1 := gaTournament_ok hpop hp1
  have hn2 := gaTournament_ok hpop hp2
  dsimp only at h4
  by_cases hrc : r < qmk 7 10 (by norm_num)
  · rw [if_pos hrc] at h4
    obtain ⟨child, s4, hchild, h5⟩ := rbind_ok h4
    exact mutate_ok (crossover_ok hn1 hn2 hchild) h5
  · rw [if_neg hrc] at h4
    obtain ⟨child, s4, hchild, h5⟩ := rbind_ok h4
    obtain ⟨hc, -⟩ := rpure_ok hchild
    exact mutate_ok (hc ▸ hn1) h5

theorem rmapM_ok {α β : Type} {P : β → Prop} (f : α → RandM β)
    (hf : ∀ x s y s', f x s = Except.ok (y, s') → P y) :
    ∀ (l : List α) (s : RandS) (ys : List β) (s' : RandS),
    rmapM f l s = Except.ok (ys, s') → ∀ y ∈ ys, P y := by
  intro l
  induction l with
  | nil =>
      intro s ys s' h y hy
      obtain ⟨hys, -⟩ := rpure_ok h
      rw [hys] at hy
      cases hy
  | cons x xs ih =>
      intro s ys s' h y hy
      rw [rmapM] at h
      obtain ⟨y0, s1, hf0, h2⟩ := rbind_ok h
      obtain ⟨ys0, s2, hrest, h3⟩ := rbind_ok h2
      obtain ⟨hys, -⟩ := rpure_ok h3
      rw [hys] at hy
      rcases List.mem_cons.mp hy with rfl | hy'
      · exact hf x s y s1 hf0
      · exact ih s1 ys0 s2 hrest y hy'

theorem gaGeneration_ok {metrics : MetricsFn} {orders : List SOrder}
    {vehicles : List SVehicle} {populationSize : Nat} {pop : List Chrom}
    {best : Option (ℚ × Chrom)} {s : RandS} {out : List Chrom × Option (ℚ × Chrom)}
    {s' : RandS} (hpop : ∀ ch ∈ pop, (chromIds ch).Nodup)
    (hbest : ∀ q c0, best = some (q, c0) → (chromIds c0).Nodup)
    (h : gaGeneration metrics orders vehicles populationSize pop best s =
      Except.ok (out, s')) :
    (∀ ch ∈ out.1, (chromIds ch).Nodup) ∧
    (∀ q c0, out.2 = some (q, c0) → (chromIds c0).Nodup) := by
  rw [gaGeneration] at h
  cases hms : gaMaxScore (pop.map (evaluate_fitness metrics orders vehicles)) with
  | none =>
      rw [hms] at h
      exact absurd h (fun hc => rthrow_not_ok hc)
  | some maxFit =>
      rw [hms] at h
      dsimp only at h
      obtain ⟨newPop, s1, hnew, h2⟩ := rbind_ok h
      obtain ⟨hout, -⟩ := rpure_ok h2
      rw [hout]
      constructor
      · exact rmapM_ok _ (fun x s y s' hy => gaChild_ok hpop hy) _ s newPop s1 hnew
      · intro q c0 hc0
        dsimp only at hc0
        have hg : (chromIds (pop.getD ((((pop.map (evaluate_fitness metrics orders
            vehicles)).findIdx? (fun x => x = maxFit))).getD 0) [])).Nodup := by
          by_cases hlt : (((pop.map (evaluate_fitness metrics orders
              vehicles)).findIdx? (fun x => x = maxFit))).getD 0 < pop.length
          · rw [List.getD_eq_getElem pop [] hlt]
            exact hpop _ (List.getElem_mem hlt)
          · rw [List.getD_eq_default pop [] (by omega)]
            exact List.nodup_nil
        cases best with
        | none =>
            dsimp only at hc0
            rw [if_pos rfl] at hc0
            have hcc : c0 = pop.getD ((((pop.map (evaluate_fitness metrics orders
              vehicles)).findIdx? (fun x => x = maxFit))).getD 0) [] :=
              (congrArg Prod.snd (Option.some.inj hc0)).symm
            rw [hcc]
            exact hg
        | some pbc =>
            obtain ⟨bf, bc⟩ := pbc
            dsimp only at hc0
            by_cases hbf : bf < maxFit
            · rw [if_pos (decide_eq_true hbf)] at hc0
              have hcc : c0 = pop.getD ((((pop.map (evaluate_fitness metrics orders
                vehicles)).findIdx? (fun x => x = maxFit))).getD 0) [] :=
                (congrArg Prod.snd (Option.some.inj hc0)).symm
              rw [hcc]
              exact hg
            · rw [if_neg (fun hcc => hbf (of_decide_eq_true hcc))] at hc0
              have hcc : c0 = bc :=
                (congrArg Prod.snd (Option.some.inj hc0)).symm
              rw [hcc]
              exact hbest bf bc rfl

theorem gaEvolve_ok {metrics : MetricsFn} {orders : List SOrder}
    {vehicles : List SVehicle} {populationSize : Nat} :
    ∀ (g : Nat) (pop : List Chrom) (best : Option (ℚ × Chrom)) (s : RandS)
      (res : Option (ℚ × Chrom)) (s' : RandS),
    (∀ ch ∈ pop, (chromIds ch).Nodup) →
    (∀ q c0, best = some (q, c0) → (chromIds c0).Nodup) →
    gaEvolve metrics orders vehicles populationSize g pop best s =
      Except.ok (res, s') →
    (∀ q c0, res = some (q, c0) → (chromIds c0).Nodup) := by
  intro g
  induction g with
  | zero =>
      intro pop best s res s' hpop hbest h
      obtain ⟨hres, -⟩ := rpure_ok h
      rw [hres]
      exact hbest
  | succ g ih =>
      intro pop best s res s' hpop hbest h
      rw [gaEvolve] at h
      obtain ⟨out, s1, hgen, h2⟩ := rbind_ok h
      have hg := gaGeneration_ok hpop hbest hgen
      exact ih out.1 out.2 s1 res s' hg.1 hg.2 h2

theorem omLookup_id {orders : List SOrder} {oid : String} {o : SOrder}
    (h : omLookup orders oid = some o) : o.id = oid := by
  rw [omLookup] at h
  have := List.find?_some h
  exact of_decide_eq_true this

theorem filterMap_omLookup_count (orders : List SOrder) (oids : List String)
    (z : String) :
    ((oids.filterMap (omLookup orders)).map (fun o => o.id)).count z ≤
      oids.count z := by
  induction oids with
  | nil => exact Nat.le.refl
  | cons oid rest ih =>
      rw [List.filterMap_cons]
      cases hf : omLookup orders oid with
      | none =>
          dsimp only
          rw [List.count_cons]
          omega
      | some o =>
          have hid : o.id = oid := omLookup_id hf
          dsimp only
          rw [List.map_cons, List.count_cons, List.count_cons, hid]
          omega

theorem chromIds_cons_pair (vid : String) (oids : List String) (ch : Chrom) :
    chromIds ((vid, oids) :: ch) = oids ++ chromIds ch := by
  rw [chromIds_cons]

theorem idsOfS_decodeRoute_count (twoOpt : TwoOptFn) (metrics : MetricsFn)
    (ht : TwoOptPerm twoOpt) (hm : MetricsPreserves metrics) (r : SRoute)
    (z : String) :
    (idsOfS (metrics { r with orders := twoOpt r.orders DEPOT_LAT DEPOT_LNG }
      DEPOT_LAT DEPOT_LNG)).count z = (r.orders.map (fun o => o.id)).count z := by
  rw [idsOfS, (hm _ DEPOT_LAT DEPOT_LNG).2.1]
  exact ((ht r.orders DEPOT_LAT DEPOT_LNG).map (fun o => o.id)).count_eq z

theorem gaDecode_cnt (twoOpt : TwoOptFn) (metrics : MetricsFn)
    (orders : List SOrder) (vehicles : List SVehicle) (ht : TwoOptPerm twoOpt)
    (hm : MetricsPreserves metrics) :
    ∀ (ch : Chrom) (acc : List SRoute) (routes : List SRoute),
    gaDecode twoOpt metrics orders vehicles ch acc = Except.ok routes →
    ∀ z, (routesIdsS routes).count z ≤ (routesIdsS acc ++ chromIds ch).count z := by
  intro ch
  induction ch with
  | nil =>
      intro acc routes h z
      have hacc : routes = acc := (Except.ok.inj h).symm
      rw [hacc, List.count_append]
      have : (chromIds ([] : Chrom)).count z = 0 := rfl
      omega
  | cons q rest ih =>
      obtain ⟨vid, oids⟩ := q
      intro acc routes h z
      rw [gaDecode] at h
      by_cases hne : oids.filterMap (omLookup orders) ≠ []
      · rw [if_pos hne] at h
        cases hvm : vmLookup vehicles vid with
        | none =>
            rw [hvm] at h
            cases h
        | some v =>
            rw [hvm] at h
            dsimp only at h
            have hrec := ih _ routes h z
            rw [routesIdsS_append_one] at hrec
            simp only [List.count_append] at hrec
            have hper := idsOfS_decodeRoute_count twoOpt metrics ht hm
              (mkSRoute v (oids.filterMap (omLookup orders))
                (qsum ((oids.filterMap (omLookup orders)).map (fun o => o.weight)))) z
            have hper2 := hper.trans (show
              (((mkSRoute v (oids.filterMap (omLookup orders))
                (qsum ((oids.filterMap (omLookup orders)).map
                  (fun o => o.weight)))).orders).map (fun o => o.id)).count z =
              (((oids.filterMap (omLookup orders)).map (fun o => o.id))).count z
              from rfl)
            have hfm := filterMap_omLookup_count orders oids z
            rw [chromIds_cons_pair, List.count_append, List.count_append]
            omega
      · rw [if_neg hne] at h
        have hrec := ih acc routes h z
        rw [chromIds_cons_pair]
        simp only [List.count_append] at hrec ⊢
        omega

/-- The genetic algorithm never places an order id twice in a successful
run, given duplicate-free input ids. -/
theorem genetic_nodup {orders : List SOrder} {vehicles : List SVehicle}
    {dist : DistFn} {twoOpt : TwoOptFn} {metrics : MetricsFn}
    {generations populationSize : Nat} {s : RandS}
    {res : List SRoute × Nat} {s' : RandS}
    (hids : (orders.map (fun o => o.id)).Nodup) (ht : TwoOptPerm twoOpt)
    (hm : MetricsPreserves metrics)
    (h : genetic_algorithm orders vehicles dist twoOpt metrics generations
      populationSize s = Except.ok (res, s')) :
    (routesIdsS res.1).Nodup := by
  rw [genetic_algorithm] at h
  obtain ⟨pop, s1, hpop0, h2⟩ := rbind_ok h
  have hpop : ∀ ch ∈ pop, (chromIds ch).Nodup := by
    refine rmapM_ok _ ?_ _ s pop s1 hpop0
    intro x sx y sy hy
    exact nodup_of_count_le (fun z => create_chromosome_cnt hy z) hids
  obtain ⟨best, s2, hevolve, h3⟩ := rbind_ok h2
  have hbest := gaEvolve_ok generations pop none s1 best s2 hpop
    (fun q c0 hc => by cases hc) hevolve
  cases best with
  | none =>
      dsimp only at h3
      exact absurd h3 (fun hc => rthrow_not_ok hc)
  | some p =>
      obtain ⟨q, b⟩ := p
      dsimp only at h3
      cases hdec : gaDecode twoOpt metrics orders vehicles b [] with
      | error e =>
          rw [hdec] at h3
          cases h3
      | ok routes =>
          rw [hdec] at h3
          have hres : res = (routes, (routes.map (fun r => r.orders.length)).sum) :=
            (congrArg Prod.fst (Except.ok.inj h3)).symm
          have hbnd : (chromIds b).Nodup := hbest q b rfl
          have hcnt := gaDecode_cnt twoOpt metrics orders vehicles ht hm b []
            routes hdec
          rw [hres]
          refine nodup_of_count_le (m := chromIds b) ?_ hbnd
          intro z
          have := hcnt z
          have hnil : (routesIdsS ([] : List SRoute) ++ chromIds b).count z =
              (chromIds b).count z := by
            rw [List.count_append]
            have : (routesIdsS ([] : List SRoute)).count z = 0 := rfl
            omega
          rw [hnil] at this
          exact this

/-- C8.  With pairwise-distinct input order ids, every algorithm's output
mentions each order id at most once across all routes (Distance-First and
Time-First need no distinctness hypothesis: their assigned-set guards
enforce it; the genetic statement covers every successful run). -/
theorem claim_C8 (dist : DistFn) (bOrders : List BOrder)
    (bVehicles : List BVehicle) (sOrders : List SOrder)
    (sVehicles : List SVehicle) (twoOpt : TwoOptFn) (metrics : MetricsFn)
    (atan2M : ℚ → ℚ → ℚ) (generations populationSize : Nat) (s : RandS)
    (res : List SRoute × Nat) (s' : RandS)
    (hids : (sOrders.map (fun o => o.id)).Nodup)
    (ht : TwoOptPerm twoOpt) (hm : MetricsPreserves metrics) :
    (routesIdsB (distance_first_algorithm dist bOrders bVehicles).1).Nodup
    ∧ (routesIdsB (time_first_algorithm dist bOrders bVehicles).1).Nodup
    ∧ (routesIdsS (clarke_wright_savings_algorithm sOrders sVehicles dist
        twoOpt metrics).1).Nodup
    ∧ (routesIdsS (sweep_algorithm sOrders sVehicles dist twoOpt metrics
        atan2M).1).Nodup
    ∧ (routesIdsS (balanced_multi_trip_algorithm sOrders sVehicles dist
        twoOpt metrics).1).Nodup
    ∧ (genetic_algorithm sOrders sVehicles dist twoOpt metrics generations
        populationSize s = Except.ok (res, s') → (routesIdsS res.1).Nodup) :=
  ⟨distance_first_nodup dist bOrders bVehicles,
   time_first_nodup dist bOrders bVehicles,
   clarke_wright_nodup sOrders sVehicles dist twoOpt metrics hids ht hm,
   sweep_nodup sOrders sVehicles dist twoOpt metrics atan2M hids hm,
   balanced_nodup sOrders sVehicles dist twoOpt metrics hids ht hm,
   fun h => genetic_nodup hids ht hm h⟩

/-- C8, witnessed at a concrete instance. -/
theorem claim_C8_witness :
    (([c1Order] : List SOrder).map (fun o => o.id)).Nodup ∧
    TwoOptPerm (two_opt_improve distZero) ∧
    MetricsPreserves (calculate_route_metrics distZero) ∧
    ((routesIdsB (distance_first_algorithm distZero [c3OrderA] [c3Truck]).1).Nodup
    ∧ (routesIdsB (time_first_algorithm distZero [c3OrderA] [c3Truck]).1).Nodup
    ∧ (routesIdsS (clarke_wright_savings_algorithm [c1Order] [c1Vehicle] distZero
        (two_opt_improve distZero) (calculate_route_metrics distZero)).1).Nodup
    ∧ (routesIdsS (sweep_algorithm [c1Order] [c1Vehicle] distZero
        (two_opt_improve distZero) (calculate_route_metrics distZero)
        (fun _ _ => 0)).1).Nodup
    ∧ (routesIdsS (balanced_multi_trip_algorithm [c1Order] [c1Vehicle] distZero
        (two_opt_improve distZero) (calculate_route_metrics distZero)).1).Nodup
    ∧ (genetic_algorithm [c1Order] [c1Vehicle] distZero
        (two_opt_improve distZero) (calculate_route_metrics distZero) 1 3
        (fun _ => 0) = Except.ok (([], 0), fun n => n + 21) →
        (routesIdsS ([] : List SRoute)).Nodup)) :=
  ⟨by decide, two_opt_improve_perm distZero,
   calculate_route_metrics_preserves distZero,
   claim_C8 distZero [c3OrderA] [c3Truck] [c1Order] [c1Vehicle]
     (two_opt_improve distZero) (calculate_route_metrics distZero)
     (fun _ _ => 0) 1 3 (fun _ => 0) ([], 0) (fun n => n + 21) (by decide)
     (two_opt_improve_perm distZero) (calculate_route_metrics_preserves distZero)⟩

/-! ## Nonempty routes (C10) -/

theorem ne_nil_of_getLast?_some {α : Type} {l : List α} {x : α}
    (h : l.getLast? = some x) : l ≠ [] := by
  intro heq
  rw [heq] at h
  cases h

theorem perm_ne_nil {α : Type} {l l' : List α} (h : l.Perm l')
    (hne : l' ≠ []) : l ≠ [] := by
  intro heq
  apply hne
  have := h.length_eq
  rw [heq] at this
  exact List.length_eq_zero.mp this.symm

/-- Distance-First only returns routes that served at least one order. -/
theorem distance_first_nonempty (dist : DistFn) (orders : List BOrder)
    (vehicles : List BVehicle) :
    ∀ r ∈ (distance_first_algorithm dist orders vehicles).1, r.orders ≠ [] := by
  rw [distance_first_algorithm]
  dsimp only
  have main : ∀ (vs : List BVehicle) (acc : List BRoute × List String),
      (∀ r ∈ acc.1, r.orders ≠ []) →
      ∀ r ∈ (vs.foldl (dfProcessVehicle dist orders) acc).1, r.orders ≠ [] := by
    intro vs
    induction vs with
    | nil => exact fun acc h => h
    | cons v rest ih =>
        intro acc h
        rw [List.foldl_cons]
        refine ih _ ?_
        rw [dfProcessVehicle]
        cases hlast : (dfVehicleLoop dist orders (bcap v) (bMaxRadius v)
            (orders.length + 1) ⟨v, [], 0, 0, 0, 0, 0⟩ depot_lat depot_lng
            (qofNat 480) acc.2).1.orders.getLast? with
        | none => exact h
        | some lastStop =>
            dsimp only
            intro r hr
            rcases List.mem_append.mp hr with hr' | hr'
            · exact h r hr'
            · rcases List.mem_singleton.mp hr' with rfl
              exact ne_nil_of_getLast?_some hlast
  exact main (sortVehicles vehicles) ([], []) (fun r hr => absurd hr
    (List.not_mem_nil r))

/-- Time-First only returns routes that served at least one order. -/
theorem time_first_nonempty (dist : DistFn) (orders : List BOrder)
    (vehicles : List BVehicle) :
    ∀ r ∈ (time_first_algorithm dist orders vehicles).1, r.orders ≠ [] := by
  rw [time_first_algorithm]
  dsimp only
  rw [tfFinish]
  have main : ∀ (works : List TfWork) (acc : List BRoute),
      (∀ r ∈ acc, r.orders ≠ []) →
      ∀ r ∈ works.foldl (fun acc w =>
        match w.route.orders.getLast? with
        | none => acc
        | some lastStop => acc ++ [{ w.route with
            totalDistance := pyRound1 (qadd w.route.totalDistance
              (dist (blat lastStop.ord) (blng lastStop.ord) depot_lat
                depot_lng)) }]) acc, r.orders ≠ [] := by
    intro works
    induction works with
    | nil => exact fun acc h => h
    | cons w rest ih =>
        intro acc h
        rw [List.foldl_cons]
        refine ih _ ?_
        cases hlast : w.route.orders.getLast? with
        | none => exact h
        | some lastStop =>
            dsimp only
            intro r hr
            rcases List.mem_append.mp hr with hr' | hr'
            · exact h r hr'
            · rcases List.mem_singleton.mp hr' with rfl
              exact ne_nil_of_getLast?_some hlast
  exact main _ [] (fun r hr => absurd hr (List.not_mem_nil r))

/-- The merge and remainder phases of Clarke-Wright only create or grow
nonempty routes. -/
theorem cwMergeStep_nonempty (dist : DistFn) (vehicles : List SVehicle)
    (st : List SRoute × List Nat) (sp : Saving)
    (h : ∀ r ∈ st.1, r.orders ≠ []) :
    ∀ r ∈ (cwMergeStep dist vehicles st sp).1, r.orders ≠ [] := by
  rw [cwMergeStep]
  by_cases hboth : sp.i ∈ st.2 ∧ sp.j ∈ st.2
  · rw [if_pos hboth]; exact h
  rw [if_neg hboth]
  cases hfi : st.1.findIdx? (fun r => routeHasId r sp.order_i.id) with
  | none =>
    cases hfj : st.1.findIdx? (fun r => routeHasId r sp.order_j.id) with
    | none =>
        cases hfv : find_vehicle dist vehicles [sp.order_i, sp.order_j]
            (st.1.map (fun r => r.vehicle.id)) with
        | some v =>
            intro r hr
            rcases List.mem_append.mp hr with hr' | hr'
            · exact h r hr'
            · rcases List.mem_singleton.mp hr' with rfl
              intro hc
              cases hc
        | none => exact h
    | some rj =>
        dsimp only
        cases hget : st.1.get? rj with
        | none => exact h
        | some r0 =>
            dsimp only
            by_cases hca : can_add dist r0 sp.order_i
            · rw [if_pos hca]
              intro r hr
              rcases List.mem_or_eq_of_mem_set hr with hr' | hr'
              · exact h r hr'
              · rw [hr', addToRoute]
                intro hc
                rcases List.append_eq_nil.mp hc with ⟨-, hc2⟩
                cases hc2
            · rw [if_neg hca]; exact h
  | some ri =>
    cases hfj : st.1.findIdx? (fun r => routeHasId r sp.order_j.id) with
    | none =>
        dsimp only
        cases hget : st.1.get? ri with
        | none => exact h
        | some r0 =>
            dsimp only
            by_cases hca : can_add dist r0 sp.order_j
            · rw [if_pos hca]
              intro r hr
              rcases List.mem_or_eq_of_mem_set hr with hr' | hr'
              · exact h r hr'
              · rw [hr', addToRoute]
                intro hc
                rcases List.append_eq_nil.mp hc with ⟨-, hc2⟩
                cases hc2
            · rw [if_neg hca]; exact h
    | some rj => exact h

theorem cwRemainStep_nonempty (dist : DistFn) (vehicles : List SVehicle)
    (st : List SRoute × List Nat) (io : Nat × SOrder)
    (h : ∀ r ∈ st.1, r.orders ≠ []) :
    ∀ r ∈ (cwRemainStep dist vehicles st io).1, r.orders ≠ [] := by
  rw [cwRemainStep]
  by_cases hassigned : io.1 ∈ st.2
  · rw [if_pos hassigned]; exact h
  rw [if_neg hassigned]
  cases hfk : st.1.findIdx? (fun r => can_add dist r io.2) with
  | some k =>
      dsimp only
      cases hget : st.1.get? k with
      | none => exact h
      | some r0 =>
          dsimp only
          intro r hr
          rcases List.mem_or_eq_of_mem_set hr with hr' | hr'
          · exact h r hr'
          · rw [hr', addToRoute]
            intro hc
            rcases List.append_eq_nil.mp hc with ⟨-, hc2⟩
            cases hc2
  | none =>
      cases hfv : find_vehicle dist vehicles [io.2]
          (st.1.map (fun r => r.vehicle.id)) with
      | some v =>
          intro r hr
          rcases List.mem_append.mp hr with hr' | hr'
          · exact h r hr'
          · rcases List.mem_singleton.mp hr' with rfl
            intro hc
            cases hc
      | none => exact h

theorem clarke_wright_nonempty (orders : List SOrder) (vehicles : List SVehicle)
    (dist : DistFn) (twoOpt : TwoOptFn) (metrics : MetricsFn)
    (ht : TwoOptPerm twoOpt) (hm : MetricsPreserves metrics) :
    ∀ r ∈ (clarke_wright_savings_algorithm orders vehicles dist twoOpt
      metrics).1, r.orders ≠ [] := by
  rw [clarke_wright_savings_algorithm]
  dsimp only
  have hmerge : ∀ (sps : List Saving) (st : List SRoute × List Nat),
      (∀ r ∈ st.1, r.orders ≠ []) →
      ∀ r ∈ (sps.foldl (cwMergeStep dist vehicles) st).1, r.orders ≠ [] := by
    intro sps
    induction sps with
    | nil => exact fun st h => h
    | cons sp rest ih =>
        intro st h
        rw [List.foldl_cons]
        exact ih _ (cwMergeStep_nonempty dist vehicles st sp h)
  have hremain : ∀ (ios : List (Nat × SOrder)) (st : List SRoute × List Nat),
      (∀ r ∈ st.1, r.orders ≠ []) →
      ∀ r ∈ (ios.foldl (cwRemainStep dist vehicles) st).1, r.orders ≠ [] := by
    intro ios
    induction ios with
    | nil => exact fun st h => h
    | cons io rest ih =>
        intro st h
        rw [List.foldl_cons]
        exact ih _ (cwRemainStep_nonempty dist vehicles st io h)
  intro r hr
  rcases List.mem_map.mp hr with ⟨r0, hr0, rfl⟩
  have hne : r0.orders ≠ [] :=
    hremain orders.enum _ (hmerge (sortSavings (savingsPairs dist orders))
      ([], []) (fun r hr => absurd hr (List.not_mem_nil r))) r0 hr0
  rw [(hm _ DEPOT_LAT DEPOT_LNG).2.1]
  show twoOpt r0.orders DEPOT_LAT DEPOT_LNG ≠ []
  exact perm_ne_nil (ht r0.orders DEPOT_LAT DEPOT_LNG) hne

theorem sweep_nonempty (orders : List SOrder) (vehicles : List SVehicle)
    (dist : DistFn) (twoOpt : TwoOptFn) (metrics : MetricsFn)
    (atan2M : ℚ → ℚ → ℚ) (hm : MetricsPreserves metrics) :
    ∀ r ∈ (sweep_algorithm orders vehicles dist twoOpt metrics atan2M).1,
      r.orders ≠ [] := by
  rw [sweep_algorithm]
  dsimp only
  have hstep : ∀ (st : SweepSt) (cur : SweepCur) (o : SOrder),
      (∀ r ∈ st.routes, r.orders ≠ []) →
      ∀ r ∈ (sweepHandle dist (List.insertionSort svehLe vehicles) st cur o).routes,
        r.orders ≠ [] := by
    intro st cur o h
    rw [sweepHandle]
    by_cases hadd : sweepCanAdd dist cur o
    · rw [if_pos hadd]; exact h
    rw [if_neg hadd]
    have hclosed : ∀ r ∈ (if cur.2.1 ≠ [] then
        st.routes ++ [mkSRoute cur.1 cur.2.1 cur.2.2] else st.routes),
        r.orders ≠ [] := by
      by_cases hne : cur.2.1 ≠ []
      · rw [if_pos hne]
        intro r hr
        rcases List.mem_append.mp hr with hr' | hr'
        · exact h r hr'
        · rcases List.mem_singleton.mp hr' with rfl
          exact hne
      · rw [if_neg hne]; exact h
    by_cases hvi : st.vehicleIdx < (List.insertionSort svehLe vehicles).length
    · rw [dif_pos hvi]; exact hclosed
    · rw [dif_neg hvi]; exact hclosed
  have hloop : ∀ (os : List SOrder) (st : SweepSt),
      (∀ r ∈ st.routes, r.orders ≠ []) →
      ∀ r ∈ (sweepLoop dist (List.insertionSort svehLe vehicles) os st).routes,
        r.orders ≠ [] := by
    intro os
    induction os with
    | nil => exact fun st h => h
    | cons o rest ih =>
        intro st h
        rw [sweepLoop]
        cases hc : st.current with
        | some cur => exact ih _ (hstep st cur o h)
        | none =>
            by_cases hvi : st.vehicleIdx < (List.insertionSort svehLe vehicles).length
            · rw [dif_pos hvi]
              exact ih _ (hstep _ _ o h)
            · rw [dif_neg hvi]
              exact h
  intro r hr
  rcases List.mem_map.mp hr with ⟨r0, hr0, rfl⟩
  have hloopres := hloop ((List.insertionSort angLe (orders.map (fun o =>
    (o, atan2M (qsub o.lat DEPOT_LAT) (qsub o.lng DEPOT_LNG))))).map
    (fun p => p.1)) ⟨[], none, 0, []⟩ (fun r hr => absurd hr (List.not_mem_nil r))
  have hne : r0.orders ≠ [] := by
    revert hr0
    cases hcur : (sweepLoop dist (List.insertionSort svehLe vehicles)
        ((List.insertionSort angLe (orders.map (fun o =>
          (o, atan2M (qsub o.lat DEPOT_LAT) (qsub o.lng DEPOT_LNG))))).map
          (fun p => p.1)) ⟨[], none, 0, []⟩).current with
    | some cur =>
        dsimp only
        by_cases hnec : cur.2.1 ≠ []
        · rw [if_pos hnec]
          intro hr0
          rcases List.mem_append.mp hr0 with hr' | hr'
          · exact hloopres r0 hr'
          · rcases List.mem_singleton.mp hr' with rfl
            exact hnec
        · rw [if_neg hnec]
          exact hloopres r0
    | none =>
        dsimp only
        exact hloopres r0
  rw [(hm r0 DEPOT_LAT DEPOT_LNG).2.1]
  exact hne

theorem bmCloseTrip_nonempty (twoOpt : TwoOptFn) (metrics : MetricsFn)
    (ht : TwoOptPerm twoOpt) (hm : MetricsPreserves metrics) (v : SVehicle)
    (tripOrders : List SOrder) (load : ℚ) (allRoutes : List SRoute)
    (hne : tripOrders ≠ []) :
    (bmCloseTrip twoOpt metrics v tripOrders load allRoutes).orders ≠ [] := by
  rw [bmCloseTrip]
  rw [(hm _ DEPOT_LAT DEPOT_LNG).2.1]
  show twoOpt tripOrders DEPOT_LAT DEPOT_LNG ≠ []
  exact perm_ne_nil (ht tripOrders DEPOT_LAT DEPOT_LNG) hne

theorem balanced_nonempty (orders : List SOrder) (vehicles : List SVehicle)
    (dist : DistFn) (twoOpt : TwoOptFn) (metrics : MetricsFn)
    (ht : TwoOptPerm twoOpt) (hm : MetricsPreserves metrics) :
    ∀ r ∈ (balanced_multi_trip_algorithm orders vehicles dist twoOpt
      metrics).1, r.orders ≠ [] := by
  rw [balanced_multi_trip_algorithm]
  dsimp only
  have hstep : ∀ (st : BmState) (o : SOrder),
      (∀ r ∈ st.allRoutes, r.orders ≠ []) →
      ∀ r ∈ (bmOrderStep dist twoOpt metrics (List.insertionSort svehLe vehicles)
        st o).allRoutes, r.orders ≠ [] := by
    intro st o h
    rw [bmOrderStep]
    cases hscan : (List.insertionSort svehLe vehicles).foldl
        (bmScanStep dist o st) none with
    | none => exact h
    | some p =>
        obtain ⟨v, sc⟩ := p
        dsimp only
        by_cases hover : v.maxCapacity < qadd (st.load v.id) o.weight
        · rw [if_pos hover]
          dsimp only
          by_cases htr : st.trips v.id ≠ []
          · rw [if_pos htr]
            intro r hr
            rcases List.mem_append.mp hr with hr' | hr'
            · exact h r hr'
            · rcases List.mem_singleton.mp hr' with rfl
              exact bmCloseTrip_nonempty twoOpt metrics ht hm v _ _ _ htr
          · rw [if_neg htr]
            exact h
        · rw [if_neg hover]
          exact h
  have hflush : ∀ (ks : List String) (st : BmState),
      (∀ r ∈ st.allRoutes, r.orders ≠ []) →
      ∀ r ∈ (ks.foldl (bmFlushStep twoOpt metrics
        (List.insertionSort svehLe vehicles)) st).allRoutes, r.orders ≠ [] := by
    intro ks
    induction ks with
    | nil => exact fun st h => h
    | cons k rest ih =>
        intro st h
        rw [List.foldl_cons]
        refine ih _ ?_
        rw [bmFlushStep]
        by_cases htr : st.trips k ≠ []
        · rw [if_pos htr]
          cases hfv : (List.insertionSort svehLe vehicles).find?
              (fun v => v.id = k) with
          | some v =>
              intro r hr
              rcases List.mem_append.mp hr with hr' | hr'
              · exact h r hr'
              · rcases List.mem_singleton.mp hr' with rfl
                exact bmCloseTrip_nonempty twoOpt metrics ht hm v _ _ _ htr
          | none => exact h
        · rw [if_neg htr]
          exact h
  have horder : ∀ (os : List SOrder) (st : BmState),
      (∀ r ∈ st.allRoutes, r.orders ≠ []) →
      ∀ r ∈ (os.foldl (bmOrderStep dist twoOpt metrics
        (List.insertionSort svehLe vehicles)) st).allRoutes, r.orders ≠ [] := by
    intro os
    induction os with
    | nil => exact fun st h => h
    | cons o rest ih =>
        intro st h
        rw [List.foldl_cons]
        exact ih _ (hstep st o h)
  exact hflush _ _ (horder _ _ (fun r hr => absurd hr (List.not_mem_nil r)))

theorem gaDecode_nonempty (twoOpt : TwoOptFn) (metrics : MetricsFn)
    (orders : List SOrder) (vehicles : List SVehicle) (ht : TwoOptPerm twoOpt)
    (hm : MetricsPreserves metrics) :
    ∀ (ch : Chrom) (acc : List SRoute) (routes : List SRoute),
    gaDecode twoOpt metrics orders vehicles ch acc = Except.ok routes →
    (∀ r ∈ acc, r.orders ≠ []) → ∀ r ∈ routes, r.orders ≠ [] := by
  intro ch
  induction ch with
  | nil =>
      intro acc routes h hacc
      have : routes = acc := (Except.ok.inj h).symm
      rw [this]
      exact hacc
  | cons q rest ih =>
      obtain ⟨vid, oids⟩ := q
      intro acc routes h hacc
      rw [gaDecode] at h
      by_cases hne : oids.filterMap (omLookup orders) ≠ []
      · rw [if_pos hne] at h
        cases hvm : vmLookup vehicles vid with
        | none => rw [hvm] at h; cases h
        | some v =>
            rw [hvm] at h
            dsimp only at h
            refine ih _ routes h ?_
            intro r hr
            rcases List.mem_append.mp hr with hr' | hr'
            · exact hacc r hr'
            · rcases List.mem_singleton.mp hr' with rfl
              rw [(hm _ DEPOT_LAT DEPOT_LNG).2.1]
              show twoOpt (oids.filterMap (omLookup orders)) DEPOT_LAT DEPOT_LNG ≠ []
              exact perm_ne_nil (ht _ DEPOT_LAT DEPOT_LNG) hne
      · rw [if_neg hne] at h
        exact ih acc routes h hacc

theorem genetic_nonempty {orders : List SOrder} {vehicles : List SVehicle}
    {dist : DistFn} {twoOpt : TwoOptFn} {metrics : MetricsFn}
    {generations populationSize : Nat} {s : RandS}
    {res : List SRoute × Nat} {s' : RandS} (ht : TwoOptPerm twoOpt)
    (hm : MetricsPreserves metrics)
    (h : genetic_algorithm orders vehicles dist twoOpt metrics generations
      populationSize s = Except.ok (res, s')) :
    ∀ r ∈ res.1, r.orders ≠ [] := by
  rw [genetic_algorithm] at h
  obtain ⟨pop, s1, -, h2⟩ := rbind_ok h
  obtain ⟨best, s2, -, h3⟩ := rbind_ok h2
  cases best with
  | none =>
      dsimp only at h3
      exact absurd h3 (fun hc => rthrow_not_ok hc)
  | some p =>
      obtain ⟨q, b⟩ := p
      dsimp only at h3
      cases hdec : gaDecode twoOpt metrics orders vehicles b [] with
      | error e => rw [hdec] at h3; cases h3
      | ok routes =>
          rw [hdec] at h3
          have hres : res = (routes, (routes.map (fun r => r.orders.length)).sum) :=
            (congrArg Prod.fst (Except.ok.inj h3)).symm
          rw [hres]
          exact gaDecode_nonempty twoOpt metrics orders vehicles ht hm b []
            routes hdec (fun r hr => absurd hr (List.not_mem_nil r))

/-- C10.  Every returned route of every algorithm contains at least one
stop: vehicles that receive no orders contribute no route (the genetic
statement covers every successful run). -/
theorem claim_C10 (dist : DistFn) (bOrders : List BOrder)
    (bVehicles : List BVehicle) (sOrders : List SOrder)
    (sVehicles : List SVehicle) (twoOpt : TwoOptFn) (metrics : MetricsFn)
    (atan2M : ℚ → ℚ → ℚ) (generations populationSize : Nat) (s : RandS)
    (res : List SRoute × Nat) (s' : RandS)
    (ht : TwoOptPerm twoOpt) (hm : MetricsPreserves metrics) :
    (∀ r ∈ (distance_first_algorithm dist bOrders bVehicles).1, r.orders ≠ [])
    ∧ (∀ r ∈ (time_first_algorithm dist bOrders bVehicles).1, r.orders ≠ [])
    ∧ (∀ r ∈ (clarke_wright_savings_algorithm sOrders sVehicles dist twoOpt
        metrics).1, r.orders ≠ [])
    ∧ (∀ r ∈ (sweep_algorithm sOrders sVehicles dist twoOpt metrics
        atan2M).1, r.orders ≠ [])
    ∧ (∀ r ∈ (balanced_multi_trip_algorithm sOrders sVehicles dist twoOpt
        metrics).1, r.orders ≠ [])
    ∧ (genetic_algorithm sOrders sVehicles dist twoOpt metrics generations
        populationSize s = Except.ok (res, s') →
        ∀ r ∈ res.1, r.orders ≠ []) :=
  ⟨distance_first_nonempty dist bOrders bVehicles,
   time_first_nonempty dist bOrders bVehicles,
   clarke_wright_nonempty sOrders sVehicles dist twoOpt metrics ht hm,
   sweep_nonempty sOrders sVehicles dist twoOpt metrics atan2M hm,
   balanced_nonempty sOrders sVehicles dist twoOpt metrics ht hm,
   fun h => genetic_nonempty ht hm h⟩

/-- C10, witnessed at a concrete instance. -/
theorem claim_C10_witness :
    TwoOptPerm (two_opt_improve distZero) ∧
    MetricsPreserves (calculate_route_metrics distZero) ∧
    ((∀ r ∈ (distance_first_algorithm distZero [c3OrderA] [c3Truck]).1,
        r.orders ≠ [])
    ∧ (∀ r ∈ (time_first_algorithm distZero [c3OrderA] [c3Truck]).1,
        r.orders ≠ [])
    ∧ (∀ r ∈ (clarke_wright_savings_algorithm [c1Order] [c1Vehicle] distZero
        (two_opt_improve distZero) (calculate_route_metrics distZero)).1,
        r.orders ≠ [])
    ∧ (∀ r ∈ (sweep_algorithm [c1Order] [c1Vehicle] distZero
        (two_opt_improve distZero) (calculate_route_metrics distZero)
        (fun _ _ => 0)).1, r.orders ≠ [])
    ∧ (∀ r ∈ (balanced_multi_trip_algorithm [c1Order] [c1Vehicle] distZero
        (two_opt_improve distZero) (calculate_route_metrics distZero)).1,
        r.orders ≠ [])
    ∧ (genetic_algorithm [c1Order] [c1Vehicle] distZero
        (two_opt_improve distZero) (calculate_route_metrics distZero) 1 3
        (fun _ => 0) = Except.ok (([], 0), fun n => n + 21) →
        ∀ r ∈ ([] : List SRoute), r.orders ≠ [])) :=
  ⟨two_opt_improve_perm distZero, calculate_route_metrics_preserves distZero,
   claim_C10 distZero [c3OrderA] [c3Truck] [c1Order] [c1Vehicle]
     (two_opt_improve distZero) (calculate_route_metrics distZero)
     (fun _ _ => 0) 1 3 (fun _ => 0) ([], 0) (fun n => n + 21)
     (two_opt_improve_perm distZero) (calculate_route_metrics_preserves distZero)⟩
